import Mathlib

/-!
# cdba: device power-up state machine, conmux driver, board registry, catalog parser

A shallow embedding of `device.c`, `conmux.c` and `device_parser.c`.

* C `char` values are modelled as natural numbers (byte values); a C string is a
  `List Nat` whose end, or first `0` element, plays the role of the terminating NUL.
* Calls into a driver and into the reactor are recorded as values of `Call`, in program
  order.
* A call through a NULL function pointer, a NULL string argument to a libc function and a
  write past the end of a fixed-size buffer are undefined behaviour in C; the embedding
  makes each of them an explicit outcome (`none`, `fault`, `overrun`).
* libyaml is the list of events it delivers for the configuration file; `exit(1)` is the
  outcome `Run.exit 1`.
-/

namespace Cdba

/-! ## device.h -/

/-- Key identifier, from `enum { DEVICE_KEY_FASTBOOT, DEVICE_KEY_POWER }`. -/
def DEVICE_KEY_FASTBOOT : Nat := 0

/-- Key identifier, from `enum { DEVICE_KEY_FASTBOOT, DEVICE_KEY_POWER }`. -/
def DEVICE_KEY_POWER : Nat := 1

/-- The `struct control_ops`: a table of optional function pointers; a field is `true` when the
pointer is set. -/
structure control_ops where
  open_ : Bool
  close : Bool
  power : Bool
  usb : Bool
  key : Bool
  print_status : Bool
deriving DecidableEq, Repr

/-- The `struct console_ops`: a table of optional function pointers; a field is `true` when
the pointer is set. -/
structure console_ops where
  open_ : Bool
  write : Bool
  send_break : Bool
deriving DecidableEq, Repr

/-- The `struct device`, with the fields read or written by the power-up state machine, the
registry lookup and the list and info responders. `fastboot_key_timeout` is an
`unsigned int`, `state` an `int` holding one of the `DEVICE_STATE_*` values; a `char *` field
is `none` while the pointer is NULL and otherwise holds the bytes of its C string. -/
structure device where
  fastboot_key_timeout : Nat
  state : Nat
  has_power_key : Bool
  usb_always_on : Bool
  control_ops : Option control_ops
  board : Option (List Nat) := none
  name : Option (List Nat) := none
  serial : Option (List Nat) := none
  description : Option (List Nat) := none
  console_ops : Option console_ops := none
deriving DecidableEq, Repr

/-- A call that leaves `device.c`: into the control driver or into the reactor. -/
inductive Call where
  | key (key : Nat) (asserted : Bool)
  | power (on_ : Bool)
  | usb (on_ : Bool)
  | timer (timeout_ms : Nat)
deriving DecidableEq, Repr

/-! ## device.c -/

/-- Selector for the operation named in `device_has_control(dev, op)`. -/
inductive ControlOp where
  | open_ | close | power | usb | key | print_status
deriving DecidableEq, Repr

/-- Reads the function pointer `ops->op`. -/
def control_ops.has (ops : control_ops) : ControlOp → Bool
  | .open_ => ops.open_
  | .close => ops.close
  | .power => ops.power
  | .usb => ops.usb
  | .key => ops.key
  | .print_status => ops.print_status

/-- Modelled from the spec: the macro `device_has_control(dev, op)`, whose definition is in a
header revision that is not part of the sources; "each operation is individually optional;
callers must check presence before invoking": the driver table is set and its `op` is set. -/
def device_has_control (dev : device) (op : ControlOp) : Bool :=
  match dev.control_ops with
  | none => false
  | some ops => ops.has op

/-- The function `device_impl_power`: calls `device->control_ops->power` without a presence check; `none`
when that pointer (or the table) is NULL. -/
def device_impl_power (dev : device) (on_ : Bool) : Option (List Call) :=
  match dev.control_ops with
  | none => none
  | some ops => if ops.power then some [Call.power on_] else none

/-- The function `device_key`: a key operation the driver lacks is skipped. -/
def device_key (dev : device) (key : Nat) (asserted : Bool) : List Call :=
  if device_has_control dev .key then [Call.key key asserted] else []

/-- The function `device_usb`: skipped when the driver has no `usb`. -/
def device_usb (dev : device) (on_ : Bool) : List Call :=
  if device_has_control dev .usb then [Call.usb on_] else []

/-- State of the power-up sequence, first value of the anonymous `enum` of `device.c`. -/
def DEVICE_STATE_START : Nat := 0

/-- State of the power-up sequence: power and USB are connected next. -/
def DEVICE_STATE_CONNECT : Nat := 1

/-- State of the power-up sequence: the power key is pressed next. -/
def DEVICE_STATE_PRESS : Nat := 2

/-- State of the power-up sequence: the power key is released next. -/
def DEVICE_STATE_RELEASE_PWR : Nat := 3

/-- State of the power-up sequence: the fastboot key is released next. -/
def DEVICE_STATE_RELEASE_FASTBOOT : Nat := 4

/-- State of the power-up sequence: the sequence is over. -/
def DEVICE_STATE_RUNNING : Nat := 5

/-- The argument `device->fastboot_key_timeout * 1000` of `watch_timer_add`: a product of
`unsigned int`, computed modulo `2^32`. -/
def fastboot_key_delay (dev : device) : Nat :=
  (dev.fastboot_key_timeout * 1000) % 2 ^ 32

/-- The function `device_tick`: one dispatch of the state machine. Returns the updated descriptor and the
calls made, in order; `none` when the dispatch calls through a NULL pointer. A state without
a `case` (RUNNING, or any other value) falls through the `switch`. -/
def device_tick (dev : device) : Option (device × List Call) :=
  match dev.state with
  | 0 =>
    let c1 := if dev.fastboot_key_timeout ≠ 0 then device_key dev DEVICE_KEY_FASTBOOT true else []
    let c2 := if dev.has_power_key then device_key dev DEVICE_KEY_POWER false else []
    some ({ dev with state := DEVICE_STATE_CONNECT }, c1 ++ c2 ++ [Call.timer 10])
  | 1 =>
    match device_impl_power dev true with
    | none => none
    | some c1 =>
      let c2 := device_usb dev true
      if dev.has_power_key then
        some ({ dev with state := DEVICE_STATE_PRESS }, c1 ++ c2 ++ [Call.timer 250])
      else if dev.fastboot_key_timeout ≠ 0 then
        some ({ dev with state := DEVICE_STATE_RELEASE_FASTBOOT },
              c1 ++ c2 ++ [Call.timer (fastboot_key_delay dev)])
      else
        some ({ dev with state := DEVICE_STATE_RUNNING }, c1 ++ c2)
  | 2 =>
    let c1 := device_key dev DEVICE_KEY_POWER true
    some ({ dev with state := DEVICE_STATE_RELEASE_PWR }, c1 ++ [Call.timer 100])
  | 3 =>
    let c1 := device_key dev DEVICE_KEY_POWER false
    if dev.fastboot_key_timeout ≠ 0 then
      some ({ dev with state := DEVICE_STATE_RELEASE_FASTBOOT },
            c1 ++ [Call.timer (fastboot_key_delay dev)])
    else
      some ({ dev with state := DEVICE_STATE_RUNNING }, c1)
  | 4 =>
    let c1 := device_key dev DEVICE_KEY_FASTBOOT false
    some ({ dev with state := DEVICE_STATE_RUNNING }, c1)
  | _ => some (dev, [])

/-- The function `device_power_on`: enters the state machine at START. -/
def device_power_on (dev : device) : Option (device × List Call) :=
  if !device_has_control dev .power then some (dev, [])
  else device_tick { dev with state := DEVICE_STATE_START }

/-- The function `device_power_off`. -/
def device_power_off (dev : device) : Option (device × List Call) :=
  if !device_has_control dev .power then some (dev, [])
  else some (dev, [Call.power false])

/-- The function `device_power`. -/
def device_power (dev : device) (on_ : Bool) : Option (device × List Call) :=
  if on_ then device_power_on dev else device_power_off dev

/-! ### The reactor's one-shot timers -/

/-- The timeouts handed to `watch_timer_add` among a list of calls. -/
def timers_of : List Call → List Nat
  | [] => []
  | Call.timer ms :: cs => ms :: timers_of cs
  | _ :: cs => timers_of cs

/-- The driver calls (everything but `watch_timer_add`) among a list of calls. -/
def driver_calls : List Call → List Call
  | [] => []
  | Call.timer _ :: cs => driver_calls cs
  | c :: cs => c :: driver_calls cs

/-- A descriptor under the reactor: the clock in milliseconds, the expiry times of the
pending `device_tick` timers, and the driver calls made so far with the time of each. -/
structure Sim where
  now : Nat
  dev : device
  pending : List Nat
  trace : List (Nat × Call)
deriving DecidableEq, Repr

/-- Books the calls of one entry into `device.c` at the current time: driver calls go to the
trace, each `watch_timer_add(ms, device_tick, dev)` becomes a pending expiry at `now + ms`. -/
def Sim.record (s : Sim) (r : device × List Call) : Sim :=
  { now := s.now
    dev := r.1
    pending := s.pending ++ (timers_of r.2).map (fun ms => s.now + ms)
    trace := s.trace ++ (driver_calls r.2).map (fun c => (s.now, c)) }

/-- The earliest expiry among the pending timers. -/
def earliest : List Nat → Option Nat
  | [] => none
  | t :: ts => some (ts.foldl min t)

/-- Modelled from the spec: the event reactor's millisecond timers ("each non-RUNNING
transition schedules a one-shot timer (via the reactor) that re-enters the same dispatcher
with the descriptor as argument"); `watch_timer_add` is defined outside the sources. One
step fires the earliest pending timer: the clock moves to its expiry, the timer is removed,
and `device_tick` runs. `none` when the dispatch faults; a reactor with no pending timer
stays as it is. -/
def Sim.fire (s : Sim) : Option Sim :=
  match earliest s.pending with
  | none => some s
  | some t =>
    let s1 : Sim := { s with now := max s.now t, pending := s.pending.erase t }
    match device_tick s1.dev with
    | none => none
    | some r => some (s1.record r)

/-- Fires `n` timers in a row. -/
def Sim.run : Nat → Sim → Option Sim
  | 0, s => some s
  | n + 1, s =>
    match s.fire with
    | none => none
    | some s1 => Sim.run n s1

/-- The reactor at time 0 with nothing pending, holding descriptor `dev`. -/
def Sim.init (dev : device) : Sim :=
  { now := 0, dev := dev, pending := [], trace := [] }

/-- The call `device_power(dev, on)` made at the reactor's current time. -/
def Sim.device_power (s : Sim) (on_ : Bool) : Option Sim :=
  match Cdba.device_power s.dev on_ with
  | none => none
  | some r => some (s.record r)

/-- The call `device_power(dev, true)` at time 0 followed by `n` timer expiries. -/
def power_up (dev : device) (n : Nat) : Option Sim :=
  match (Sim.init dev).device_power true with
  | none => none
  | some s => s.run n

/-- Largest value of `int`. -/
def INT_MAX : Nat := 2147483647

/-- A control driver that implements every operation. -/
def full_ops : control_ops :=
  { open_ := true, close := true, power := true, usb := true, key := true,
    print_status := true }

/-- A descriptor bound to `full_ops`. -/
def sample_device (has_power_key : Bool) (fastboot_key_timeout : Nat) : device :=
  { fastboot_key_timeout := fastboot_key_timeout, state := 0,
    has_power_key := has_power_key, usb_always_on := false,
    control_ops := some full_ops }

/-- Applies `device_tick` `n` times in a row, as the reactor does when each dispatch is
followed by the expiry of the timer it scheduled. -/
def device_ticks : Nat → device → Option device
  | 0, dev => some dev
  | n + 1, dev =>
    match device_tick dev with
    | none => none
    | some r => device_ticks n r.1

/-- Number of dispatches the start sequence takes:
`2 + 2*[has_power_key] + [fastboot_key_timeout > 0]`. -/
def start_sequence_ticks (dev : device) : Nat :=
  2 + 2 * (if dev.has_power_key then 1 else 0) + (if 0 < dev.fastboot_key_timeout then 1 else 0)

/-! ## C library functions used by conmux.c and device_parser.c -/

/-- The bytes of a string literal, as a C string without its terminating NUL. -/
def cstr (s : String) : List Nat := s.toList.map Char.toNat

/-- The byte `*p` at the head of a C string; the end of the list is the terminating NUL. -/
def peek (p : List Nat) : Nat := p.headD 0

/-- The C string that starts at `p`: the bytes before the first NUL. -/
def c_string (p : List Nat) : List Nat := p.takeWhile (fun c => c ≠ 0)

/-- The classification `isspace` of `<ctype.h>` in the "C" locale: space, `\t`, `\n`, `\v`,
`\f`, `\r`. -/
def isspace (c : Nat) : Bool := c = 32 || (9 ≤ c && c ≤ 13)

/-- The classification `isalpha` of `<ctype.h>` in the "C" locale. -/
def isalpha (c : Nat) : Bool := (65 ≤ c && c ≤ 90) || (97 ≤ c && c ≤ 122)

/-- The classification `isdigit` of `<ctype.h>`. -/
def isdigit (c : Nat) : Bool := 48 ≤ c && c ≤ 57

/-- The classification `isxdigit` of `<ctype.h>`. -/
def isxdigit (c : Nat) : Bool :=
  isdigit c || (65 ≤ c && c ≤ 70) || (97 ≤ c && c ≤ 102)

/-- The classification `isprint` of `<ctype.h>` in the "C" locale: `0x20 .. 0x7e`. -/
def isprint (c : Nat) : Bool := 32 ≤ c && c ≤ 126

/-- Largest value of `long` (LP64). -/
def LONG_MAX : Int := 9223372036854775807

/-- Smallest value of `long` (LP64). -/
def LONG_MIN : Int := -9223372036854775808

/-- The digits consumed by `strtol` in base 10: accumulates the value of the leading decimal
digits of `p`; returns the value, the number of digits read and the unread rest. -/
def strtol_digits : Nat → Nat → List Nat → Nat × Nat × List Nat
  | acc, n, [] => (acc, n, [])
  | acc, n, c :: cs =>
    if isdigit c then strtol_digits (acc * 10 + (c - 48)) (n + 1) cs else (acc, n, c :: cs)

/-- The libc function `strtol(nptr, &endptr, 10)`: skips leading white space, takes an
optional sign, then decimal digits; the value is clamped to the range of `long`. Returns the
value and the string at `endptr`, which is `nptr` itself when no digit was read. -/
def strtol (nptr : List Nat) : Int × List Nat :=
  let p := nptr.dropWhile isspace
  let neg := peek p = 45
  let p1 := if peek p = 45 ∨ peek p = 43 then p.tail else p
  match strtol_digits 0 0 p1 with
  | (_, 0, _) => (0, nptr)
  | (v, _, rest) =>
    if neg then (max (-(v : Int)) LONG_MIN, rest) else (min (v : Int) LONG_MAX, rest)

/-- Conversion of a `long` to `int`: reduction modulo `2^32` into `[-2^31, 2^31)`. -/
def long_to_int (v : Int) : Int := (v + 2147483648) % 4294967296 - 2147483648

/-- The libc function `strchr(s, c)` for a non-NUL `c`: the bytes of the C string `s` before
the first `c`, and the bytes after it; `none` when `c` does not occur. -/
def strchr_split (c : Nat) : List Nat → Option (List Nat × List Nat)
  | [] => none
  | x :: xs =>
    if x = 0 then none
    else if x = c then some ([], xs)
    else match strchr_split c xs with
      | none => none
      | some r => some (x :: r.1, r.2)

/-- The test `strcmp(s1, s2) == 0`: the two C strings hold the same bytes. -/
def strcmp_eq (s1 s2 : List Nat) : Bool := c_string s1 == c_string s2

/-- The test `strncmp(s1, s2, n) == 0`: at most `n` bytes are compared, and the comparison
stops after a NUL. -/
def strncmp_eq : List Nat → List Nat → Nat → Bool
  | _, _, 0 => true
  | s1, s2, n + 1 =>
    if peek s1 ≠ peek s2 then false
    else if peek s1 = 0 then true
    else strncmp_eq s1.tail s2.tail n

/-- The conversion `%s` of `printf`: the bytes of the C string. -/
def fmt_s (s : List Nat) : List Nat := c_string s

/-- The conversion `%-20s` of `printf` for a field width `width`: the bytes of the C string,
then spaces up to the width; a longer string is not cut. -/
def fmt_s_left (width : Nat) (s : List Nat) : List Nat :=
  c_string s ++ List.replicate (width - (c_string s).length) 32

/-- The bytes that `write(fd, buf, len)` sends after `len = snprintf(buf, size, ...)` has
formatted `text`: `snprintf` stores at most `size - 1` bytes and a NUL but returns the full
length of `text`. The write sends `text` when it is shorter than `size`; when it is exactly
`size` long, the stored `size - 1` bytes and the NUL; `none` when it is longer, because the
write then reads past the end of `buf`. -/
def write_snprintf (size : Nat) (text : List Nat) : Option (List Nat) :=
  if text.length < size then some text
  else if text.length = size then some (text.take (size - 1) ++ [0])
  else none

/-- Largest value of `unsigned long` (LP64). -/
def ULONG_MAX : Nat := 18446744073709551615

/-- The libc function `strtoul(nptr, NULL, 10)`: skips leading white space, takes an optional
sign, then decimal digits; a value beyond `ULONG_MAX` gives `ULONG_MAX`, a minus sign negates
the value in `unsigned long`; 0 when no digit was read. -/
def strtoul (nptr : List Nat) : Nat :=
  let p := nptr.dropWhile isspace
  let p1 := if peek p = 45 ∨ peek p = 43 then p.tail else p
  match strtol_digits 0 0 p1 with
  | (_, 0, _) => 0
  | (v, _, _) =>
    if ULONG_MAX < v then ULONG_MAX
    else if peek p = 45 then (ULONG_MAX + 1 - v) % (ULONG_MAX + 1)
    else v

/-! ## conmux.c -/

/-- The `struct conmux_lookup`. -/
structure conmux_lookup where
  host : List Nat
  port : Int
deriving DecidableEq, Repr

/-- The `struct conmux_response`; a field is `none` while its pointer is NULL. -/
structure conmux_response where
  title : Option (List Nat)
  status : Option (List Nat)
  result : Option (List Nat)
  state : Option (List Nat)
deriving DecidableEq, Repr

/-- The response after `memset(resp, 0, sizeof(*resp))`. -/
def conmux_response.zero : conmux_response :=
  { title := none, status := none, result := none, state := none }

/-- The function `nibble`, with its `uint8_t` return type. -/
def nibble (ch : Nat) : Nat :=
  if 48 ≤ ch ∧ ch ≤ 57 then (ch - 48) % 256
  else if 97 ≤ ch ∧ ch ≤ 122 then (10 + ch - 97) % 256
  else if 65 ≤ ch ∧ ch ≤ 90 then (10 + ch - 65) % 256
  else 255

/-- The byte stored by `*d++ = (nibble(p[0]) << 4) | nibble(p[1])`. -/
def percent_byte (p0 p1 : Nat) : Nat := ((nibble p0 <<< 4) ||| nibble p1) % 256

/-- Size of the arrays `key` and `value` of `parse_response`. -/
def TOKEN_SIZE : Nat := 64

/-- The loop `while (isspace(*p)) p++;`. -/
def skip_space : List Nat → List Nat
  | [] => []
  | c :: cs => if isspace c then skip_space cs else c :: cs

/-- The loop `while (isalpha(*p)) *d++ = *p++;`: the bytes copied to `key` and the unread
rest. -/
def scan_key : List Nat → List Nat × List Nat
  | [] => ([], [])
  | c :: cs =>
    if isalpha c then ((c :: (scan_key cs).1), (scan_key cs).2) else ([], c :: cs)

/-- Outcome of the value loop of `parse_response`. -/
inductive ValueScan where
  | done (value : List Nat) (rest : List Nat)
  | truncated
  | overrun
deriving DecidableEq, Repr

/-- Prepends a decoded byte to the value of a finished scan. -/
def ValueScan.push (b : Nat) : ValueScan → ValueScan
  | .done v r => .done (b :: v) r
  | .truncated => .truncated
  | .overrun => .overrun

/-- The value loop of `parse_response`,
`while (isprint(*p) && !isspace(*p)) { ... } *d = 0;`, started with `d` bytes already in
`value`: the bytes written and the unread rest, `truncated` at a `%` that is not followed by
two hexadecimal digits, `overrun` at a write to `value[64]` or beyond. -/
def scan_value : Nat → List Nat → ValueScan
  | d, [] => if d < TOKEN_SIZE then .done [] [] else .overrun
  | d, c :: cs =>
    if isprint c && !isspace c then
      if c = 37 then
        match cs with
        | p0 :: p1 :: rest =>
          if !isxdigit p0 || !isxdigit p1 then .truncated
          else if d < TOKEN_SIZE then (scan_value (d + 1) rest).push (percent_byte p0 p1)
          else .overrun
        | _ => .truncated
      else if d < TOKEN_SIZE then (scan_value (d + 1) cs).push c
      else .overrun
    else if d < TOKEN_SIZE then .done [] (c :: cs) else .overrun

/-- The `strcmp` chain at the end of the loop body of `parse_response`: stores
`strdup(value)` under a known key; an unknown key only warns. -/
def conmux_response.store (resp : conmux_response) (key value : List Nat) : conmux_response :=
  if key = cstr "result" then { resp with result := some (c_string value) }
  else if key = cstr "status" then { resp with status := some (c_string value) }
  else if key = cstr "title" then { resp with title := some (c_string value) }
  else if key = cstr "state" then { resp with state := some (c_string value) }
  else resp

/-- Outcome of `parse_response`. -/
inductive ParseResult where
  | ret0 (resp : conmux_response)
  | retNeg1
  | overrun
  | out_of_fuel
deriving DecidableEq, Repr

/-- The loop `while (*p) { ... }` of `parse_response`; `fuel` bounds the number of
iterations. -/
def parse_pairs : Nat → List Nat → conmux_response → ParseResult
  | 0, _, _ => .out_of_fuel
  | fuel + 1, p, resp =>
    if peek p = 0 then .ret0 resp
    else
      let p := skip_space p
      if peek p = 0 then .ret0 resp
      else
        let key := (scan_key p).1
        let p := (scan_key p).2
        if TOKEN_SIZE ≤ key.length then .overrun
        else if peek p ≠ 61 then .retNeg1
        else
          match scan_value 0 p.tail with
          | .truncated => .retNeg1
          | .overrun => .overrun
          | .done value rest => parse_pairs fuel rest (resp.store key value)

/-- The function `parse_response`. Every iteration of its loop reads at least one byte, so
`buf.length + 1` iterations are enough. -/
def parse_response (buf : List Nat) : ParseResult :=
  parse_pairs (buf.length + 1) buf conmux_response.zero

/-- Outcome of `registry_lookup`: `fault` is a NULL `resp.result` or `resp.status` handed to
`strchr` or `strcmp`, `overrun` a write past `key` or `value` in `parse_response`. -/
inductive LookupResult where
  | ret0 (lookup : conmux_lookup)
  | retNeg1
  | fault
  | overrun
  | out_of_fuel
deriving DecidableEq, Repr

/-- The bytes that `read(fd, buf, sizeof(buf) - 1)` stores from a reply: at most 255. -/
def read_reply (reply : List Nat) : List Nat := reply.take 255

/-- The effect of `buf[strcspn(buf, "\n")] = '\0'`: the C string ends before the first LF. -/
def cut_line (buf : List Nat) : List Nat := (c_string buf).takeWhile (fun c => c ≠ 10)

/-- The function `registry_lookup`, from the bytes `reply` that the registry sends in answer
to the `LOOKUP` request (the socket calls before it exit the process when they fail). -/
def registry_lookup (reply : List Nat) : LookupResult :=
  let buf := cut_line (read_reply reply)
  match parse_response buf with
  | .retNeg1 => .retNeg1
  | .overrun => .overrun
  | .out_of_fuel => .out_of_fuel
  | .ret0 resp =>
    match resp.result with
    | none => .fault
    | some result =>
      match strchr_split 58 result with
      | none => .retNeg1
      | some (host, p) =>
        let lookup : conmux_lookup := { host := host, port := long_to_int (strtol (c_string p)).1 }
        match resp.status with
        | none => .fault
        | some status => if status = cstr "OK" then .ret0 lookup else .retNeg1

/-- How far `conmux_open` gets with the registry's reply. -/
inductive OpenLookup where
  | exit (status : Nat)
  | connect (lookup : conmux_lookup)
  | undefined
deriving DecidableEq, Repr

/-- The start of `conmux_open`: `ret = registry_lookup(service, &lookup); if (ret) exit(1);`,
after which it connects to `lookup.host:lookup.port`. -/
def conmux_open_lookup (reply : List Nat) : OpenLookup :=
  match registry_lookup reply with
  | .ret0 lookup => .connect lookup
  | .retNeg1 => .exit 1
  | _ => .undefined

/-- The function `conmux_power_on`: the buffer handed to `write(conmux->fd, sz, sizeof(sz))`,
the array `"~$hardreset\n"` with its terminating NUL. -/
def conmux_power_on : List Nat := cstr "~$hardreset\n" ++ [0]

/-- The function `conmux_power_off`: the buffer handed to `write(conmux->fd, sz, sizeof(sz))`,
the array `"~$off\n"` with its terminating NUL. -/
def conmux_power_off : List Nat := cstr "~$off\n" ++ [0]

/-- The function `conmux_power`: the bytes written to the session socket. -/
def conmux_power (on_ : Bool) : List Nat :=
  if on_ then conmux_power_on else conmux_power_off

/-- The table `conmux_ops`: `.open = conmux_open, .power = conmux_power`, every other pointer
NULL. -/
def conmux_ops : control_ops :=
  { open_ := true, close := false, power := true, usb := false, key := false,
    print_status := false }

/-- The bytes that a call from `device.c` into the conmux control driver writes to the
session socket: `power` goes to `conmux_power`; the table has no other operation that
`device.c` calls during the start sequence, and a timer is no driver call. -/
def conmux_call_writes : Call → List (List Nat)
  | .power on_ => [conmux_power on_]
  | _ => []

/-- The writes to the session socket made by the driver calls of a trace, in order. -/
def conmux_socket_writes : List (Nat × Call) → List (List Nat)
  | [] => []
  | c :: cs => conmux_call_writes c.2 ++ conmux_socket_writes cs

/-- Outcome of the session handshake of `conmux_open`. -/
inductive SessionOpen where
  | connected
  | exit (status : Nat)
  | undefined
deriving DecidableEq, Repr

/-- The end of `conmux_open`, from the bytes `reply` that the conmux peer sends in answer to
the `CONNECT` request: `n = read(fd, req, sizeof(req) - 1); req[n] = '\0';
ret = parse_response(req, &resp); if (ret || strcmp(resp.status, "OK")) errx(1, ...)`, after
which the session is registered with the reactor. A NULL `resp.status` handed to `strcmp` and
an overrun in `parse_response` are undefined. -/
def conmux_open_session (reply : List Nat) : SessionOpen :=
  match parse_response (read_reply reply) with
  | .retNeg1 => .exit 1
  | .overrun => .undefined
  | .out_of_fuel => .undefined
  | .ret0 resp =>
    match resp.status with
    | none => .undefined
    | some status => if status = cstr "OK" then .connected else .exit 1

/-! ## device.c: the registry, the list and info responders, the board lookup -/

/-- Modelled from the spec: `list_add` of `list.h`, which is not part of the sources
("`add(descriptor)` — append to the catalog"; "insertion-order preserved"). The list
`devices` is the registry in the order in which `list_for_each_entry` visits it. -/
def list_add {α : Type} (devices : List α) (item : α) : List α := devices ++ [item]

/-- The function `device_add`. -/
def device_add {α : Type} (devices : List α) (dev : α) : List α := list_add devices dev

/-- Modelled from the spec: the message tags of `cdba-server.h`, which is not part of the
sources ("outbound framed messages": `CONSOLE`, `LIST_DEVICES`, `BOARD_INFO`). -/
inductive msg_type where
  | MSG_CONSOLE
  | MSG_LIST_DEVICES
  | MSG_BOARD_INFO
deriving DecidableEq, Repr

/-- Modelled from the spec: a frame on standard output, the `struct msg` header of
`cdba-server.h` (not part of the sources) with its tag and length field, followed by the
bytes of the payload write. -/
structure msg where
  type : msg_type
  len : Nat
  data : List Nat
deriving DecidableEq, Repr

/-- The loop body of `device_list_devices`: formats one descriptor into `buf[80]` and writes
the header and `len` bytes of `buf`. `none` when `board` is NULL or the write reads past the
end of `buf`. -/
def list_device_frame (dev : device) : Option msg :=
  match dev.board with
  | none => none
  | some board =>
    let text := match dev.name with
      | some name => fmt_s_left 20 board ++ 32 :: fmt_s name
      | none => fmt_s board
    match write_snprintf 80 text with
    | none => none
    | some data => some { type := .MSG_LIST_DEVICES, len := text.length, data := data }

/-- The loop `list_for_each_entry(device, &devices, node)` of `device_list_devices`. -/
def list_device_frames : List device → Option (List msg)
  | [] => some []
  | dev :: devices =>
    match list_device_frame dev with
    | none => none
    | some frame =>
      match list_device_frames devices with
      | none => none
      | some frames => some (frame :: frames)

/-- The function `device_list_devices`: the frames written to standard output. -/
def device_list_devices (devices : List device) : Option (List msg) :=
  match list_device_frames devices with
  | none => none
  | some frames => some (frames ++ [{ type := .MSG_LIST_DEVICES, len := 0, data := [] }])

/-- The loop of `device_info`: the description it stops at, `some none` when it runs to the
end of the registry, `none` when it hands a NULL `board` to `strncmp`. -/
def device_info_find (data : List Nat) : List device → Option (Option (List Nat))
  | [] => some none
  | dev :: devices =>
    match dev.board with
    | none => none
    | some board =>
      if strncmp_eq board data data.length && dev.description.isSome then some dev.description
      else device_info_find data devices

/-- The function `device_info` for the `dlen = data.length` bytes at `data`: the frame written
to standard output, whose payload write is skipped when `len` is 0. -/
def device_info (devices : List device) (data : List Nat) : Option (List msg) :=
  match device_info_find data devices with
  | none => none
  | some none => some [{ type := .MSG_BOARD_INFO, len := 0, data := [] }]
  | some (some description) =>
    some [{ type := .MSG_BOARD_INFO, len := (c_string description).length,
            data := c_string description }]

/-- What `device_open` does to the world once it has found the descriptor. -/
inductive OpenEffect where
  | lock (path : List Nat)
  | control_open
  | console_open
  | driver (call : Call)
  | fastboot_open (serial : Option (List Nat))
deriving DecidableEq, Repr

/-- What the system calls and the control driver answer to `device_open`: whether the lock
file can be opened and locked, and whether the control driver's `open` returns a session. -/
structure open_env where
  lock_ok : Bool
  control_open_ok : Bool
deriving DecidableEq, Repr

/-- Value of `PATH_MAX` in `<limits.h>` on Linux. -/
def PATH_MAX : Nat := 4096

/-- The path built by `snprintf(lock, sizeof(lock), "/tmp/cdba-%s.lock", device->board)`. -/
def lock_path (board : List Nat) : List Nat :=
  cstr "/tmp/cdba-" ++ fmt_s board ++ cstr ".lock"

/-- The function `device_lock`: `.error 1` when the path does not fit or the lock file cannot
be opened or locked (`errx`, `err`); otherwise it returns, after waiting if need be, holding
the lock. `none` for a NULL `board`. -/
def device_lock (env : open_env) (dev : device) : Option (Except Nat (List OpenEffect)) :=
  match dev.board with
  | none => none
  | some board =>
    if PATH_MAX ≤ (lock_path board).length then some (.error 1)
    else if !env.lock_ok then some (.error 1)
    else some (.ok [OpenEffect.lock (lock_path board)])

/-- Outcome of the search loop of `device_open`. -/
inductive FindDevice where
  | found (index : Nat) (dev : device)
  | not_found
  | undefined
deriving DecidableEq, Repr

/-- The loop `list_for_each_entry` of `device_open`, counting the position `index` in the
registry; `undefined` when it hands a NULL `board` to `strcmp`. -/
def device_find (board : List Nat) : List device → Nat → FindDevice
  | [], _ => .not_found
  | dev :: devices, index =>
    match dev.board with
    | none => .undefined
    | some b => if strcmp_eq b board then .found index dev else device_find board devices (index + 1)

/-- Outcome of `device_open`: NULL, the descriptor at `index` opened, the process gone
(`errx`/`err`, or the failed `assert`), or undefined behaviour. -/
inductive DeviceOpen where
  | null
  | opened (index : Nat) (effects : List OpenEffect)
  | exit (status : Nat) (effects : List OpenEffect)
  | abort
  | undefined
deriving DecidableEq, Repr

/-- The function `device_open`. -/
def device_open (env : open_env) (devices : List device) (board : List Nat) : DeviceOpen :=
  match device_find board devices 0 with
  | .not_found => .null
  | .undefined => .undefined
  | .found index dev =>
    match dev.console_ops with
    | none => .abort
    | some cops =>
      match device_lock env dev with
      | none => .undefined
      | some (.error status) => .exit status []
      | some (.ok locked) =>
        if device_has_control dev .open_ && !env.control_open_ok then
          .exit 1 (locked ++ [OpenEffect.control_open])
        else
          .opened index
            (locked ++ (if device_has_control dev .open_ then [OpenEffect.control_open] else [])
              ++ (if cops.open_ then [OpenEffect.console_open] else [])
              ++ (if dev.usb_always_on then (device_usb dev true).map OpenEffect.driver else [])
              ++ [OpenEffect.fastboot_open dev.serial])

/-! ## device_parser.c -/

/-- Modelled from the spec: the constant `MAX_RESET_SEQUENCE`, "(=16)", defined in a header
revision that is not part of the sources. -/
def MAX_RESET_SEQUENCE : Nat := 16

/-- Modelled from the spec: the element type of `dev->reset_sequence`, with the three fields
that `parse_reset_sequence` writes; its declaration is in a header revision that is not
part of the sources. `sleep_ms` holds the value returned by `strtol`. -/
structure reset_step where
  key : Nat
  asserted : Bool
  sleep_ms : Int
deriving DecidableEq, Repr

/-- Modelled from the spec: the fields of `struct device` that `parse_reset_sequence` writes,
declared in a header revision that is not part of the sources; `reset_sequence` is an array
of `MAX_RESET_SEQUENCE` steps ("the reset-sequence array length equals
`reset_sequence_count ≤ MAX_RESET_SEQUENCE`"). -/
structure reset_config where
  custom_reset_sequence : Bool
  reset_sequence : List reset_step
  reset_sequence_count : Nat
deriving DecidableEq, Repr

/-- A zeroed step. -/
def reset_step.zero : reset_step := { key := 0, asserted := false, sleep_ms := 0 }

/-- The reset-sequence fields of a descriptor fresh from `calloc` in `parse_board`. -/
def reset_config.zero : reset_config :=
  { custom_reset_sequence := false
    reset_sequence := List.replicate MAX_RESET_SEQUENCE reset_step.zero
    reset_sequence_count := 0 }

/-- An assignment to fields of `dev->reset_sequence[i]`. -/
def modify_step (f : reset_step → reset_step) : Nat → List reset_step → List reset_step
  | _, [] => []
  | 0, s :: ss => f s :: ss
  | i + 1, s :: ss => s :: modify_step f i ss

/-- How the `while` loop of `parse_reset_sequence` ends: it is left with index `i` (no `;`
remains, or `i` reached `MAX_RESET_SEQUENCE`), or the process exits. -/
inductive ResetLoop where
  | left (i : Nat) (steps : List reset_step)
  | exit (status : Nat)
  | out_of_fuel
deriving DecidableEq, Repr

/-- The loop `while (i < MAX_RESET_SEQUENCE) { ... }` of `parse_reset_sequence`, with `pp`
the unread text; `strstr(pp, ";")` is the search for the next `;`, and the token before it is
the C string that `switch (*pp)` and `strtol` see. `fuel` bounds the number of iterations. -/
def reset_loop : Nat → List Nat → Nat → List reset_step → ResetLoop
  | 0, _, _, _ => .out_of_fuel
  | fuel + 1, pp, i, steps =>
    if i < MAX_RESET_SEQUENCE then
      match strchr_split 59 pp with
      | none => .left i steps
      | some (tok, rest) =>
        if peek tok = 66 then
          reset_loop fuel rest i
            (modify_step (fun s => { s with asserted := true, key := DEVICE_KEY_POWER }) i steps)
        else if peek tok = 98 then
          reset_loop fuel rest i (modify_step (fun s => { s with key := DEVICE_KEY_POWER }) i steps)
        else if peek tok = 82 then
          reset_loop fuel rest i
            (modify_step (fun s => { s with asserted := true, key := DEVICE_KEY_FASTBOOT }) i
              steps)
        else if peek tok = 114 then
          reset_loop fuel rest i
            (modify_step (fun s => { s with key := DEVICE_KEY_FASTBOOT }) i steps)
        else if peek (strtol tok).2 = peek tok then .exit 1
        else
          reset_loop fuel rest (i + 1)
            (modify_step (fun s => { s with sleep_ms := (strtol tok).1 }) i steps)
    else .left i steps

/-- Outcome of `parse_reset_sequence`. -/
inductive ResetResult where
  | done (dev : reset_config)
  | exit (status : Nat)
  | out_of_fuel
deriving DecidableEq, Repr

/-- The function `parse_reset_sequence`. Every iteration of its loop reads at least the `;`
it found, so `seq.length + 1` iterations are enough. -/
def parse_reset_sequence (dev : reset_config) (seq : List Nat) : ResetResult :=
  match reset_loop (seq.length + 1) seq 0 dev.reset_sequence with
  | .out_of_fuel => .out_of_fuel
  | .exit status => .exit status
  | .left i steps =>
    if i = MAX_RESET_SEQUENCE then .exit 1
    else .done { custom_reset_sequence := true, reset_sequence := steps,
                 reset_sequence_count := i }

/-! ## device_parser.c: the catalog parser -/

/-- Size of the arrays `key` and `value` of `parse_board`. -/
def TOKEN_LENGTH : Nat := 16384

/-- The event types of libyaml (`yaml_event_type_t`). -/
inductive yaml_event_type where
  | YAML_NO_EVENT
  | YAML_STREAM_START_EVENT
  | YAML_STREAM_END_EVENT
  | YAML_DOCUMENT_START_EVENT
  | YAML_DOCUMENT_END_EVENT
  | YAML_ALIAS_EVENT
  | YAML_SCALAR_EVENT
  | YAML_SEQUENCE_START_EVENT
  | YAML_SEQUENCE_END_EVENT
  | YAML_MAPPING_START_EVENT
  | YAML_MAPPING_END_EVENT
deriving DecidableEq, Repr

/-- An event of libyaml (`yaml_event_t`): its type and, for a scalar, the bytes at
`data.scalar.value`. -/
structure yaml_event where
  type : yaml_event_type
  value : List Nat
deriving DecidableEq, Repr

/-- The `struct device_parser`: the current event `event`, and the libyaml parser, given by
the events that `yaml_parser_parse` delivers next; once they are used up it fails when
`failure` is set and delivers `YAML_NO_EVENT` otherwise (as libyaml does after the end of the
stream). -/
structure device_parser_t where
  pending : List yaml_event
  failure : Bool
  event : yaml_event
deriving DecidableEq, Repr

/-- Outcome of a parser function: it returns, the process exits, or the bound on the number
of loop iterations was too small. -/
inductive Run (α : Type) where
  | ok (a : α)
  | exit (status : Nat)
  | out_of_fuel
deriving DecidableEq, Repr

/-- The function `nextsym`: exits with status 1 when `yaml_parser_parse` fails. -/
def nextsym (dp : device_parser_t) : Run device_parser_t :=
  match dp.pending with
  | e :: es => .ok { dp with pending := es, event := e }
  | [] =>
    if dp.failure then .exit 1
    else .ok { dp with event := { type := .YAML_NO_EVENT, value := [] } }

/-- The copy `strncpy(scalar, value, TOKEN_LENGTH - 1); scalar[TOKEN_LENGTH - 1] = '\0'` made
by `accept`: the C string at `value`, cut after `TOKEN_LENGTH - 1` bytes. -/
def copy_scalar (value : List Nat) : List Nat := (c_string value).take (TOKEN_LENGTH - 1)

/-- The function `accept`: whether the current event has the type, the copy of its scalar
(used by the caller only when it passed a buffer), and the parser after `nextsym`. -/
def accept (dp : device_parser_t) (type : yaml_event_type) :
    Run (Bool × List Nat × device_parser_t) :=
  if dp.event.type = type then
    match nextsym dp with
    | .ok dp1 => .ok (true, copy_scalar dp.event.value, dp1)
    | .exit status => .exit status
    | .out_of_fuel => .out_of_fuel
  else .ok (false, [], dp)

/-- The function `expect`: exits with status 1 when the current event has another type. -/
def expect (dp : device_parser_t) (type : yaml_event_type) :
    Run (List Nat × device_parser_t) :=
  match accept dp type with
  | .ok (true, scalar, dp1) => .ok (scalar, dp1)
  | .ok (false, _, _) => .exit 1
  | .exit status => .exit status
  | .out_of_fuel => .out_of_fuel

/-- The driver whose function a pointer of the descriptor holds (`conmux` in `open` stands
for `conmux_open`, `console` in `write` for `console_write`, and so on). -/
inductive driver where
  | cdb_assist
  | conmux
  | alpaca
  | ftdi_gpio
  | qcomlt_dbg
  | console
deriving DecidableEq, Repr

/-- The two functions that `parse_board` stores in `dev->boot`. -/
inductive boot_fn where
  | device_fastboot_boot
  | device_fastboot_flash_reboot
deriving DecidableEq, Repr

/-- Modelled from the spec: the `struct device` that `parse_board` fills, with the fields it
writes; this revision of the structure (function pointers held by the descriptor itself, the
reset sequence) is declared in a header that is not part of the sources. A pointer is `none`
while it is NULL; `voltage` and `fastboot_key_timeout` are `unsigned`. -/
structure descriptor where
  board : Option (List Nat)
  name : Option (List Nat)
  control_dev : Option (List Nat)
  console_dev : Option (List Nat)
  serial : Option (List Nat)
  description : Option (List Nat)
  voltage : Nat
  fastboot_key_timeout : Nat
  set_active : Bool
  usb_always_on : Bool
  boot : Option boot_fn
  open_ : Option driver
  close : Option driver
  power : Option driver
  print_status : Option driver
  usb : Option driver
  key : Option driver
  write : Option driver
  send_break : Option driver
  reset : reset_config
deriving DecidableEq, Repr

/-- The descriptor returned by `calloc(1, sizeof(*dev))`. -/
def descriptor.calloc : descriptor :=
  { board := none, name := none, control_dev := none, console_dev := none, serial := none,
    description := none, voltage := 0, fastboot_key_timeout := 0, set_active := false,
    usb_always_on := false, boot := none, open_ := none, close := none, power := none,
    print_status := none, usb := none, key := none, write := none, send_break := none,
    reset := reset_config.zero }

/-- Conversion of an `unsigned long` to `unsigned`: reduction modulo `2^32`. -/
def ulong_to_unsigned (v : Nat) : Nat := v % 4294967296

/-- The `strcmp` chain of the loop body of `parse_board`, for the copies `key` and `value` of
the two scalars (C strings, so that `strcmp(key, "board") == 0` is equality of the bytes);
`strdup(value)` is the C string at `value`. An unknown key, and a reset sequence that
`parse_reset_sequence` rejects, exit with status 1. -/
def parse_board_key (dev : descriptor) (key value : List Nat) : Run descriptor :=
  if key = cstr "board" then .ok { dev with board := some (c_string value) }
  else if key = cstr "name" then .ok { dev with name := some (c_string value) }
  else if key = cstr "cdba" then
    .ok { dev with control_dev := some (c_string value), open_ := some .cdb_assist,
                   close := some .cdb_assist, power := some .cdb_assist,
                   print_status := some .cdb_assist, usb := some .cdb_assist,
                   key := some .cdb_assist }
  else if key = cstr "conmux" then
    .ok { dev with control_dev := some (c_string value), open_ := some .conmux,
                   power := some .conmux, write := some .conmux }
  else if key = cstr "alpaca" then
    .ok { dev with control_dev := some (c_string value), open_ := some .alpaca,
                   power := some .alpaca, usb := some .alpaca, key := some .alpaca }
  else if key = cstr "ftdi_gpio" then
    .ok { dev with control_dev := some (c_string value), open_ := some .ftdi_gpio,
                   power := some .ftdi_gpio, usb := some .ftdi_gpio, key := some .ftdi_gpio }
  else if key = cstr "qcomlt_debug_board" then
    .ok { dev with control_dev := some (c_string value), open_ := some .qcomlt_dbg,
                   power := some .qcomlt_dbg, usb := some .qcomlt_dbg,
                   key := some .qcomlt_dbg }
  else if key = cstr "console" then
    .ok { dev with console_dev := some (c_string value), write := some .console,
                   send_break := some .console }
  else if key = cstr "voltage" then
    .ok { dev with voltage := ulong_to_unsigned (strtoul value) }
  else if key = cstr "fastboot" then
    .ok { dev with serial := some (c_string value),
                   boot := if dev.boot.isNone then some .device_fastboot_boot else dev.boot }
  else if key = cstr "fastboot_set_active" then
    .ok { dev with set_active := strcmp_eq value (cstr "true") }
  else if key = cstr "broken_fastboot_boot" then
    .ok (if strcmp_eq value (cstr "true") then
      { dev with boot := some .device_fastboot_flash_reboot } else dev)
  else if key = cstr "description" then .ok { dev with description := some (c_string value) }
  else if key = cstr "fastboot_key_timeout" then
    .ok { dev with fastboot_key_timeout := ulong_to_unsigned (strtoul value) }
  else if key = cstr "usb_always_on" then
    .ok { dev with usb_always_on := strcmp_eq value (cstr "true") }
  else if key = cstr "reset_sequence" then
    match parse_reset_sequence dev.reset value with
    | .done reset => .ok { dev with reset := reset }
    | .exit status => .exit status
    | .out_of_fuel => .out_of_fuel
  else .exit 1

/-- The loop `while (accept(dp, YAML_SCALAR_EVENT, key)) { expect(dp, YAML_SCALAR_EVENT,
value); ... }` of `parse_board`; `fuel` bounds the number of iterations. -/
def parse_board_loop : Nat → device_parser_t → descriptor →
    Run (device_parser_t × descriptor)
  | 0, _, _ => .out_of_fuel
  | fuel + 1, dp, dev =>
    match accept dp .YAML_SCALAR_EVENT with
    | .exit status => .exit status
    | .out_of_fuel => .out_of_fuel
    | .ok (false, _, dp1) => .ok (dp1, dev)
    | .ok (true, key, dp1) =>
      match expect dp1 .YAML_SCALAR_EVENT with
      | .exit status => .exit status
      | .out_of_fuel => .out_of_fuel
      | .ok (value, dp2) =>
        match parse_board_key dev key value with
        | .exit status => .exit status
        | .out_of_fuel => .out_of_fuel
        | .ok dev1 => parse_board_loop fuel dp2 dev1

/-- The test `!dev->board || !dev->serial || !(dev->open || dev->console_dev)` that ends
`parse_board`. -/
def insufficiently_defined (dev : descriptor) : Bool :=
  dev.board.isNone || dev.serial.isNone || !(dev.open_.isSome || dev.console_dev.isSome)

/-- The function `parse_board`, with the registry `devices` that `device_add` extends. Every
iteration of its loop takes two events, and an event stream that is used up delivers no
scalar, so `dp.pending.length + 2` iterations are enough. -/
def parse_board (dp : device_parser_t) (devices : List descriptor) :
    Run (device_parser_t × List descriptor) :=
  match parse_board_loop (dp.pending.length + 2) dp descriptor.calloc with
  | .exit status => .exit status
  | .out_of_fuel => .out_of_fuel
  | .ok (dp1, dev) =>
    if insufficiently_defined dev then .exit 1
    else .ok (dp1, device_add devices dev)

/-- The loop `while (accept(&dp, YAML_MAPPING_START_EVENT, NULL)) { parse_board(&dp);
expect(&dp, YAML_MAPPING_END_EVENT, NULL); }` of `device_parser`; `fuel` bounds the number of
iterations. -/
def device_parser_boards : Nat → device_parser_t → List descriptor →
    Run (device_parser_t × List descriptor)
  | 0, _, _ => .out_of_fuel
  | fuel + 1, dp, devices =>
    match accept dp .YAML_MAPPING_START_EVENT with
    | .exit status => .exit status
    | .out_of_fuel => .out_of_fuel
    | .ok (false, _, dp1) => .ok (dp1, devices)
    | .ok (true, _, dp1) =>
      match parse_board dp1 devices with
      | .exit status => .exit status
      | .out_of_fuel => .out_of_fuel
      | .ok (dp2, devices1) =>
        match expect dp2 .YAML_MAPPING_END_EVENT with
        | .exit status => .exit status
        | .out_of_fuel => .out_of_fuel
        | .ok (_, dp3) => device_parser_boards fuel dp3 devices1

/-- The body of `device_parser` between the first `nextsym` and `return 0`, for a parser
whose current event is loaded. -/
def device_parser_document (dp : device_parser_t) (devices : List descriptor) :
    Run (List descriptor) :=
  match expect dp .YAML_STREAM_START_EVENT with
  | .exit status => .exit status
  | .out_of_fuel => .out_of_fuel
  | .ok (_, dp1) =>
  match expect dp1 .YAML_DOCUMENT_START_EVENT with
  | .exit status => .exit status
  | .out_of_fuel => .out_of_fuel
  | .ok (_, dp2) =>
  match expect dp2 .YAML_MAPPING_START_EVENT with
  | .exit status => .exit status
  | .out_of_fuel => .out_of_fuel
  | .ok (_, dp3) =>
  match accept dp3 .YAML_SCALAR_EVENT with
  | .exit status => .exit status
  | .out_of_fuel => .out_of_fuel
  | .ok (accepted, _, dp4) =>
  match (if accepted then
      match expect dp4 .YAML_SEQUENCE_START_EVENT with
      | .exit status => .exit status
      | .out_of_fuel => .out_of_fuel
      | .ok (_, dp5) =>
        match device_parser_boards (dp5.pending.length + 2) dp5 devices with
        | .exit status => .exit status
        | .out_of_fuel => .out_of_fuel
        | .ok (dp6, devices1) =>
          match expect dp6 .YAML_SEQUENCE_END_EVENT with
          | .exit status => .exit status
          | .out_of_fuel => .out_of_fuel
          | .ok (_, dp7) => Run.ok (dp7, devices1)
    else Run.ok (dp4, devices)) with
  | .exit status => .exit status
  | .out_of_fuel => .out_of_fuel
  | .ok (dp8, devices2) =>
  match expect dp8 .YAML_MAPPING_END_EVENT with
  | .exit status => .exit status
  | .out_of_fuel => .out_of_fuel
  | .ok (_, dp9) =>
  match expect dp9 .YAML_DOCUMENT_END_EVENT with
  | .exit status => .exit status
  | .out_of_fuel => .out_of_fuel
  | .ok (_, dp10) =>
  match expect dp10 .YAML_STREAM_END_EVENT with
  | .exit status => .exit status
  | .out_of_fuel => .out_of_fuel
  | .ok (_, _) => .ok devices2

/-- The function `device_parser` on a configuration file that can be opened, given by the
events that libyaml delivers for it (and whether it fails once they are used up), with the
registry as it is on entry: the registry on `return 0`, or the exit of the process. -/
def device_parser_events (events : List yaml_event) (failure : Bool) (devices : List descriptor) :
    Run (List descriptor) :=
  match nextsym { pending := events, failure := failure,
                  event := { type := .YAML_NO_EVENT, value := [] } } with
  | .exit status => .exit status
  | .out_of_fuel => .out_of_fuel
  | .ok dp => device_parser_document dp devices

/-! ## Vocabulary of the statements about conmux.c -/

/-- Value of a hexadecimal digit character, upper or lower case. -/
def hex_digit_value (c : Nat) : Option Nat :=
  if 48 ≤ c ∧ c ≤ 57 then some (c - 48)
  else if 97 ≤ c ∧ c ≤ 102 then some (c - 87)
  else if 65 ≤ c ∧ c ≤ 70 then some (c - 55)
  else none

/-- The two characters `h1 h2` spell the byte `b` in hexadecimal. -/
def is_hex_spelling (h1 h2 b : Nat) : Prop :=
  hex_digit_value h1 = some (b / 16) ∧ hex_digit_value h2 = some (b % 16)

instance (h1 h2 b : Nat) : Decidable (is_hex_spelling h1 h2 b) := by
  unfold is_hex_spelling
  infer_instance

/-- Splits a line at every white-space byte; the pieces may be empty. -/
def split_ws : List Nat → List (List Nat)
  | [] => [[]]
  | c :: cs =>
    if isspace c then [] :: split_ws cs
    else
      match split_ws cs with
      | [] => [[c]]
      | t :: ts => (c :: t) :: ts

/-- The white-space separated tokens of a response line: the `key=value` pairs. -/
def ws_tokens (line : List Nat) : List (List Nat) :=
  (split_ws line).filter (fun t => !t.isEmpty)

/-- The key of a token: its leading letters. -/
def token_key (t : List Nat) : List Nat := t.takeWhile isalpha

/-- The value text of a token, still percent-encoded: what follows the byte after the key. -/
def token_value (t : List Nat) : List Nat := (t.dropWhile isalpha).tail

/-- The key of the token is not immediately followed by `=`. -/
def missing_equals (t : List Nat) : Bool := peek (t.dropWhile isalpha) != 61

/-- Some `%` of the text is not followed by two hexadecimal digits. -/
def bad_percent : List Nat → Bool
  | [] => false
  | c :: cs => (c == 37 && !(isxdigit (peek cs) && isxdigit (peek cs.tail))) || bad_percent cs

/-- A malformed pair: no `=` after the key, or a broken percent escape in the value. -/
def malformed_token (t : List Nat) : Bool := missing_equals t || bad_percent (token_value t)

/-- Key and value text of the token are shorter than 64 bytes. -/
def short_token (t : List Nat) : Bool :=
  decide ((token_key t).length < TOKEN_SIZE) && decide ((token_value t).length < TOKEN_SIZE)

/-- The parser stands at a byte that is neither NUL, white space nor printable: the next
iteration of `parse_response` reads an empty key and no `=`. -/
def stuck (rest : List Nat) : Prop :=
  peek rest ≠ 0 ∧ isspace (peek rest) = false ∧ isprint (peek rest) = false

/-- The text is empty or starts with a white-space byte. -/
def at_boundary (post : List Nat) : Prop :=
  post = [] ∨ ∃ c cs, post = c :: cs ∧ isspace c = true

/-- A byte of a value as it is written in a response line: literally, or as `%h1h2`. -/
inductive Piece where
  | lit (c : Nat)
  | esc (h1 h2 : Nat)
deriving DecidableEq, Repr

/-- A literal must be printable, not white space and not `%`; an escape needs two
hexadecimal digits. -/
def Piece.valid : Piece → Bool
  | .lit c => isprint c && !isspace c && c != 37
  | .esc h1 h2 => isxdigit h1 && isxdigit h2

/-- The characters of a piece on the wire. -/
def Piece.wire : Piece → List Nat
  | .lit c => [c]
  | .esc h1 h2 => [37, h1, h2]

/-- The byte that a piece stands for. -/
def Piece.byte : Piece → Nat
  | .lit c => c
  | .esc h1 h2 => 16 * (hex_digit_value h1).getD 0 + (hex_digit_value h2).getD 0

/-- The characters of a value on the wire. -/
def wire : List Piece → List Nat
  | [] => []
  | x :: xs => x.wire ++ wire xs

/-- The percent-decoded bytes of a value. -/
def decoded (ps : List Piece) : List Nat := ps.map Piece.byte

/-- The pair `key=value` on the wire. -/
def render_pair (pair : List Nat × List Piece) : List Nat := pair.1 ++ 61 :: wire pair.2

/-- A response line: the pairs separated by one space. -/
def render_line : List (List Nat × List Piece) → List Nat
  | [] => []
  | [pair] => render_pair pair
  | pair :: pairs => render_pair pair ++ 32 :: render_line pairs

/-- A pair the parser accepts within its buffers: a key of fewer than 64 letters and a value
of valid pieces that decodes to fewer than 64 bytes. -/
def well_formed_pair (pair : List Nat × List Piece) : Prop :=
  (∀ c ∈ pair.1, isalpha c = true) ∧ pair.1.length < TOKEN_SIZE ∧
  (∀ x ∈ pair.2, x.valid = true) ∧ pair.2.length < TOKEN_SIZE

instance (pair : List Nat × List Piece) : Decidable (well_formed_pair pair) := by
  unfold well_formed_pair
  infer_instance

/-- The literal pieces of a text. -/
def literal (text : List Nat) : List Piece := text.map Piece.lit

/-- The number written by a string of decimal digits. -/
def decimal_value (ds : List Nat) : Nat := ds.foldl (fun acc c => 10 * acc + (c - 48)) 0

/-- The pair `status=OK`. -/
def status_ok : List Nat × List Piece := (cstr "status", literal (cstr "OK"))

/-- The pair `result=<h>:<port>` for a host written as `h` and a port written as `ds`. -/
def result_pair (h : List Piece) (ds : List Nat) : List Nat × List Piece :=
  (cstr "result", h ++ Piece.lit 58 :: literal ds)

/-- The text has the form `<host>:<port>` with a base-10 integer port: some `:` of it is
followed by decimal digits, at least one, up to the end. -/
def is_host_port (text : List Nat) : Bool :=
  (List.range text.length).any fun i =>
    text.getD i 0 == 58 && !(text.drop (i + 1)).isEmpty && (text.drop (i + 1)).all isdigit

/-- No stored value holds a NUL byte: every pointer of the response is NULL or a C string. -/
def conmux_response.clean (resp : conmux_response) : Prop :=
  (∀ v, resp.title = some v → ∀ c ∈ v, c ≠ 0) ∧ (∀ v, resp.status = some v → ∀ c ∈ v, c ≠ 0) ∧
  (∀ v, resp.result = some v → ∀ c ∈ v, c ≠ 0) ∧ (∀ v, resp.state = some v → ∀ c ∈ v, c ≠ 0)

/-- A descriptor bound to the conmux control driver. -/
def conmux_device (has_power_key : Bool) (fastboot_key_timeout : Nat) : device :=
  { fastboot_key_timeout := fastboot_key_timeout, state := 0,
    has_power_key := has_power_key, usb_always_on := false,
    control_ops := some conmux_ops }

/-- The bytes that a value text stands for: `%HH` is one byte, any other byte is itself. -/
def decode_text : List Nat → List Nat
  | [] => []
  | c :: cs =>
    if c = 37 then
      match cs with
      | p0 :: p1 :: rest => percent_byte p0 p1 :: decode_text rest
      | _ => []
    else c :: decode_text cs

/-- A well-formed pair `key=value`: letters, `=`, then printable bytes in which every `%` is
followed by two hexadecimal digits; key and value text are shorter than 64 bytes, the size
of the parser's arrays. -/
def well_formed_token (t : List Nat) : Bool :=
  !malformed_token t && short_token t && (token_value t).all isprint

/-- A well-formed response line: a C string (no NUL inside) whose white-space separated
tokens are well-formed pairs. -/
def well_formed_line (line : List Nat) : Prop :=
  (∀ c ∈ line, c ≠ 0) ∧ ∀ t ∈ ws_tokens line, well_formed_token t = true

instance (line : List Nat) : Decidable (well_formed_line line) := by
  unfold well_formed_line
  infer_instance

/-- The key of the pair is one of `title`, `status`, `result`, `state`. -/
def known_key (t : List Nat) : Bool :=
  token_key t == cstr "title" || token_key t == cstr "status" ||
    token_key t == cstr "result" || token_key t == cstr "state"

/-- The tokens written on one line, separated by one space. -/
def join_tokens : List (List Nat) → List Nat
  | [] => []
  | [t] => t
  | t :: ts => t ++ 32 :: join_tokens ts

/-- The line with every pair removed whose key is not one of the four known keys. -/
def without_unknown_keys (line : List Nat) : List Nat :=
  join_tokens ((ws_tokens line).filter known_key)

/-! ## Vocabulary of the statements about the registry -/

/-- The string, when set, is a C string: it holds no NUL byte. -/
def no_nul (s : Option (List Nat)) : Bool :=
  match s with
  | none => true
  | some v => v.all (fun c => c != 0)

/-- A descriptor as the catalog parser registers it: `board` is set, and `board`, `name` and
`description` are C strings. -/
def registered (dev : device) : Bool :=
  dev.board.isSome && no_nul dev.board && no_nul dev.name && no_nul dev.description

/-- The payload of a listing frame in the words of the spec: the board left-justified and
padded with spaces to 20 columns, one space, then the name; the board alone when no name is
set. -/
def listing_payload (dev : device) : List Nat :=
  match dev.name with
  | some name =>
    dev.board.getD [] ++ List.replicate (20 - (dev.board.getD []).length) 32 ++ [32] ++ name
  | none => dev.board.getD []

/-- The listing frame of a descriptor. -/
def listing_frame (dev : device) : msg :=
  { type := .MSG_LIST_DEVICES, len := (listing_payload dev).length,
    data := listing_payload dev }

/-- The payload of the info frame in the words of the code: the description of the first
descriptor, in registry order, whose board starts with the prefix bytes and whose
description is set; empty when there is none. -/
def info_payload (devices : List device) (data : List Nat) : List Nat :=
  match devices.find? (fun d => data.isPrefixOf (d.board.getD []) && d.description.isSome) with
  | some d => d.description.getD []
  | none => []

/-- A registry entry with the given board, name and description, bound to a console driver
with `write` only and to no control driver. -/
def catalog_device (board : List Nat) (name description : Option (List Nat)) : device :=
  { fastboot_key_timeout := 0, state := 0, has_power_key := false, usb_always_on := false,
    control_ops := none, board := some board, name := name, description := description,
    console_ops := some { open_ := false, write := true, send_break := false } }

/-! ## Vocabulary of the statements about device_parser.c -/

/-- One of the key letters `B`, `b`, `R`, `r`. -/
def is_key_letter (c : Nat) : Bool := c == 66 || c == 98 || c == 82 || c == 114

/-- The key named by a letter: POWER for `b`/`B`, FASTBOOT for `r`/`R`. -/
def letter_key (c : Nat) : Nat :=
  if c = 66 ∨ c = 98 then DEVICE_KEY_POWER else DEVICE_KEY_FASTBOOT

/-- Upper-case letters assert the key. -/
def letter_asserted (c : Nat) : Bool := c == 66 || c == 82

/-- The step described by a letter and the digits of its duration. -/
def step_of (pair : Nat × List Nat) : reset_step :=
  { key := letter_key pair.1, asserted := letter_asserted pair.1,
    sleep_ms := decimal_value pair.2 }

/-- The text `<letter>;<duration>;` of one step. -/
def render_step (pair : Nat × List Nat) : List Nat := pair.1 :: 59 :: (pair.2 ++ [59])

/-- The text of a sequence of `<letter>;<duration>;` steps. -/
def render_steps : List (Nat × List Nat) → List Nat
  | [] => []
  | pair :: pairs => render_step pair ++ render_steps pairs

/-- A key letter with a non-empty decimal duration that fits an `int`. -/
def well_formed_step (pair : Nat × List Nat) : Prop :=
  is_key_letter pair.1 = true ∧ pair.2 ≠ [] ∧ (∀ c ∈ pair.2, isdigit c = true) ∧
  decimal_value pair.2 ≤ INT_MAX

instance (pair : Nat × List Nat) : Decidable (well_formed_step pair) := by
  unfold well_formed_step
  infer_instance

/-- The text of an optional last letter that no duration follows. -/
def render_trailing : Option Nat → List Nat
  | none => []
  | some c => [c, 59]

/-- The array left by `n = pairs.length` full steps and an optional last letter: the steps,
then the slot of the last letter (written, with `sleep_ms` 0), then zeroed slots up to
`MAX_RESET_SEQUENCE`. -/
def expected_steps (pairs : List (Nat × List Nat)) (trailing : Option Nat) : List reset_step :=
  pairs.map step_of ++
    match trailing with
    | none => List.replicate (MAX_RESET_SEQUENCE - pairs.length) reset_step.zero
    | some c =>
      { key := letter_key c, asserted := letter_asserted c, sleep_ms := 0 } ::
        List.replicate (MAX_RESET_SEQUENCE - 1 - pairs.length) reset_step.zero

/-- The `;`-terminated tokens of a sequence; text after the last `;` is not a token. -/
def semicolon_tokens : List Nat → List (List Nat)
  | [] => []
  | c :: cs =>
    if c = 59 then [] :: semicolon_tokens cs
    else
      match semicolon_tokens cs with
      | [] => []
      | t :: ts => (c :: t) :: ts

/-- The token starts with a decimal number: optional white space, an optional sign, then a
digit. -/
def starts_with_number (t : List Nat) : Bool :=
  let p := t.dropWhile isspace
  isdigit (peek (if peek p = 45 ∨ peek p = 43 then p.tail else p))

/-- A token that is no step at all: it neither starts with a key letter nor with a number. -/
def stray_token (t : List Nat) : Bool := !is_key_letter (peek t) && !starts_with_number t

/-! ## Vocabulary of the statements about the catalog parser -/

/-- The scalar event with the given bytes. -/
def scalar (value : List Nat) : yaml_event := { type := .YAML_SCALAR_EVENT, value := value }

/-- The event of a type that carries no scalar. -/
def event (type : yaml_event_type) : yaml_event := { type := type, value := [] }

/-- The events of the entries `key: value` of an inner mapping, in document order. -/
def render_entries : List (List Nat × List Nat) → List yaml_event
  | [] => []
  | entry :: entries => scalar entry.1 :: scalar entry.2 :: render_entries entries

/-- The events of one inner mapping. -/
def render_board (entries : List (List Nat × List Nat)) : List yaml_event :=
  event .YAML_MAPPING_START_EVENT :: (render_entries entries ++ [event .YAML_MAPPING_END_EVENT])

/-- The events of a sequence of inner mappings. -/
def render_boards : List (List (List Nat × List Nat)) → List yaml_event
  | [] => []
  | entries :: boards => render_board entries ++ render_boards boards

/-- The events of a configuration document: a mapping with the one key `root`, whose value is
the sequence of the inner mappings. -/
def render_document (root : List Nat) (boards : List (List (List Nat × List Nat))) :
    List yaml_event :=
  [event .YAML_STREAM_START_EVENT, event .YAML_DOCUMENT_START_EVENT,
   event .YAML_MAPPING_START_EVENT, scalar root, event .YAML_SEQUENCE_START_EVENT] ++
    (render_boards boards ++
      [event .YAML_SEQUENCE_END_EVENT, event .YAML_MAPPING_END_EVENT,
       event .YAML_DOCUMENT_END_EVENT, event .YAML_STREAM_END_EVENT])

/-- The parser after `nextsym` has loaded the first of `events`, with the others to come. -/
def load (events : List yaml_event) (failure : Bool) : device_parser_t :=
  match events with
  | e :: es => { pending := es, failure := failure, event := e }
  | [] => { pending := [], failure := failure, event := event .YAML_NO_EVENT }

/-- The value, as `accept` copies it, of the last entry of the mapping whose key is `key`;
`none` when the mapping has no such entry. -/
def last_value (key : List Nat) : List (List Nat × List Nat) → Option (List Nat)
  | [] => none
  | entry :: entries =>
    (last_value key entries).or
      (if copy_scalar entry.1 = key then some (copy_scalar entry.2) else none)

/-- The keys that bind a control driver, and with it `dev->open`. -/
def control_keys : List (List Nat) :=
  [cstr "cdba", cstr "conmux", cstr "alpaca", cstr "ftdi_gpio", cstr "qcomlt_debug_board"]

/-- The mapping has an entry whose key binds a control driver. -/
def has_control_key (entries : List (List Nat × List Nat)) : Bool :=
  entries.any (fun entry => control_keys.contains (copy_scalar entry.1))

/-- The mapping lacks a `board` entry, a `fastboot` entry, or both a control-driver entry and
a `console` entry. -/
def missing_entries (entries : List (List Nat × List Nat)) : Bool :=
  (last_value (cstr "board") entries).isNone || (last_value (cstr "fastboot") entries).isNone ||
    (!has_control_key entries && (last_value (cstr "console") entries).isNone)

/-- The loop body of `parse_board` applied to the entries of a mapping in document order. -/
def apply_entries (dev : descriptor) : List (List Nat × List Nat) → Run descriptor
  | [] => .ok dev
  | entry :: entries =>
    match parse_board_key dev (copy_scalar entry.1) (copy_scalar entry.2) with
    | .ok dev1 => apply_entries dev1 entries
    | .exit status => .exit status
    | .out_of_fuel => .out_of_fuel

/-- The registry after the mappings have been read one after the other, each into a fresh
descriptor that is added when it is sufficiently defined. -/
def add_boards (devices : List descriptor) : List (List (List Nat × List Nat)) →
    Run (List descriptor)
  | [] => .ok devices
  | entries :: boards =>
    match apply_entries descriptor.calloc entries with
    | .ok dev =>
      if insufficiently_defined dev then .exit 1 else add_boards (device_add devices dev) boards
    | .exit status => .exit status
    | .out_of_fuel => .out_of_fuel

/-! ## The timer argument, and pairs in the words of the spec -/

/-- Modelled from the spec: `watch_timer_add` is declared outside the sources; its parameter
`timeout_ms` is taken to be an `int`, so that the `unsigned int` product
`device->fastboot_key_timeout * 1000` is converted by reduction modulo `2^32` into the range
of `int`: a product above `INT_MAX` arrives as a negative delay. -/
def timer_argument (ms : Nat) : Int := long_to_int (ms : Int)

/-- A pair `key=value` as the spec describes a response line ("whitespace-separated
`key=value` pairs where value is percent-decoded"): a non-empty key, whatever its bytes, an
`=`, and a value of printable bytes in which every `%` is followed by two hexadecimal
digits. -/
def key_value_pair (t : List Nat) : Bool :=
  let key := t.takeWhile (fun c => c != 61)
  !key.isEmpty && decide (key.length < t.length) && t.all isprint &&
    !bad_percent (t.drop (key.length + 1))

/-- The key of a pair in the words of the spec: the text before the first `=`. -/
def pair_key (t : List Nat) : List Nat := t.takeWhile (fun c => c != 61)

/-! ## device.c: power-off during the start sequence, and `device_boot` -/

/-- The calls `device_power(dev, true)` and then `device_power(dev, false)`, both at time 0,
followed by `n` timer expiries. -/
def power_on_then_off (dev : device) (n : Nat) : Option Sim :=
  match (Sim.init dev).device_power true with
  | none => none
  | some s0 =>
    match s0.device_power false with
    | none => none
    | some s1 => s1.run n

/-- A call into the fastboot session of a descriptor. -/
inductive FastbootCall where
  | fastboot_set_active (slot : List Nat)
  | fastboot_download
  | fastboot_boot
  | fastboot_flash (partition : List Nat)
  | fastboot_reboot
deriving DecidableEq, Repr

/-- The function `device_fastboot_boot`. -/
def device_fastboot_boot : List FastbootCall := [.fastboot_boot]

/-- The function `device_fastboot_flash_reboot`. -/
def device_fastboot_flash_reboot : List FastbootCall :=
  [.fastboot_flash (cstr "boot"), .fastboot_reboot]

/-- The call through the function pointer `dev->boot`. -/
def boot_fn.call : boot_fn → List FastbootCall
  | .device_fastboot_boot => Cdba.device_fastboot_boot
  | .device_fastboot_flash_reboot => Cdba.device_fastboot_flash_reboot

/-- The function `device_boot`: `device->boot` is called without a test; `none` when it is
NULL. -/
def device_boot (dev : descriptor) : Option (List FastbootCall) :=
  let c1 := if dev.set_active then [FastbootCall.fastboot_set_active (cstr "a")] else []
  match dev.boot with
  | none => none
  | some fn => some (c1 ++ [FastbootCall.fastboot_download] ++ fn.call)

/-! ## device_parser.c: the stores of `parse_reset_sequence` -/

/-- The stores into `dev->reset_sequence[i]` made by the loop of `parse_reset_sequence`, in
program order, one entry for each token: the index `i`, and whether the token stored
`sleep_ms` (the `default` case) rather than `key` and `asserted` (a letter). The store of
`sleep_ms` precedes the test that exits on an invalid token. -/
def reset_loop_writes : Nat → List Nat → Nat → List (Nat × Bool)
  | 0, _, _ => []
  | fuel + 1, pp, i =>
    if i < MAX_RESET_SEQUENCE then
      match strchr_split 59 pp with
      | none => []
      | some (tok, rest) =>
        if peek tok = 66 then (i, false) :: reset_loop_writes fuel rest i
        else if peek tok = 98 then (i, false) :: reset_loop_writes fuel rest i
        else if peek tok = 82 then (i, false) :: reset_loop_writes fuel rest i
        else if peek tok = 114 then (i, false) :: reset_loop_writes fuel rest i
        else if peek (strtol tok).2 = peek tok then [(i, true)]
        else (i, true) :: reset_loop_writes fuel rest (i + 1)
    else []

/-- The stores into the array made by `parse_reset_sequence`. -/
def parse_reset_sequence_writes (seq : List Nat) : List (Nat × Bool) :=
  reset_loop_writes (seq.length + 1) seq 0

/-- The array slots that `parse_reset_sequence` wrote to, each once. -/
def written_slots (seq : List Nat) : List Nat :=
  ((parse_reset_sequence_writes seq).map (fun w => w.1)).dedup

/-- The number of `sleep_ms` stores, one for each duration token. -/
def stored_durations (seq : List Nat) : Nat :=
  ((parse_reset_sequence_writes seq).filter (fun w => w.2)).length

/-- What a run of the loop from index `i` with the array `steps`, left with index `j` and the
array `out`, has to do with its stores `writes`: the index has moved on once for each
duration stored; no store is beyond `j`; every slot from `i` up to `j` holds a stored
duration; the array has kept its length, and a slot without a store is as it was. -/
def stores_account (writes : List (Nat × Bool)) (i j : Nat) (steps out : List reset_step) :
    Prop :=
  j = i + (writes.filter (fun w => w.2)).length ∧
  (∀ w ∈ writes, w.1 ≤ j) ∧
  (∀ k, i ≤ k → k < j → (k, true) ∈ writes) ∧
  out.length = steps.length ∧
  ∀ k, (∀ w ∈ writes, w.1 ≠ k) → out[k]? = steps[k]?

/-! ## Vocabulary of the statements about the boot function -/

/-- The mapping has an entry `broken_fastboot_boot: true`. -/
def broken_boot (entries : List (List Nat × List Nat)) : Bool :=
  entries.any (fun entry =>
    copy_scalar entry.1 == cstr "broken_fastboot_boot" && copy_scalar entry.2 == cstr "true")

/-! # Theorems -/

/-! ## Power-up state machine -/

theorem device_has_control_of_ops {dev : device} {ops : control_ops}
    (h : dev.control_ops = some ops) (op : ControlOp) :
    device_has_control dev op = ops.has op := by
  simp [device_has_control, h]

theorem timers_of_append (a b : List Call) : timers_of (a ++ b) = timers_of a ++ timers_of b := by
  induction a with
  | nil => rfl
  | cons c cs ih => cases c <;> simp [timers_of, ih]

theorem Sim.run_idle (s : Sim) (h : s.pending = []) (m : Nat) : s.run m = some s := by
  induction m with
  | zero => rfl
  | succ k ih => simp [Sim.run, Sim.fire, h, earliest, ih]

theorem Sim.run_add (s : Sim) (a b : Nat) :
    s.run (a + b) = (s.run a).bind (fun s1 => s1.run b) := by
  induction a generalizing s with
  | zero => simp [Sim.run]
  | succ k ih =>
    rw [Nat.add_right_comm]
    cases hf : s.fire with
    | none => simp [Sim.run, hf]
    | some s1 => simp [Sim.run, hf, ih]

/-- C1. Power-up with a power key: for a descriptor with `has_power_key` set whose control
driver implements power, usb and key, and a `fastboot_key_timeout` `t` whose product
`1000 * t` fits the timer argument, `device_power(true)` at time 0 followed by the timer
expiries (any number `n ≥ 4` of reactor steps) ends in state RUNNING with no timer pending,
and the driver calls made are exactly: at 0 ms `key(FASTBOOT,true)` (only when `t > 0`) then
`key(POWER,false)`; at 10 ms `power(true)` then `usb(true)`; at 260 ms `key(POWER,true)`; at
360 ms `key(POWER,false)`; and, when `t > 0`, `key(FASTBOOT,false)` at `360 + 1000*t` ms. -/
theorem power_up_with_power_key (dev : device) (ops : control_ops) (n : Nat)
    (hops : dev.control_ops = some ops) (hpower : ops.power = true) (husb : ops.usb = true)
    (hkey : ops.key = true) (hpk : dev.has_power_key = true)
    (ht : 1000 * dev.fastboot_key_timeout ≤ INT_MAX) (hn : 4 ≤ n) :
    ∃ s, power_up dev n = some s ∧ s.dev.state = DEVICE_STATE_RUNNING ∧ s.pending = [] ∧
      s.trace =
        (if 0 < dev.fastboot_key_timeout then [(0, Call.key DEVICE_KEY_FASTBOOT true)] else [])
        ++ [(0, Call.key DEVICE_KEY_POWER false), (10, Call.power true), (10, Call.usb true),
            (260, Call.key DEVICE_KEY_POWER true), (360, Call.key DEVICE_KEY_POWER false)]
        ++ (if 0 < dev.fastboot_key_timeout then
              [(360 + 1000 * dev.fastboot_key_timeout, Call.key DEVICE_KEY_FASTBOOT false)]
            else []) := by
  obtain ⟨m, rfl⟩ : ∃ m, n = m + 4 := ⟨n - 4, by omega⟩
  have hmod : (dev.fastboot_key_timeout * 1000) % 4294967296
      = dev.fastboot_key_timeout * 1000 := by
    apply Nat.mod_eq_of_lt
    simp [INT_MAX] at ht
    omega
  have hk : device_has_control dev .key = true := by
    rw [device_has_control_of_ops hops]; exact hkey
  have hu : device_has_control dev .usb = true := by
    rw [device_has_control_of_ops hops]; exact husb
  have hp : device_has_control dev .power = true := by
    rw [device_has_control_of_ops hops]; exact hpower
  have hrun : ∀ s : Sim, s.run (m + 4) = (s.run 4).bind (fun s1 => s1.run m) := by
    intro s
    rw [Nat.add_comm, Sim.run_add]
  simp only [power_up, Sim.device_power, device_power, device_power_on, hp, if_true,
    Bool.not_true, Bool.false_eq_true, if_false, hrun]
  by_cases h0 : dev.fastboot_key_timeout = 0
  · refine ⟨{ now := 360, dev := { dev with state := 5 }, pending := [], trace := _ }, ?_, rfl, rfl, rfl⟩
    simp [device_tick, Sim.init, Sim.record, h0, hpk, device_key, device_has_control, hops,
      hkey, husb, hpower, control_ops.has, timers_of, driver_calls, Sim.run, Sim.fire, earliest,
      device_impl_power, device_usb, DEVICE_STATE_START, DEVICE_STATE_CONNECT,
      DEVICE_STATE_PRESS, DEVICE_STATE_RELEASE_PWR, DEVICE_STATE_RUNNING]
    exact Sim.run_idle _ rfl m
  · have hpos : 0 < dev.fastboot_key_timeout := Nat.pos_of_ne_zero h0
    refine ⟨{ now := 360 + 1000 * dev.fastboot_key_timeout, dev := { dev with state := 5 },
              pending := [], trace := _ }, ?_, rfl, rfl, rfl⟩
    simp [device_tick, Sim.init, Sim.record, h0, hpos, hpk, device_key, device_has_control, hops,
      hkey, husb, hpower, control_ops.has, timers_of, driver_calls, Sim.run, Sim.fire, earliest,
      device_impl_power, device_usb, DEVICE_STATE_START, DEVICE_STATE_CONNECT,
      DEVICE_STATE_PRESS, DEVICE_STATE_RELEASE_PWR, DEVICE_STATE_RELEASE_FASTBOOT,
      DEVICE_STATE_RUNNING, fastboot_key_delay, Nat.mul_comm]
    rw [hmod]
    exact Sim.run_idle _ rfl m

/-- C1 at `has_power_key = true`, `fastboot_key_timeout = 3` and a driver with every
operation: the fastboot key is released at 3360 ms. -/
theorem power_up_with_power_key_witness :
    1000 * (sample_device true 3).fastboot_key_timeout ≤ INT_MAX ∧
    ∃ s, power_up (sample_device true 3) 4 = some s ∧ s.dev.state = DEVICE_STATE_RUNNING ∧
      s.pending = [] ∧
      s.trace = [(0, Call.key DEVICE_KEY_FASTBOOT true), (0, Call.key DEVICE_KEY_POWER false),
        (10, Call.power true), (10, Call.usb true), (260, Call.key DEVICE_KEY_POWER true),
        (360, Call.key DEVICE_KEY_POWER false), (3360, Call.key DEVICE_KEY_FASTBOOT false)] :=
  ⟨by decide, by
    simpa [sample_device] using
      power_up_with_power_key (sample_device true 3) full_ops 4 rfl rfl rfl rfl rfl
        (by decide) (by decide)⟩

/-- C2. Power-up without a power key: for a descriptor with `has_power_key` clear whose
control driver implements power, usb and key, and a `fastboot_key_timeout` `t` whose product
`1000 * t` fits the timer argument, `device_power(true)` at time 0 followed by the timer
expiries (any number `n ≥ 2` of reactor steps) ends in state RUNNING with no timer pending,
and the driver calls made are exactly: at 0 ms `key(FASTBOOT,true)` (only when `t > 0`); at
10 ms `power(true)` then `usb(true)`; and, when `t > 0`, `key(FASTBOOT,false)` at
`10 + 1000*t` ms. -/
theorem power_up_without_power_key (dev : device) (ops : control_ops) (n : Nat)
    (hops : dev.control_ops = some ops) (hpower : ops.power = true) (husb : ops.usb = true)
    (hkey : ops.key = true) (hpk : dev.has_power_key = false)
    (ht : 1000 * dev.fastboot_key_timeout ≤ INT_MAX) (hn : 2 ≤ n) :
    ∃ s, power_up dev n = some s ∧ s.dev.state = DEVICE_STATE_RUNNING ∧ s.pending = [] ∧
      s.trace =
        (if 0 < dev.fastboot_key_timeout then [(0, Call.key DEVICE_KEY_FASTBOOT true)] else [])
        ++ [(10, Call.power true), (10, Call.usb true)]
        ++ (if 0 < dev.fastboot_key_timeout then
              [(10 + 1000 * dev.fastboot_key_timeout, Call.key DEVICE_KEY_FASTBOOT false)]
            else []) := by
  obtain ⟨m, rfl⟩ : ∃ m, n = m + 2 := ⟨n - 2, by omega⟩
  have hmod : (dev.fastboot_key_timeout * 1000) % 4294967296
      = dev.fastboot_key_timeout * 1000 := by
    apply Nat.mod_eq_of_lt
    simp [INT_MAX] at ht
    omega
  have hp : device_has_control dev .power = true := by
    rw [device_has_control_of_ops hops]; exact hpower
  have hrun : ∀ s : Sim, s.run (m + 2) = (s.run 2).bind (fun s1 => s1.run m) := by
    intro s
    rw [Nat.add_comm, Sim.run_add]
  simp only [power_up, Sim.device_power, device_power, device_power_on, hp, if_true,
    Bool.not_true, Bool.false_eq_true, if_false, hrun]
  by_cases h0 : dev.fastboot_key_timeout = 0
  · refine ⟨{ now := 10, dev := { dev with state := 5 }, pending := [], trace := _ },
      ?_, rfl, rfl, rfl⟩
    simp [device_tick, Sim.init, Sim.record, h0, hpk, device_key, device_has_control, hops,
      hkey, husb, hpower, control_ops.has, timers_of, driver_calls, Sim.run, Sim.fire, earliest,
      device_impl_power, device_usb, DEVICE_STATE_START, DEVICE_STATE_CONNECT,
      DEVICE_STATE_RUNNING]
    exact Sim.run_idle _ rfl m
  · have hpos : 0 < dev.fastboot_key_timeout := Nat.pos_of_ne_zero h0
    refine ⟨{ now := 10 + 1000 * dev.fastboot_key_timeout, dev := { dev with state := 5 },
              pending := [], trace := _ }, ?_, rfl, rfl, rfl⟩
    simp [device_tick, Sim.init, Sim.record, h0, hpos, hpk, device_key, device_has_control, hops,
      hkey, husb, hpower, control_ops.has, timers_of, driver_calls, Sim.run, Sim.fire, earliest,
      device_impl_power, device_usb, DEVICE_STATE_START, DEVICE_STATE_CONNECT,
      DEVICE_STATE_RELEASE_FASTBOOT, DEVICE_STATE_RUNNING, fastboot_key_delay, Nat.mul_comm]
    rw [hmod]
    exact Sim.run_idle _ rfl m

/-- C2 at `has_power_key = false`, `fastboot_key_timeout = 3`: the fastboot key is released
at 3010 ms. -/
theorem power_up_without_power_key_witness :
    1000 * (sample_device false 3).fastboot_key_timeout ≤ INT_MAX ∧
    ∃ s, power_up (sample_device false 3) 2 = some s ∧ s.dev.state = DEVICE_STATE_RUNNING ∧
      s.pending = [] ∧
      s.trace = [(0, Call.key DEVICE_KEY_FASTBOOT true), (10, Call.power true),
        (10, Call.usb true), (3010, Call.key DEVICE_KEY_FASTBOOT false)] :=
  ⟨by decide, by
    simpa [sample_device] using
      power_up_without_power_key (sample_device false 3) full_ops 2 rfl rfl rfl rfl rfl
        (by decide) (by decide)⟩

/-- C3. State-machine totality: for every descriptor whose control driver has `power` (the
condition under which `device_power_on` enters the machine), whatever `has_power_key` and
`fastboot_key_timeout` are: applying `device_tick` from START reaches RUNNING after exactly
`2 + 2*[has_power_key] + [fastboot_key_timeout > 0]` dispatches (at most 5) and not before;
and every dispatch from a state below RUNNING strictly increases the state, schedules
exactly one timer when it does not enter RUNNING and none when it does. -/
theorem start_sequence_total (dev : device) (hp : device_has_control dev .power = true) :
    (∃ d, device_ticks (start_sequence_ticks dev) { dev with state := DEVICE_STATE_START }
        = some d ∧ d.state = DEVICE_STATE_RUNNING) ∧
    start_sequence_ticks dev ≤ 5 ∧
    (∀ k, k < start_sequence_ticks dev →
      ∃ d, device_ticks k { dev with state := DEVICE_STATE_START } = some d ∧
        d.state < DEVICE_STATE_RUNNING) ∧
    (∀ st, st < DEVICE_STATE_RUNNING →
      ∃ r, device_tick { dev with state := st } = some r ∧
        st < r.1.state ∧ r.1.state ≤ DEVICE_STATE_RUNNING ∧
        (r.1.state ≠ DEVICE_STATE_RUNNING → (timers_of r.2).length = 1) ∧
        (r.1.state = DEVICE_STATE_RUNNING → timers_of r.2 = [])) := by
  obtain ⟨ops, hops, hpw⟩ : ∃ ops, dev.control_ops = some ops ∧ ops.power = true := by
    cases h : dev.control_ops with
    | none => simp [device_has_control, h] at hp
    | some ops => exact ⟨ops, rfl, by simpa [device_has_control, h, control_ops.has] using hp⟩
  refine ⟨?_, ?_, ?_, ?_⟩
  · cases hpk : dev.has_power_key <;> by_cases h0 : dev.fastboot_key_timeout = 0 <;>
      simp [start_sequence_ticks, device_ticks, device_tick, hpk, h0, device_impl_power, hops, hpw, Nat.pos_of_ne_zero,
        DEVICE_STATE_START, DEVICE_STATE_CONNECT, DEVICE_STATE_PRESS, DEVICE_STATE_RELEASE_PWR,
        DEVICE_STATE_RELEASE_FASTBOOT, DEVICE_STATE_RUNNING]
  · unfold start_sequence_ticks
    split_ifs <;> omega
  · intro k hk
    cases hpk : dev.has_power_key <;> by_cases h0 : dev.fastboot_key_timeout = 0 <;>
      simp [start_sequence_ticks, hpk, h0, Nat.pos_of_ne_zero] at hk <;>
      interval_cases k <;>
      simp [device_ticks, device_tick, hpk, h0, device_impl_power, hops, hpw,
        DEVICE_STATE_START, DEVICE_STATE_CONNECT, DEVICE_STATE_PRESS, DEVICE_STATE_RELEASE_PWR,
        DEVICE_STATE_RELEASE_FASTBOOT, DEVICE_STATE_RUNNING]
  · intro st hst
    simp only [DEVICE_STATE_RUNNING] at hst
    have hk : ∀ (d : device) (k : Nat) (a : Bool), timers_of (device_key d k a) = [] := by
      intro d k a
      unfold device_key
      split_ifs <;> rfl
    have hu : ∀ (d : device) (a : Bool), timers_of (device_usb d a) = [] := by
      intro d a
      unfold device_usb
      split_ifs <;> rfl
    cases hpk : dev.has_power_key <;> by_cases h0 : dev.fastboot_key_timeout = 0 <;>
      interval_cases st <;>
      simp [device_tick, hpk, h0, device_impl_power, hops, hpw, timers_of_append, timers_of, hk, hu,
        DEVICE_STATE_START, DEVICE_STATE_CONNECT, DEVICE_STATE_PRESS, DEVICE_STATE_RELEASE_PWR,
        DEVICE_STATE_RELEASE_FASTBOOT, DEVICE_STATE_RUNNING]


theorem cstr_result_eq : cstr "result" = [114, 101, 115, 117, 108, 116] := by decide

theorem hex_digit_value_spec {c v : Nat} (h : hex_digit_value c = some v) :
    isxdigit c = true ∧ nibble c = v ∧ v < 16 := by
  unfold hex_digit_value at h
  split_ifs at h with h1 h2 h3 <;> simp at h <;> subst h
  · refine ⟨by simp [isxdigit, isdigit, h1], ?_, by omega⟩
    simp [nibble, h1]; omega
  · refine ⟨by simp [isxdigit, isdigit, h2], ?_, by omega⟩
    have : ¬ (48 ≤ c ∧ c ≤ 57) := h1
    have h4 : 97 ≤ c ∧ c ≤ 122 := ⟨h2.1, by omega⟩
    simp [nibble, h1, h4]; omega
  · refine ⟨by simp [isxdigit, isdigit, h3], ?_, by omega⟩
    have h4 : ¬ (97 ≤ c ∧ c ≤ 122) := by omega
    have h5 : 65 ≤ c ∧ c ≤ 90 := ⟨h3.1, by omega⟩
    simp [nibble, h1, h4, h5]; omega

theorem percent_byte_arith : ∀ v1 < 16, ∀ v2 < 16, ((v1 <<< 4) ||| v2) % 256 = 16 * v1 + v2 := by
  decide

theorem parse_response_percent (h1 h2 : Nat) (hx1 : isxdigit h1 = true)
    (hx2 : isxdigit h2 = true) :
    parse_response (cstr "result=%" ++ [h1, h2]) =
      .ret0 { conmux_response.zero with result := some (c_string [percent_byte h1 h2]) } := by
  have e : cstr "result=%" = [114, 101, 115, 117, 108, 116, 61, 37] := by decide
  rw [e]
  simp [parse_response, parse_pairs, peek, skip_space, isspace, scan_key, isalpha, scan_value,
    isprint, hx1, hx2, TOKEN_SIZE, ValueScan.push, conmux_response.store, cstr_result_eq,
    conmux_response.zero]

/-- C3 at `has_power_key = true`, `fastboot_key_timeout = 3`: RUNNING after 5 dispatches. -/
theorem start_sequence_total_witness :
    ∃ d, device_ticks 5 { sample_device true 3 with state := DEVICE_STATE_START } = some d ∧
      d.state = DEVICE_STATE_RUNNING :=
  (start_sequence_total (sample_device true 3) rfl).1

/-- C4, as stated, fails for the byte 0x00: the line `result=%00` is accepted, and the value
stored for `result` is the empty string, not the one byte 0x00 (`strdup` stops at the NUL
that the escape decodes to). -/
theorem percent_decoding_nul :
    is_hex_spelling 48 48 0 ∧
    parse_response (cstr "result=%00") =
      .ret0 { conmux_response.zero with result := some [] } ∧
    parse_response (cstr "result=%00") ≠
      .ret0 { conmux_response.zero with result := some [0] } := by
  decide

/-- C4, amended. Percent decoding: for every byte value `b` (the spelling forces
`b ≤ 0xFF`) and every two-digit hexadecimal spelling `h1 h2` of `b`, in upper, lower or mixed
case, `parse_response` on the line `result=%h1h2` succeeds, and the value stored for `result`
is the one byte `b` when `b ≠ 0` and the empty string when `b = 0`. -/
theorem percent_decoding (b h1 h2 : Nat) (hs : is_hex_spelling h1 h2 b) :
    parse_response (cstr "result=%" ++ [h1, h2]) =
      .ret0 { conmux_response.zero with result := some (if b = 0 then [] else [b]) } := by
  obtain ⟨hx1, hn1, hv1⟩ := hex_digit_value_spec hs.1
  obtain ⟨hx2, hn2, hv2⟩ := hex_digit_value_spec hs.2
  rw [parse_response_percent h1 h2 hx1 hx2]
  have hb : percent_byte h1 h2 = b := by
    unfold percent_byte
    rw [hn1, hn2, percent_byte_arith _ hv1 _ hv2]
    omega
  rw [hb]
  by_cases h0 : b = 0 <;> simp [c_string, h0, List.takeWhile]

/-- C4 at the mixed-case spelling `%4a` of the byte 0x4a. -/
theorem percent_decoding_witness :
    is_hex_spelling 52 97 0x4a ∧
    parse_response (cstr "result=%4a") =
      .ret0 { conmux_response.zero with result := some [0x4a] } :=
  ⟨by decide, percent_decoding 0x4a 52 97 (by decide)⟩

/-! ## Malformed responses -/

theorem skip_space_eq (p : List Nat) : skip_space p = p.dropWhile isspace := by
  induction p with
  | nil => rfl
  | cons c cs ih => by_cases h : isspace c = true <;> simp [skip_space, h, ih]

theorem scan_key_eq (p : List Nat) : scan_key p = (p.takeWhile isalpha, p.dropWhile isalpha) := by
  induction p with
  | nil => rfl
  | cons c cs ih => by_cases h : isalpha c = true <;> simp [scan_key, h, ih]

theorem split_ws_ne_nil (p : List Nat) : split_ws p ≠ [] := by
  cases p with
  | nil => simp [split_ws]
  | cons c cs =>
    by_cases h : isspace c = true
    · simp [split_ws, h]
    · simp only [split_ws, h]
      cases split_ws cs <;> simp

theorem split_ws_cons_nonspace (c : Nat) (cs : List Nat) (h : isspace c = false) :
    split_ws (c :: cs) = (c :: (split_ws cs).headI) :: (split_ws cs).tail := by
  simp only [split_ws, h]
  cases hs : split_ws cs with
  | nil => exact absurd hs (split_ws_ne_nil cs)
  | cons t ts => simp

theorem ws_tokens_cons_space (c : Nat) (cs : List Nat) (h : isspace c = true) :
    ws_tokens (c :: cs) = ws_tokens cs := by
  simp [ws_tokens, split_ws, h]

theorem ws_tokens_dropWhile (p : List Nat) : ws_tokens (p.dropWhile isspace) = ws_tokens p := by
  induction p with
  | nil => rfl
  | cons c cs ih =>
    by_cases h : isspace c = true
    · simp [h, ih, ws_tokens_cons_space]
    · simp [h]

theorem split_ws_token (t post : List Nat) (ht : ∀ c ∈ t, isspace c = false)
    (hpost : at_boundary post) : split_ws (t ++ post) = t :: (split_ws post).tail := by
  induction t with
  | nil =>
    rcases hpost with rfl | ⟨c, cs, rfl, hc⟩
    · simp [split_ws]
    · simp [split_ws, hc]
  | cons c cs ih =>
    have hc : isspace c = false := ht c (by simp)
    have ih1 := ih (fun x hx => ht x (by simp [hx]))
    rw [List.cons_append, split_ws_cons_nonspace _ _ hc, ih1]
    simp

theorem ws_tokens_boundary (post : List Nat) (hpost : at_boundary post) :
    ws_tokens post = (split_ws post).tail.filter (fun t => !t.isEmpty) := by
  rcases hpost with rfl | ⟨c, cs, rfl, hc⟩
  · simp [ws_tokens, split_ws]
  · simp [ws_tokens, split_ws, hc]

theorem ws_tokens_token (t post : List Nat) (ht : ∀ c ∈ t, isspace c = false) (hne : t ≠ [])
    (hpost : at_boundary post) : ws_tokens (t ++ post) = t :: ws_tokens post := by
  rw [ws_tokens_boundary post hpost, ws_tokens, split_ws_token t post ht hpost]
  cases t with
  | nil => exact absurd rfl hne
  | cons c cs => simp

theorem at_boundary_dropWhile (q : List Nat) :
    at_boundary (q.dropWhile (fun c => !isspace c)) := by
  induction q with
  | nil => exact Or.inl rfl
  | cons c cs ih =>
    by_cases h : isspace c = true
    · right
      exact ⟨c, cs, by simp [h], h⟩
    · simpa [h] using ih

theorem isspace_not_isxdigit {c : Nat} (h : isspace c = true) : isxdigit c = false := by
  simp [isspace, isxdigit, isdigit] at *
  omega

theorem isxdigit_ne_percent {c : Nat} (h : isxdigit c = true) : c ≠ 37 := by
  simp [isxdigit, isdigit] at *
  omega

theorem scan_value_nil (d : Nat) :
    scan_value d [] = if d < TOKEN_SIZE then .done [] [] else .overrun := by
  simp [scan_value]

theorem scan_value_cons (d c : Nat) (cs : List Nat) :
    scan_value d (c :: cs) =
      if isprint c && !isspace c then
        if c = 37 then
          match cs with
          | p0 :: p1 :: rest =>
            if !isxdigit p0 || !isxdigit p1 then .truncated
            else if d < TOKEN_SIZE then (scan_value (d + 1) rest).push (percent_byte p0 p1)
            else .overrun
          | _ => .truncated
        else if d < TOKEN_SIZE then (scan_value (d + 1) cs).push c
        else .overrun
      else if d < TOKEN_SIZE then .done [] (c :: cs) else .overrun := by
  rcases cs with _ | ⟨p0, _ | ⟨p1, rest⟩⟩ <;> simp [scan_value]

theorem scan_value_boundary (d : Nat) (post : List Nat) (hd : d < TOKEN_SIZE)
    (hpost : at_boundary post) : scan_value d post = .done [] post := by
  rcases hpost with rfl | ⟨c, cs, rfl, hc⟩
  · simp [scan_value_nil, hd]
  · simp [scan_value_cons, hd, hc]

theorem scan_value_token : ∀ (n : Nat) (v post : List Nat) (d : Nat), v.length ≤ n →
    (∀ c ∈ v, isspace c = false) → (∀ c ∈ v, c ≠ 0) → at_boundary post →
    d + v.length < TOKEN_SIZE →
    scan_value d (v ++ post) = .truncated ∨
    (∃ val rest, scan_value d (v ++ post) = .done val rest ∧ stuck rest ∧
      rest.length ≤ (v ++ post).length) ∨
    (∃ val, scan_value d (v ++ post) = .done val post ∧ bad_percent v = false) := by
  intro n
  induction n with
  | zero =>
    intro v post d hn _ _ hpost hd
    have hv : v = [] := List.length_eq_zero.mp (Nat.le_zero.mp hn)
    subst hv
    right; right
    simp at hd
    exact ⟨[], scan_value_boundary d post hd hpost, rfl⟩
  | succ n ih =>
    intro v post d hn hns hnz hpost hd
    cases v with
    | nil =>
      right; right
      simp at hd
      exact ⟨[], scan_value_boundary d post hd hpost, rfl⟩
    | cons c cs =>
      have hcs : isspace c = false := hns c (by simp)
      have hcz : c ≠ 0 := hnz c (by simp)
      simp only [List.length_cons] at hn hd
      have hd0 : d < TOKEN_SIZE := by omega
      by_cases hp : isprint c = true
      · by_cases h37 : c = 37
        · subst h37
          rcases cs with _ | ⟨p0, _ | ⟨p1, rest⟩⟩
          · left
            rcases hpost with rfl | ⟨x, xs, rfl, hx⟩
            · simp [scan_value_cons, isprint, isspace]
            · rcases xs with _ | ⟨y, ys⟩
              · simp [scan_value_cons, isprint, isspace]
              · simp [scan_value_cons, isprint, isspace, isspace_not_isxdigit hx]
          · left
            rcases hpost with rfl | ⟨x, xs, rfl, hx⟩
            · simp [scan_value_cons, isprint, isspace]
            · simp [scan_value_cons, isprint, isspace, isspace_not_isxdigit hx]
          · by_cases hx : isxdigit p0 = true ∧ isxdigit p1 = true
            · have ih1 := ih rest post (d + 1) (by simp at hn; omega)
                (fun x hx => hns x (by simp [hx])) (fun x hx => hnz x (by simp [hx])) hpost
                (by simp at hd; omega)
              have hstep : scan_value d ((37 :: p0 :: p1 :: rest) ++ post)
                  = (scan_value (d + 1) (rest ++ post)).push (percent_byte p0 p1) := by
                simp [scan_value_cons, isprint, isspace, hx.1, hx.2, hd0]
              rw [hstep]
              rcases ih1 with h | ⟨val, rest1, h, hst, hl⟩ | ⟨val, h, hb⟩
              · left; rw [h]; rfl
              · right; left
                exact ⟨_ :: val, rest1, by rw [h]; rfl, hst, by simp at hl ⊢; omega⟩
              · right; right
                refine ⟨_ :: val, by rw [h]; rfl, ?_⟩
                simp [bad_percent, peek, hx.1, hx.2, hb, isxdigit_ne_percent hx.1,
                  isxdigit_ne_percent hx.2]
            · left
              have hx1 : isxdigit p0 = false ∨ isxdigit p1 = false := by
                by_cases h0 : isxdigit p0 = true
                · right
                  by_cases h1 : isxdigit p1 = true
                  · exact absurd ⟨h0, h1⟩ hx
                  · simpa using h1
                · left
                  simpa using h0
              rcases hx1 with h | h <;>
                simp [scan_value_cons, isprint, isspace, h]
        · have ih1 := ih cs post (d + 1) (by omega) (fun x hx => hns x (by simp [hx]))
            (fun x hx => hnz x (by simp [hx])) hpost (by omega)
          have hstep : scan_value d ((c :: cs) ++ post)
              = (scan_value (d + 1) (cs ++ post)).push c := by
            simp [scan_value_cons, hp, hcs, h37, hd0]
          rw [hstep]
          rcases ih1 with h | ⟨val, rest, h, hst, hl⟩ | ⟨val, h, hb⟩
          · left; rw [h]; rfl
          · right; left
            exact ⟨c :: val, rest, by rw [h]; rfl, hst, by simp at hl ⊢; omega⟩
          · right; right
            exact ⟨c :: val, by rw [h]; rfl, by simp [bad_percent, h37, hb]⟩
      · right; left
        refine ⟨[], c :: cs ++ post, ?_, ⟨by simpa [peek] using hcz, by simpa [peek] using hcs,
          by simpa [peek] using hp⟩, le_refl _⟩
        simp [scan_value_cons, hp, hd0]

theorem parse_pairs_succ (fuel : Nat) (p : List Nat) (resp : conmux_response) :
    parse_pairs (fuel + 1) p resp =
      if peek p = 0 then .ret0 resp
      else if peek (skip_space p) = 0 then .ret0 resp
      else if TOKEN_SIZE ≤ (scan_key (skip_space p)).1.length then .overrun
      else if peek (scan_key (skip_space p)).2 ≠ 61 then .retNeg1
      else
        match scan_value 0 (scan_key (skip_space p)).2.tail with
        | .truncated => .retNeg1
        | .overrun => .overrun
        | .done value rest =>
          parse_pairs fuel rest (resp.store (scan_key (skip_space p)).1 value) := by
  simp only [parse_pairs]

theorem isalpha_isprint {c : Nat} (h : isalpha c = true) : isprint c = true := by
  simp [isalpha, isprint] at *
  omega

theorem isalpha_not_isspace {c : Nat} (h : isalpha c = true) : isspace c = false := by
  simp [isalpha, isspace] at *
  omega

theorem parse_pairs_stuck (fuel : Nat) (rest : List Nat) (resp : conmux_response)
    (h : stuck rest) : parse_pairs (fuel + 1) rest resp = .retNeg1 := by
  obtain ⟨h0, hs, hp⟩ := h
  cases rest with
  | nil => simp [peek] at h0
  | cons c cs =>
    simp only [peek, List.headD_cons] at h0 hs hp
    have ha : isalpha c = false := by
      by_contra hc
      have := isalpha_isprint (by simpa using hc : isalpha c = true)
      simp [this] at hp
    have h61 : c ≠ 61 := by
      rintro rfl
      simp [isprint] at hp
    simp [parse_pairs_succ, peek, h0, skip_space, hs, scan_key, ha, TOKEN_SIZE, h61]

theorem alpha_split_token (t post : List Nat) (hpost : at_boundary post) :
    (t ++ post).takeWhile isalpha = t.takeWhile isalpha ∧
    (t ++ post).dropWhile isalpha = t.dropWhile isalpha ++ post := by
  induction t with
  | nil =>
    rcases hpost with rfl | ⟨c, cs, rfl, hc⟩
    · simp
    · have ha : isalpha c = false := by
        by_contra h
        have := isalpha_not_isspace (by simpa using h : isalpha c = true)
        simp [this] at hc
      simp [ha]
  | cons c cs ih =>
    by_cases h : isalpha c = true
    · simp [h, ih.1, ih.2]
    · simp [h]

theorem dropWhile_isspace_head (p : List Nat) (c : Nat) (cs : List Nat)
    (h : p.dropWhile isspace = c :: cs) : isspace c = false := by
  have := List.head?_dropWhile_not isspace p
  rw [h] at this
  simpa using this

theorem skip_space_append (sp q : List Nat) (hsp : ∀ c ∈ sp, isspace c = true) :
    skip_space (sp ++ q) = skip_space q := by
  induction sp with
  | nil => rfl
  | cons c cs ih =>
    have hc : isspace c = true := hsp c (by simp)
    simp [skip_space, hc, ih (fun x hx => hsp x (by simp [hx]))]

theorem skip_space_token (t post : List Nat) (hne : t ≠ []) (hns : ∀ c ∈ t, isspace c = false) :
    skip_space (t ++ post) = t ++ post := by
  cases t with
  | nil => exact absurd rfl hne
  | cons c cs => simp [skip_space, hns c (by simp)]

theorem peek_token_ne_zero (sp t post : List Nat) (hne : t ≠ []) (hsp : ∀ c ∈ sp, c ≠ 0)
    (hnz : ∀ c ∈ t, c ≠ 0) : peek (sp ++ (t ++ post)) ≠ 0 := by
  cases sp with
  | nil =>
    cases t with
    | nil => exact absurd rfl hne
    | cons c cs => simpa [peek] using hnz c (by simp)
  | cons c cs => simpa [peek] using hsp c (by simp)

theorem peek_append_of_ne_nil (a b : List Nat) (h : a ≠ []) : peek (a ++ b) = peek a := by
  cases a with
  | nil => exact absurd rfl h
  | cons c cs => rfl

theorem peek_boundary_ne (post : List Nat) (hpost : at_boundary post) : peek post ≠ 61 := by
  rcases hpost with rfl | ⟨x, xs, rfl, hx⟩
  · simp [peek]
  · simp only [peek, List.headD_cons]
    rintro rfl
    simp [isspace] at hx

/-- One iteration of the loop of `parse_response` on a pair `t` that has its `=`: the key is
scanned, and the outcome follows the scan of the value text. -/
theorem parse_pairs_frame (f : Nat) (sp t post : List Nat) (resp : conmux_response)
    (hsp : ∀ c ∈ sp, isspace c = true) (hspz : ∀ c ∈ sp, c ≠ 0) (hne : t ≠ [])
    (hns : ∀ c ∈ t, isspace c = false) (hnz : ∀ c ∈ t, c ≠ 0) (hpost : at_boundary post)
    (hk : (token_key t).length < TOKEN_SIZE) (h61 : peek (t.dropWhile isalpha) = 61) :
    parse_pairs (f + 1) (sp ++ (t ++ post)) resp =
      match scan_value 0 (token_value t ++ post) with
      | .truncated => .retNeg1
      | .overrun => .overrun
      | .done value rest => parse_pairs f rest (resp.store (token_key t) value) := by
  have h1 : peek (sp ++ (t ++ post)) ≠ 0 := peek_token_ne_zero sp t post hne hspz hnz
  have h2 : skip_space (sp ++ (t ++ post)) = t ++ post := by
    rw [skip_space_append sp _ hsp, skip_space_token t post hne hns]
  have h3 : peek (t ++ post) ≠ 0 := peek_token_ne_zero [] t post hne (by simp) hnz
  have hd : t.dropWhile isalpha ≠ [] := by
    intro h
    rw [h] at h61
    simp [peek] at h61
  have h4 : ¬ TOKEN_SIZE ≤ (List.takeWhile isalpha t).length := by
    simpa [token_key] using hk
  rw [parse_pairs_succ, h2, scan_key_eq]
  simp only [(alpha_split_token t post hpost).1, (alpha_split_token t post hpost).2, h1, h3,
    if_false, h4, peek_append_of_ne_nil _ post hd, h61, ne_eq, not_true_eq_false]
  have h5 : (t.dropWhile isalpha ++ post).tail = token_value t ++ post := by
    unfold token_value
    cases hx : t.dropWhile isalpha with
    | nil => exact absurd hx hd
    | cons c cs => rfl
  rw [h5]
  rfl

/-- One iteration of the loop of `parse_response` on a pair `t` without `=` after its key. -/
theorem parse_pairs_missing_equals (f : Nat) (sp t post : List Nat) (resp : conmux_response)
    (hsp : ∀ c ∈ sp, isspace c = true) (hspz : ∀ c ∈ sp, c ≠ 0) (hne : t ≠ [])
    (hns : ∀ c ∈ t, isspace c = false) (hnz : ∀ c ∈ t, c ≠ 0) (hpost : at_boundary post)
    (hk : (token_key t).length < TOKEN_SIZE) (h61 : peek (t.dropWhile isalpha) ≠ 61) :
    parse_pairs (f + 1) (sp ++ (t ++ post)) resp = .retNeg1 := by
  have h1 : peek (sp ++ (t ++ post)) ≠ 0 := peek_token_ne_zero sp t post hne hspz hnz
  have h2 : skip_space (sp ++ (t ++ post)) = t ++ post := by
    rw [skip_space_append sp _ hsp, skip_space_token t post hne hns]
  have h3 : peek (t ++ post) ≠ 0 := peek_token_ne_zero [] t post hne (by simp) hnz
  have h4 : ¬ TOKEN_SIZE ≤ (List.takeWhile isalpha t).length := by
    simpa [token_key] using hk
  have h5 : peek (t.dropWhile isalpha ++ post) ≠ 61 := by
    by_cases hd : t.dropWhile isalpha = []
    · rw [hd]
      exact peek_boundary_ne post hpost
    · rw [peek_append_of_ne_nil _ post hd]
      exact h61
  rw [parse_pairs_succ, h2, scan_key_eq]
  simp only [(alpha_split_token t post hpost).1, (alpha_split_token t post hpost).2, h1, h3,
    if_false, h4, h5, ne_eq, not_false_eq_true, if_true]

/-- A line that starts with white space `sp`, then a token `t`, then the rest `post`. -/
theorem line_split (p : List Nat) :
    p = p.takeWhile isspace ++
      ((p.dropWhile isspace).takeWhile (fun c => !isspace c) ++
        (p.dropWhile isspace).dropWhile (fun c => !isspace c)) := by
  rw [List.takeWhile_append_dropWhile, List.takeWhile_append_dropWhile]

theorem parse_pairs_malformed : ∀ (n : Nat) (p : List Nat), p.length ≤ n →
    ∀ (fuel : Nat) (resp : conmux_response), p.length < fuel → (∀ c ∈ p, c ≠ 0) →
    (∀ t ∈ ws_tokens p, short_token t = true) →
    (∃ t ∈ ws_tokens p, malformed_token t = true) →
    parse_pairs fuel p resp = .retNeg1 := by
  intro n
  induction n with
  | zero =>
    intro p hn fuel resp _ _ _ hbad
    have hp : p = [] := List.length_eq_zero.mp (Nat.le_zero.mp hn)
    subst hp
    obtain ⟨t, ht, _⟩ := hbad
    simp [ws_tokens, split_ws] at ht
  | succ n ih =>
    intro p hn fuel resp hfuel hz hshort hbad
    set sp := p.takeWhile isspace with hsp_def
    set q := p.dropWhile isspace with hq_def
    set t := q.takeWhile (fun c => !isspace c) with ht_def
    set post := q.dropWhile (fun c => !isspace c) with hpost_def
    have hp : p = sp ++ (t ++ post) := line_split p
    have hpost : at_boundary post := at_boundary_dropWhile q
    have hsp : ∀ c ∈ sp, isspace c = true := fun c hc => (List.mem_takeWhile_imp hc)
    have hns : ∀ c ∈ t, isspace c = false := fun c hc => by
      simpa using (List.mem_takeWhile_imp hc)
    have hsub_sp : ∀ c ∈ sp, c ∈ p := fun c hc => (List.takeWhile_sublist _).subset hc
    have hsub_q : ∀ c ∈ q, c ∈ p := fun c hc => (List.dropWhile_sublist _).subset hc
    have hsub_t : ∀ c ∈ t, c ∈ p := fun c hc => hsub_q c ((List.takeWhile_sublist _).subset hc)
    have hsub_post : ∀ c ∈ post, c ∈ p :=
      fun c hc => hsub_q c ((List.dropWhile_sublist _).subset hc)
    have htok_q : ws_tokens p = ws_tokens q := (ws_tokens_dropWhile p).symm
    by_cases hq : q = []
    · obtain ⟨t1, ht1, _⟩ := hbad
      rw [htok_q, hq] at ht1
      simp [ws_tokens, split_ws] at ht1
    · have hne : t ≠ [] := by
        cases hq1 : q with
        | nil => exact absurd hq1 hq
        | cons c cs =>
          have hc := dropWhile_isspace_head p c cs hq1
          simp [ht_def, hq1, hc]
      have htok : ws_tokens p = t :: ws_tokens post := by
        rw [htok_q, ← ws_tokens_token t post hns hne hpost, ht_def, hpost_def,
          List.takeWhile_append_dropWhile]
      have hlen : p.length = sp.length + (t.length + post.length) := by
        conv_lhs => rw [hp]
        simp
      have htlen : 0 < t.length := List.length_pos.mpr hne
      obtain ⟨f, rfl⟩ : ∃ f, fuel = f + 2 := ⟨fuel - 2, by omega⟩
      have hst : short_token t = true := hshort t (by simp [htok])
      simp only [short_token, Bool.and_eq_true, decide_eq_true_eq] at hst
      rw [hp]
      by_cases h61 : peek (t.dropWhile isalpha) = 61
      · rw [parse_pairs_frame (f + 1) sp t post resp hsp (fun c hc => hz c (hsub_sp c hc)) hne
          hns (fun c hc => hz c (hsub_t c hc)) hpost hst.1 h61]
        have hvsub : ∀ c ∈ token_value t, c ∈ t := fun c hc =>
          (List.dropWhile_sublist _).subset ((List.tail_sublist _).subset hc)
        rcases scan_value_token (token_value t).length (token_value t) post 0 (le_refl _)
          (fun c hc => hns c (hvsub c hc)) (fun c hc => hz c (hsub_t c (hvsub c hc))) hpost
          (by omega) with h | ⟨val, rest, h, hstuck, _⟩ | ⟨val, h, hb⟩
        · rw [h]
        · rw [h]
          exact parse_pairs_stuck f rest _ hstuck
        · rw [h]
          apply ih post (by omega) (f + 1) _ (by omega) (fun c hc => hz c (hsub_post c hc))
          · intro t1 ht1
            exact hshort t1 (by simp [htok, ht1])
          · obtain ⟨t1, ht1, hm⟩ := hbad
            rw [htok] at ht1
            rcases List.mem_cons.mp ht1 with rfl | ht1
            · simp [malformed_token, missing_equals, h61, hb] at hm
            · exact ⟨t1, ht1, hm⟩
      · exact parse_pairs_missing_equals (f + 1) sp t post resp hsp
          (fun c hc => hz c (hsub_sp c hc)) hne hns (fun c hc => hz c (hsub_t c hc)) hpost
          hst.1 h61

/-- C5. Malformed responses are rejected: for every response line (a C string, so without
NUL) whose pairs all have a key and a value text shorter than 64 bytes, if some pair has no
`=` immediately after its key, or has in its value a `%` that is not followed by two
hexadecimal digits, then `parse_response` returns -1. -/
theorem malformed_response_rejected (line : List Nat) (hz : ∀ c ∈ line, c ≠ 0)
    (hshort : ∀ t ∈ ws_tokens line, short_token t = true)
    (hbad : ∃ t ∈ ws_tokens line, malformed_token t = true) :
    parse_response line = .retNeg1 :=
  parse_pairs_malformed line.length line (le_refl _) _ _ (Nat.lt_succ_self _) hz hshort hbad

/-- C5 at a line whose last value ends in the truncated escape `%0`. -/
theorem malformed_response_rejected_witness :
    malformed_token (cstr "result=%0") = true ∧
    parse_response (cstr "status=OK result=%0") = .retNeg1 :=
  ⟨by decide, malformed_response_rejected (cstr "status=OK result=%0") (by decide) (by decide)
    ⟨cstr "result=%0", by decide, by decide⟩⟩

/-! ## Well-formed responses and the registry lookup -/

theorem hex_digit_value_of_isxdigit {c : Nat} (h : isxdigit c = true) :
    ∃ v, hex_digit_value c = some v := by
  simp only [isxdigit, isdigit, Bool.or_eq_true, Bool.and_eq_true, decide_eq_true_eq] at h
  unfold hex_digit_value
  split_ifs with h1 h2 h3
  · exact ⟨_, rfl⟩
  · exact ⟨_, rfl⟩
  · exact ⟨_, rfl⟩
  · omega

theorem percent_byte_eq (h1 h2 : Nat) (hx1 : isxdigit h1 = true) (hx2 : isxdigit h2 = true) :
    percent_byte h1 h2 = (Piece.esc h1 h2).byte := by
  obtain ⟨v1, e1⟩ := hex_digit_value_of_isxdigit hx1
  obtain ⟨v2, e2⟩ := hex_digit_value_of_isxdigit hx2
  obtain ⟨_, hn1, hv1⟩ := hex_digit_value_spec e1
  obtain ⟨_, hn2, hv2⟩ := hex_digit_value_spec e2
  simp only [percent_byte, Piece.byte, e1, e2, Option.getD_some, hn1, hn2]
  exact percent_byte_arith _ hv1 _ hv2

theorem scan_value_wire (ps : List Piece) (post : List Nat) (d : Nat)
    (hv : ∀ x ∈ ps, x.valid = true) (hpost : at_boundary post)
    (hd : d + ps.length < TOKEN_SIZE) :
    scan_value d (wire ps ++ post) = .done (decoded ps) post := by
  induction ps generalizing d with
  | nil =>
    simp only [wire, List.nil_append, decoded, List.map_nil]
    exact scan_value_boundary d post (by simpa using hd) hpost
  | cons x xs ih =>
    have hx := hv x (by simp)
    have ih1 := ih (d + 1) (fun y hy => hv y (by simp [hy])) (by simp at hd; omega)
    have hd0 : d < TOKEN_SIZE := by simp at hd; omega
    cases x with
    | lit c =>
      simp only [Piece.valid, Bool.and_eq_true, Bool.not_eq_true', bne_iff_ne, ne_eq] at hx
      simp [wire, Piece.wire, scan_value_cons, hx.1.1, hx.1.2, hx.2, hd0, ih1, ValueScan.push,
        decoded, Piece.byte]
    | esc h1 h2 =>
      simp only [Piece.valid, Bool.and_eq_true] at hx
      simp [wire, Piece.wire, scan_value_cons, isprint, isspace, hx.1, hx.2, hd0, ih1,
        ValueScan.push, decoded, percent_byte_eq h1 h2 hx.1 hx.2]

theorem isxdigit_not_isspace {c : Nat} (h : isxdigit c = true) : isspace c = false := by
  cases hs : isspace c with
  | false => rfl
  | true => rw [isspace_not_isxdigit hs] at h; exact absurd h (by simp)

theorem isxdigit_ne_zero {c : Nat} (h : isxdigit c = true) : c ≠ 0 := by
  rintro rfl
  simp [isxdigit, isdigit] at h

theorem isprint_ne_zero {c : Nat} (h : isprint c = true) : c ≠ 0 := by
  rintro rfl
  simp [isprint] at h

theorem wire_clean (ps : List Piece) (hv : ∀ x ∈ ps, x.valid = true) :
    ∀ c ∈ wire ps, isspace c = false ∧ c ≠ 0 := by
  induction ps with
  | nil => simp [wire]
  | cons x xs ih =>
    intro c hc
    simp only [wire, List.mem_append] at hc
    rcases hc with hc | hc
    · have hx := hv x (by simp)
      cases x with
      | lit a =>
        simp only [Piece.valid, Bool.and_eq_true, Bool.not_eq_true', bne_iff_ne, ne_eq] at hx
        simp only [Piece.wire, List.mem_singleton] at hc
        subst hc
        exact ⟨hx.1.2, isprint_ne_zero hx.1.1⟩
      | esc h1 h2 =>
        simp only [Piece.valid, Bool.and_eq_true] at hx
        simp only [Piece.wire, List.mem_cons, List.mem_singleton, List.not_mem_nil,
          or_false] at hc
        rcases hc with rfl | rfl | rfl
        · exact ⟨by decide, by decide⟩
        · exact ⟨isxdigit_not_isspace hx.1, isxdigit_ne_zero hx.1⟩
        · exact ⟨isxdigit_not_isspace hx.2, isxdigit_ne_zero hx.2⟩
    · exact ih (fun y hy => hv y (by simp [hy])) c hc

theorem alpha_prefix (key rest : List Nat) (hk : ∀ c ∈ key, isalpha c = true) :
    (key ++ 61 :: rest).takeWhile isalpha = key ∧
    (key ++ 61 :: rest).dropWhile isalpha = 61 :: rest := by
  induction key with
  | nil => simp [isalpha]
  | cons c cs ih =>
    have hc := hk c (by simp)
    have ih1 := ih (fun x hx => hk x (by simp [hx]))
    simp [hc, ih1.1, ih1.2]

theorem render_pair_clean (pair : List Nat × List Piece) (hw : well_formed_pair pair) :
    ∀ c ∈ render_pair pair, isspace c = false ∧ c ≠ 0 := by
  intro c hc
  simp only [render_pair, List.mem_append, List.mem_cons] at hc
  rcases hc with hc | rfl | hc
  · have ha := hw.1 c hc
    exact ⟨isalpha_not_isspace ha, isprint_ne_zero (isalpha_isprint ha)⟩
  · exact ⟨by decide, by decide⟩
  · exact wire_clean pair.2 hw.2.2.1 c hc

theorem render_line_cons (pair : List Nat × List Piece) (pairs : List (List Nat × List Piece)) :
    render_line (pair :: pairs) =
      render_pair pair ++ (if pairs = [] then [] else 32 :: render_line pairs) := by
  cases pairs with
  | nil => simp [render_line]
  | cons q qs => simp [render_line]

/-- The responses stored by the `strcmp` chain for a list of pairs, in order. -/
theorem parse_pairs_render (pairs : List (List Nat × List Piece)) :
    ∀ (sp : List Nat) (fuel : Nat) (resp : conmux_response),
    (∀ c ∈ sp, isspace c = true ∧ c ≠ 0) → (∀ pair ∈ pairs, well_formed_pair pair) →
    (sp ++ render_line pairs).length < fuel →
    parse_pairs fuel (sp ++ render_line pairs) resp =
      .ret0 (pairs.foldl (fun r pair => r.store pair.1 (decoded pair.2)) resp) := by
  induction pairs with
  | nil =>
    intro sp fuel resp hsp _ hfuel
    obtain ⟨f, rfl⟩ : ∃ f, fuel = f + 1 := ⟨fuel - 1, by omega⟩
    have h : skip_space (sp ++ []) = [] := by
      rw [skip_space_append sp [] (fun c hc => (hsp c hc).1)]
      rfl
    simp only [render_line, parse_pairs_succ, h, List.foldl_nil]
    simp [peek]
  | cons pair ps ih =>
    intro sp fuel resp hsp hw hfuel
    have hwp := hw pair (by simp)
    set t := render_pair pair with ht
    set post := (if ps = [] then [] else 32 :: render_line ps) with hpost_def
    have hpost : at_boundary post := by
      by_cases hps : ps = []
      · left; simp [hpost_def, hps]
      · right; exact ⟨32, render_line ps, by simp [hpost_def, hps], by decide⟩
    have hne : t ≠ [] := by simp [ht, render_pair]
    have hclean := render_pair_clean pair hwp
    have hap := alpha_prefix pair.1 (wire pair.2) hwp.1
    have hkey : token_key t = pair.1 := hap.1
    have hval : token_value t = wire pair.2 := by
      simp only [token_value, ht, render_pair, hap.2, List.tail_cons]
    have h61 : peek (t.dropWhile isalpha) = 61 := by
      simp only [ht, render_pair, hap.2]
      rfl
    rw [render_line_cons] at hfuel ⊢
    have htlen : 0 < (render_pair pair).length := List.length_pos.mpr hne
    simp only [List.length_append] at hfuel
    obtain ⟨f, rfl⟩ : ∃ f, fuel = f + 1 := ⟨fuel - 1, by omega⟩
    rw [parse_pairs_frame f sp t post resp (fun c hc => (hsp c hc).1)
      (fun c hc => (hsp c hc).2) hne (fun c hc => (hclean c hc).1)
      (fun c hc => (hclean c hc).2) hpost (by rw [hkey]; exact hwp.2.1) h61]
    rw [hval, scan_value_wire pair.2 post 0 hwp.2.2.1 hpost (by simpa using hwp.2.2.2), hkey]
    simp only [List.foldl_cons]
    by_cases hps : ps = []
    · subst hps
      have := ih [] f (resp.store pair.1 (decoded pair.2)) (by simp) (by simp)
        (by simp [render_line]; omega)
      simpa [hpost_def, render_line] using this
    · have := ih [32] f (resp.store pair.1 (decoded pair.2))
        (by simp; decide) (fun q hq => hw q (by simp [hq]))
        (by simp [hpost_def, hps] at hfuel; simp; omega)
      simpa [hpost_def, hps] using this

/-! ### strtol on a string of digits -/

theorem isdigit_not_isspace {c : Nat} (h : isdigit c = true) : isspace c = false := by
  simp [isdigit, isspace] at *
  omega

theorem strtol_digits_all (ds : List Nat) (hd : ∀ c ∈ ds, isdigit c = true) :
    ∀ acc n, strtol_digits acc n ds =
      (ds.foldl (fun a c => 10 * a + (c - 48)) acc, n + ds.length, []) := by
  induction ds with
  | nil => intro acc n; simp [strtol_digits]
  | cons c cs ih =>
    intro acc n
    have hc := hd c (by simp)
    simp only [strtol_digits, hc, if_true, List.foldl_cons, List.length_cons]
    rw [ih (fun x hx => hd x (by simp [hx]))]
    simp [Nat.mul_comm, Nat.add_comm, Nat.add_left_comm]

theorem strtol_of_digits (ds : List Nat) (hne : ds ≠ []) (hd : ∀ c ∈ ds, isdigit c = true)
    (hv : (decimal_value ds : Int) ≤ LONG_MAX) : strtol ds = ((decimal_value ds : Int), []) := by
  cases ds with
  | nil => exact absurd rfl hne
  | cons c cs =>
    have hc : isdigit c = true := hd c (by simp)
    have hs : isspace c = false := isdigit_not_isspace hc
    have h45 : c ≠ 45 := by rintro rfl; simp [isdigit] at hc
    have h43 : c ≠ 43 := by rintro rfl; simp [isdigit] at hc
    have hdig := strtol_digits_all (c :: cs) hd 0 0
    simp only [strtol, List.dropWhile_cons, hs, peek, List.headD_cons, h45, h43, or_self,
      if_false, Bool.false_eq_true]
    rw [hdig]
    simp only [List.length_cons, Nat.zero_add]
    simp only [decimal_value] at hv
    simp only [decimal_value, min_eq_left hv]

theorem long_to_int_small (v : Nat) (h : v ≤ 2147483647) : long_to_int (v : Int) = v := by
  unfold long_to_int
  omega

theorem c_string_of_no_nul (p : List Nat) (h : ∀ c ∈ p, c ≠ 0) : c_string p = p := by
  unfold c_string
  rw [List.takeWhile_eq_self_iff]
  intro c hc
  simpa using h c hc

theorem strchr_split_append (c : Nat) (a b : List Nat) (hc : c ≠ 0) (ha : ∀ x ∈ a, x ≠ c)
    (hz : ∀ x ∈ a, x ≠ 0) : strchr_split c (a ++ c :: b) = some (a, b) := by
  induction a with
  | nil => simp [strchr_split, hc]
  | cons x xs ih =>
    have h1 := ha x (by simp)
    have h2 := hz x (by simp)
    simp [strchr_split, h1, h2, ih (fun y hy => ha y (by simp [hy]))
      (fun y hy => hz y (by simp [hy]))]

theorem render_line_clean (pairs : List (List Nat × List Piece))
    (hw : ∀ pair ∈ pairs, well_formed_pair pair) :
    ∀ c ∈ render_line pairs, c ≠ 0 ∧ c ≠ 10 := by
  induction pairs with
  | nil => simp [render_line]
  | cons pair ps ih =>
    intro c hc
    rw [render_line_cons] at hc
    rcases List.mem_append.mp hc with h | h
    · have := render_pair_clean pair (hw pair (by simp)) c h
      refine ⟨this.2, ?_⟩
      rintro rfl
      simp [isspace] at this
    · by_cases hps : ps = []
      · simp [hps] at h
      · simp only [hps, if_false, List.mem_cons] at h
        rcases h with rfl | h
        · exact ⟨by decide, by decide⟩
        · exact ih (fun q hq => hw q (by simp [hq])) c h

theorem store_extra (r : conmux_response) (key value : List Nat)
    (hk : key = cstr "title" ∨ key = cstr "state") :
    (r.store key value).status = r.status ∧ (r.store key value).result = r.result := by
  rcases hk with rfl | rfl
  · have h1 : cstr "title" ≠ cstr "result" := by decide
    have h2 : cstr "title" ≠ cstr "status" := by decide
    simp [conmux_response.store, h1, h2]
  · have h1 : cstr "state" ≠ cstr "result" := by decide
    have h2 : cstr "state" ≠ cstr "status" := by decide
    have h3 : cstr "state" ≠ cstr "title" := by decide
    simp [conmux_response.store, h1, h2, h3]

theorem fold_extras (es : List (List Nat × List Piece))
    (hk : ∀ e ∈ es, e.1 = cstr "title" ∨ e.1 = cstr "state") :
    ∀ r : conmux_response,
      (es.foldl (fun r pair => r.store pair.1 (decoded pair.2)) r).status = r.status ∧
      (es.foldl (fun r pair => r.store pair.1 (decoded pair.2)) r).result = r.result := by
  induction es with
  | nil => intro r; exact ⟨rfl, rfl⟩
  | cons e es ih =>
    intro r
    have h1 := store_extra r e.1 (decoded e.2) (hk e (by simp))
    have h2 := ih (fun x hx => hk x (by simp [hx])) (r.store e.1 (decoded e.2))
    simp only [List.foldl_cons]
    exact ⟨h2.1.trans h1.1, h2.2.trans h1.2⟩

theorem store_status (r : conmux_response) (value : List Nat) :
    (r.store (cstr "status") value).status = some (c_string value) ∧
    (r.store (cstr "status") value).result = r.result := by
  have h1 : cstr "status" ≠ cstr "result" := by decide
  simp [conmux_response.store, h1]

theorem store_result (r : conmux_response) (value : List Nat) :
    (r.store (cstr "result") value).result = some (c_string value) ∧
    (r.store (cstr "result") value).status = r.status := by
  simp [conmux_response.store]

theorem decoded_literal (text : List Nat) : decoded (literal text) = text := by
  induction text with
  | nil => rfl
  | cons c cs ih =>
    simp only [decoded, literal, List.map_cons, Piece.byte, List.cons.injEq, true_and] at ih ⊢
    exact ih

theorem decoded_append (a b : List Piece) : decoded (a ++ b) = decoded a ++ decoded b := by
  simp [decoded]

theorem isdigit_valid {c : Nat} (h : isdigit c = true) : (Piece.lit c).valid = true := by
  simp [isdigit, Piece.valid, isprint, isspace] at *
  omega

theorem registry_lookup_of_parse (reply : List Nat) (resp : conmux_response)
    (status host port : List Nat)
    (hp : parse_response (cut_line (read_reply reply)) = .ret0 resp)
    (hs : resp.status = some status) (hr : resp.result = some (host ++ 58 :: port))
    (hc : ∀ x ∈ host, x ≠ 58) (hz : ∀ x ∈ host, x ≠ 0) :
    registry_lookup reply =
      if status = cstr "OK" then
        .ret0 { host := host, port := long_to_int (strtol (c_string port)).1 }
      else .retNeg1 := by
  simp only [registry_lookup, hp, hr, hs, strchr_split_append 58 host port (by decide) hc hz]

/-- C6, amended. Registry lookup result: for every host written as pieces `h` (each byte
literally or as `%HH`) whose decoded bytes contain neither `:` nor NUL, every port written
as a non-empty string `ds` of decimal digits with value at most 65535, and all further
`title`/`state` pairs `e1`, `e2`, `e3` placed before, between and after, provided the decoded
result value `<h>:<p>` and every further value are shorter than 64 bytes and the whole line
is at most 255 bytes long, the line `e1 status=OK e2 result=<h>:<p> e3` makes
`registry_lookup` return 0 with host equal to the decoded `h` and port equal to the value of
`ds`. -/
theorem registry_lookup_ok (h : List Piece) (ds : List Nat)
    (e1 e2 e3 : List (List Nat × List Piece))
    (hh : ∀ x ∈ h, x.valid = true) (hcolon : ∀ b ∈ decoded h, b ≠ 58)
    (hnul : ∀ b ∈ decoded h, b ≠ 0)
    (hne : ds ≠ []) (hdig : ∀ c ∈ ds, isdigit c = true) (hport : decimal_value ds ≤ 65535)
    (hvalue : h.length + 1 + ds.length < TOKEN_SIZE)
    (hextra : ∀ e ∈ e1 ++ e2 ++ e3, (e.1 = cstr "title" ∨ e.1 = cstr "state") ∧
      (∀ x ∈ e.2, x.valid = true) ∧ e.2.length < TOKEN_SIZE)
    (hline : (render_line (e1 ++ status_ok :: e2 ++ result_pair h ds :: e3)).length ≤ 255) :
    registry_lookup (render_line (e1 ++ status_ok :: e2 ++ result_pair h ds :: e3)) =
      .ret0 { host := decoded h, port := decimal_value ds } := by
  set pairs := e1 ++ status_ok :: e2 ++ result_pair h ds :: e3 with hpairs
  have hwe : ∀ e ∈ e1 ++ e2 ++ e3, well_formed_pair e := by
    intro e he
    obtain ⟨hk, hv, hl⟩ := hextra e he
    refine ⟨?_, ?_, hv, hl⟩
    · rcases hk with hk | hk <;> rw [hk] <;> decide
    · rcases hk with hk | hk <;> rw [hk] <;> decide
  have hws : well_formed_pair status_ok := by
    refine ⟨by decide, by decide, by decide, by decide⟩
  have hkr : ∀ c ∈ cstr "result", isalpha c = true := by decide
  have hlr : (cstr "result").length < TOKEN_SIZE := by decide
  have hwr : well_formed_pair (result_pair h ds) := by
    refine ⟨hkr, hlr, ?_, ?_⟩
    · intro x hx
      simp only [result_pair, List.mem_append, List.mem_cons, literal, List.mem_map] at hx
      rcases hx with hx | rfl | ⟨c, hc, rfl⟩
      · exact hh x hx
      · decide
      · exact isdigit_valid (hdig c hc)
    · simp only [result_pair, literal, List.length_append, List.length_cons, List.length_map]
      omega
  have hw : ∀ pair ∈ pairs, well_formed_pair pair := by
    intro pair hp
    simp only [hpairs, List.mem_append, List.mem_cons] at hp
    rcases hp with (hp | rfl | hp) | rfl | hp
    · exact hwe pair (by simp [hp])
    · exact hws
    · exact hwe pair (by simp [hp])
    · exact hwr
    · exact hwe pair (by simp [hp])
  have hclean := render_line_clean pairs hw
  have hread : read_reply (render_line pairs) = render_line pairs :=
    List.take_of_length_le hline
  have hcut : cut_line (render_line pairs) = render_line pairs := by
    unfold cut_line
    rw [c_string_of_no_nul _ (fun c hc => (hclean c hc).1), List.takeWhile_eq_self_iff]
    intro c hc
    simpa using (hclean c hc).2
  have hparse := parse_pairs_render pairs [] ((render_line pairs).length + 1)
    conmux_response.zero (by simp) hw (by simp)
  simp only [List.nil_append] at hparse
  have hk1 : ∀ e ∈ e1, e.1 = cstr "title" ∨ e.1 = cstr "state" :=
    fun e he => (hextra e (by simp [he])).1
  have hk2 : ∀ e ∈ e2, e.1 = cstr "title" ∨ e.1 = cstr "state" :=
    fun e he => (hextra e (by simp [he])).1
  have hk3 : ∀ e ∈ e3, e.1 = cstr "title" ∨ e.1 = cstr "state" :=
    fun e he => (hextra e (by simp [he])).1
  have hval : decoded (result_pair h ds).2 = decoded h ++ 58 :: ds := by
    simp only [result_pair, decoded_append]
    rw [show Piece.lit 58 :: literal ds = literal (58 :: ds) from rfl, decoded_literal]
  have hvz : ∀ c ∈ decoded h ++ 58 :: ds, c ≠ 0 := by
    intro c hc
    rcases List.mem_append.mp hc with hc | hc
    · exact hnul c hc
    · rcases List.mem_cons.mp hc with rfl | hc
      · decide
      · intro h0
        have := hdig c hc
        rw [h0] at this
        simp [isdigit] at this
  have hr1 : (result_pair h ds).1 = cstr "result" := rfl
  have hs1 : status_ok.1 = cstr "status" := rfl
  have hs2 : decoded status_ok.2 = cstr "OK" := decoded_literal _
  have hok : c_string (cstr "OK") = cstr "OK" := by decide
  have hstatus : (pairs.foldl (fun r pair => r.store pair.1 (decoded pair.2))
      conmux_response.zero).status = some (cstr "OK") := by
    simp only [hpairs, List.foldl_append, List.foldl_cons, hr1, hs1, hs2, hval]
    rw [(fold_extras e3 hk3 _).1, (store_result _ _).2, (fold_extras e2 hk2 _).1,
      (store_status _ _).1, hok]
  have hresult : (pairs.foldl (fun r pair => r.store pair.1 (decoded pair.2))
      conmux_response.zero).result = some (decoded h ++ 58 :: ds) := by
    simp only [hpairs, List.foldl_append, List.foldl_cons, hr1, hs1, hs2, hval]
    rw [(fold_extras e3 hk3 _).2, (store_result _ _).1, c_string_of_no_nul _ hvz]
  have hlookup := registry_lookup_of_parse (render_line pairs) _ (cstr "OK") (decoded h) ds
    (by rw [hread, hcut]; exact hparse) hstatus hresult hcolon hnul
  rw [hlookup, if_pos rfl]
  have hdz : ∀ c ∈ ds, c ≠ 0 := fun c hc => hvz c (by simp [hc])
  have hlong : (decimal_value ds : Int) ≤ LONG_MAX := by
    unfold LONG_MAX
    omega
  rw [c_string_of_no_nul ds hdz, strtol_of_digits ds hne hdig hlong,
    long_to_int_small _ (by omega)]

/-- C6 at the reply `status=OK result=host.example%2Ecom:5000 title=x`. -/
theorem registry_lookup_ok_witness :
    registry_lookup (cstr "status=OK result=host.example%2Ecom:5000 title=x") =
      .ret0 { host := cstr "host.example.com", port := 5000 } := by
  have h := registry_lookup_ok
    (literal (cstr "host.example") ++ Piece.esc 50 69 :: literal (cstr "com")) (cstr "5000")
    [] [] [(cstr "title", literal (cstr "x"))]
    (by decide) (by decide) (by decide) (by decide) (by decide) (by decide) (by decide)
    (by decide) (by decide)
  have e : render_line ([] ++ status_ok :: [] ++
      result_pair (literal (cstr "host.example") ++ Piece.esc 50 69 :: literal (cstr "com"))
        (cstr "5000") :: [(cstr "title", literal (cstr "x"))])
      = cstr "status=OK result=host.example%2Ecom:5000 title=x" := by decide
  rw [e] at h
  rw [h]
  decide

set_option maxRecDepth 100000 in
/-- C6, as stated, fails for a long host: a reply `status=OK result=<h>:5000` whose host is
250 letters `a` does not make `registry_lookup` succeed. Only the first 255 bytes of the
reply are read, and `parse_response` writes the value past the 64 bytes of its buffer. -/
theorem registry_lookup_long_host :
    registry_lookup (cstr "status=OK result=" ++ List.replicate 250 97 ++ cstr ":5000") =
      .overrun := by
  decide

/-! ### The success criterion of the registry lookup -/

theorem c_string_clean (p : List Nat) : ∀ c ∈ c_string p, c ≠ 0 := by
  intro c hc
  have := List.mem_takeWhile_imp hc
  simpa using this

theorem store_clean (resp : conmux_response) (key value : List Nat) (h : resp.clean) :
    (resp.store key value).clean := by
  obtain ⟨h1, h2, h3, h4⟩ := h
  unfold conmux_response.store
  split_ifs
  · refine ⟨h1, h2, ?_, h4⟩
    intro v hv
    simp only [Option.some.injEq] at hv
    subst hv
    exact c_string_clean value
  · refine ⟨h1, ?_, h3, h4⟩
    intro v hv
    simp only [Option.some.injEq] at hv
    subst hv
    exact c_string_clean value
  · refine ⟨?_, h2, h3, h4⟩
    intro v hv
    simp only [Option.some.injEq] at hv
    subst hv
    exact c_string_clean value
  · refine ⟨h1, h2, h3, ?_⟩
    intro v hv
    simp only [Option.some.injEq] at hv
    subst hv
    exact c_string_clean value
  · exact ⟨h1, h2, h3, h4⟩

theorem parse_pairs_clean (fuel : Nat) : ∀ (p : List Nat) (resp r : conmux_response),
    resp.clean → parse_pairs fuel p resp = .ret0 r → r.clean := by
  induction fuel with
  | zero => intro p resp r _ h; simp [parse_pairs] at h
  | succ f ih =>
    intro p resp r hc h
    rw [parse_pairs_succ] at h
    split_ifs at h with h1 h2 h3 h4
    · simp only [ParseResult.ret0.injEq] at h
      exact h ▸ hc
    · simp only [ParseResult.ret0.injEq] at h
      exact h ▸ hc
    · cases hs : scan_value 0 (scan_key (skip_space p)).2.tail with
      | truncated => simp [hs] at h
      | overrun => simp [hs] at h
      | done value rest =>
        simp only [hs] at h
        exact ih rest _ r (store_clean resp _ value hc) h

theorem parse_response_clean (buf : List Nat) (r : conmux_response)
    (h : parse_response buf = .ret0 r) : r.clean :=
  parse_pairs_clean _ buf conmux_response.zero r
    ⟨by simp [conmux_response.zero], by simp [conmux_response.zero],
     by simp [conmux_response.zero], by simp [conmux_response.zero]⟩ h

theorem strchr_split_none_iff (c : Nat) (l : List Nat) (hz : ∀ x ∈ l, x ≠ 0) :
    strchr_split c l = none ↔ c ∉ l := by
  induction l with
  | nil => simp [strchr_split]
  | cons x xs ih =>
    have hx : x ≠ 0 := hz x (by simp)
    have ih1 := ih (fun y hy => hz y (by simp [hy]))
    by_cases hxc : x = c
    · subst hxc
      simp [strchr_split, hx]
    · have hcx : ¬ c = x := fun h => hxc h.symm
      cases hs : strchr_split c xs with
      | none => simpa [strchr_split, hx, hxc, hs, hcx] using ih1.mp hs
      | some r =>
        have : ¬ c ∉ xs := fun h => by rw [ih1.mpr h] at hs; exact absurd hs (by simp)
        simp only [not_not] at this
        simp [strchr_split, hx, hxc, hs, this]

/-- C7, as stated, fails for a non-numeric port: the line `status=OK result=host:abc` is
accepted by `parse_response`, its result `host:abc` does not have the form `<host>:<port>`
with a base-10 integer port, and yet `registry_lookup` returns 0, with port 0. -/
theorem registry_lookup_non_numeric_port :
    parse_response (cut_line (read_reply (cstr "status=OK result=host:abc"))) =
      .ret0 { title := none, status := some (cstr "OK"), result := some (cstr "host:abc"),
              state := none } ∧
    is_host_port (cstr "host:abc") = false ∧
    registry_lookup (cstr "status=OK result=host:abc") =
      .ret0 { host := cstr "host", port := 0 } := by
  decide

/-- C7, amended. Registry lookup success criterion: for every reply whose line
`parse_response` accepts and that carries both a `status` and a `result` pair,
`registry_lookup` returns 0 if and only if the parsed `status` equals "OK" and the parsed
`result` contains a `:`; in every other such case it returns -1 and `conmux_open` exits with
status 1; on success `conmux_open` goes on to connect. -/
theorem registry_lookup_success_iff (reply : List Nat) (resp : conmux_response)
    (status result : List Nat)
    (hp : parse_response (cut_line (read_reply reply)) = .ret0 resp)
    (hs : resp.status = some status) (hr : resp.result = some result) :
    ((∃ lookup, registry_lookup reply = .ret0 lookup) ↔ (status = cstr "OK" ∧ 58 ∈ result)) ∧
    (¬ (status = cstr "OK" ∧ 58 ∈ result) →
      registry_lookup reply = .retNeg1 ∧ conmux_open_lookup reply = .exit 1) ∧
    (status = cstr "OK" ∧ 58 ∈ result →
      ∃ lookup, conmux_open_lookup reply = .connect lookup) := by
  have hclean := (parse_response_clean _ resp hp).2.2.1 result hr
  have hnone := strchr_split_none_iff 58 result hclean
  have key : registry_lookup reply =
      match strchr_split 58 result with
      | none => .retNeg1
      | some (host, p) =>
        if status = cstr "OK" then
          .ret0 { host := host, port := long_to_int (strtol (c_string p)).1 }
        else .retNeg1 := by
    simp only [registry_lookup, hp, hr, hs]
  cases hsp : strchr_split 58 result with
  | none =>
    have hnot : 58 ∉ result := hnone.mp hsp
    simp only [hsp] at key
    simp [conmux_open_lookup, key, hnot]
  | some r =>
    have hmem : 58 ∈ result := by
      by_contra h
      rw [hnone.mpr h] at hsp
      exact absurd hsp (by simp)
    simp only [hsp] at key
    by_cases hok : status = cstr "OK"
    · simp [conmux_open_lookup, key, hok, hmem]
    · simp [conmux_open_lookup, key, hok, hmem]

/-- C7 at the reply `status=ERROR result=none`: the lookup fails and `conmux_open` exits. -/
theorem registry_lookup_success_iff_witness :
    registry_lookup (cstr "status=ERROR result=none") = .retNeg1 ∧
    conmux_open_lookup (cstr "status=ERROR result=none") = .exit 1 :=
  (registry_lookup_success_iff (cstr "status=ERROR result=none")
    { title := none, status := some (cstr "ERROR"), result := some (cstr "none"),
      state := none } (cstr "ERROR") (cstr "none") (by decide) rfl rfl).2.1 (by decide)

/-! ## Reset-sequence parser -/

theorem reset_loop_succ (fuel : Nat) (pp : List Nat) (i : Nat) (steps : List reset_step) :
    reset_loop (fuel + 1) pp i steps =
      if i < MAX_RESET_SEQUENCE then
        match strchr_split 59 pp with
        | none => .left i steps
        | some (tok, rest) =>
          if peek tok = 66 then
            reset_loop fuel rest i
              (modify_step (fun s => { s with asserted := true, key := DEVICE_KEY_POWER }) i
                steps)
          else if peek tok = 98 then
            reset_loop fuel rest i
              (modify_step (fun s => { s with key := DEVICE_KEY_POWER }) i steps)
          else if peek tok = 82 then
            reset_loop fuel rest i
              (modify_step (fun s => { s with asserted := true, key := DEVICE_KEY_FASTBOOT }) i
                steps)
          else if peek tok = 114 then
            reset_loop fuel rest i
              (modify_step (fun s => { s with key := DEVICE_KEY_FASTBOOT }) i steps)
          else if peek (strtol tok).2 = peek tok then .exit 1
          else
            reset_loop fuel rest (i + 1)
              (modify_step (fun s => { s with sleep_ms := (strtol tok).1 }) i steps)
      else .left i steps := by
  simp only [reset_loop]

theorem modify_step_append (f : reset_step → reset_step) (done : List reset_step)
    (s : reset_step) (ss : List reset_step) :
    modify_step f done.length (done ++ s :: ss) = done ++ f s :: ss := by
  induction done with
  | nil => rfl
  | cons d ds ih => simp [modify_step, ih]

theorem isdigit_bounds {c : Nat} (h : isdigit c = true) : 48 ≤ c ∧ c ≤ 57 := by
  simpa [isdigit] using h

/-- The letter token of a step writes the key and the asserted flag of slot `i`. -/
theorem reset_loop_letter (fuel : Nat) (c : Nat) (rest : List Nat) (done : List reset_step)
    (ss : List reset_step) (hc : is_key_letter c = true)
    (hi : done.length < MAX_RESET_SEQUENCE) :
    reset_loop (fuel + 1) (c :: 59 :: rest) done.length (done ++ reset_step.zero :: ss) =
      reset_loop fuel rest done.length
        (done ++ { key := letter_key c, asserted := letter_asserted c, sleep_ms := 0 } :: ss) := by
  have hs : strchr_split 59 (c :: 59 :: rest) = some ([c], rest) := by
    have := strchr_split_append 59 [c] rest (by decide)
      (by
        intro x hx
        simp only [List.mem_singleton] at hx
        subst hx
        rintro rfl
        simp [is_key_letter] at hc)
      (by
        intro x hx
        simp only [List.mem_singleton] at hx
        subst hx
        rintro rfl
        simp [is_key_letter] at hc)
    simpa using this
  rw [reset_loop_succ, if_pos hi, hs]
  simp only [is_key_letter, Bool.or_eq_true, beq_iff_eq] at hc
  rcases hc with ((rfl | rfl) | rfl) | rfl <;>
    simp [peek, modify_step_append, letter_key, letter_asserted, reset_step.zero,
      DEVICE_KEY_POWER, DEVICE_KEY_FASTBOOT]

/-- The duration token of a step writes `sleep_ms` of slot `i` and moves on to slot `i+1`. -/
theorem reset_loop_duration (fuel : Nat) (ds rest : List Nat) (done : List reset_step)
    (s : reset_step) (ss : List reset_step) (hne : ds ≠ [])
    (hd : ∀ c ∈ ds, isdigit c = true) (hv : decimal_value ds ≤ INT_MAX)
    (hi : done.length < MAX_RESET_SEQUENCE) :
    reset_loop (fuel + 1) (ds ++ 59 :: rest) done.length (done ++ s :: ss) =
      reset_loop fuel rest (done.length + 1)
        (done ++ { s with sleep_ms := decimal_value ds } :: ss) := by
  have hs : strchr_split 59 (ds ++ 59 :: rest) = some (ds, rest) :=
    strchr_split_append 59 ds rest (by decide)
      (fun x hx => by have := isdigit_bounds (hd x hx); omega)
      (fun x hx => by have := isdigit_bounds (hd x hx); omega)
  have hlong : (decimal_value ds : Int) ≤ LONG_MAX := by
    unfold LONG_MAX
    unfold INT_MAX at hv
    omega
  have hst := strtol_of_digits ds hne hd hlong
  cases ds with
  | nil => exact absurd rfl hne
  | cons c cs =>
    have hc := isdigit_bounds (hd c (by simp))
    rw [reset_loop_succ, if_pos hi, hs]
    have h1 : ¬ peek (c :: cs) = 66 := by simp only [peek, List.headD_cons]; omega
    have h2 : ¬ peek (c :: cs) = 98 := by simp only [peek, List.headD_cons]; omega
    have h3 : ¬ peek (c :: cs) = 82 := by simp only [peek, List.headD_cons]; omega
    have h4 : ¬ peek (c :: cs) = 114 := by simp only [peek, List.headD_cons]; omega
    have h5 : ¬ peek ([] : List Nat) = peek (c :: cs) := by
      simp only [peek, List.headD_cons, List.headD_nil]
      omega
    simp only [h1, h2, h3, h4, h5, if_false, hst, modify_step_append]

theorem steps_array (done : List reset_step) (x : reset_step) (n : Nat) :
    done ++ x :: List.replicate n reset_step.zero =
      (done ++ [x]) ++ List.replicate n reset_step.zero := by
  simp

/-- The loop over a run of full steps: `2 * pairs.length` iterations fill the next
`pairs.length` slots. -/
theorem reset_loop_steps (pairs : List (Nat × List Nat)) :
    ∀ (fuel : Nat) (tail : List Nat) (done : List reset_step),
    (∀ pair ∈ pairs, well_formed_step pair) →
    done.length + pairs.length ≤ MAX_RESET_SEQUENCE →
    reset_loop (fuel + 2 * pairs.length) (render_steps pairs ++ tail) done.length
        (done ++ List.replicate (MAX_RESET_SEQUENCE - done.length) reset_step.zero) =
      reset_loop fuel tail (done.length + pairs.length)
        (done ++ pairs.map step_of ++
          List.replicate (MAX_RESET_SEQUENCE - done.length - pairs.length) reset_step.zero) := by
  induction pairs with
  | nil => intro fuel tail done _ _; simp [render_steps]
  | cons pair ps ih =>
    intro fuel tail done hw hlen
    obtain ⟨hl, hne, hd, hv⟩ := hw pair (by simp)
    simp only [List.length_cons] at hlen
    have hi : done.length < MAX_RESET_SEQUENCE := by omega
    have hrep : List.replicate (MAX_RESET_SEQUENCE - done.length) reset_step.zero
        = reset_step.zero ::
          List.replicate (MAX_RESET_SEQUENCE - (done.length + 1)) reset_step.zero := by
      rw [← List.replicate_succ]
      congr 1
      omega
    have hfuel : fuel + 2 * (pair :: ps).length = (fuel + 2 * ps.length) + 1 + 1 := by
      simp only [List.length_cons]
      omega
    have htext : render_steps (pair :: ps) ++ tail
        = pair.1 :: 59 :: (pair.2 ++ 59 :: (render_steps ps ++ tail)) := by
      simp [render_steps, render_step]
    rw [hfuel, htext, hrep, reset_loop_letter _ pair.1 _ done _ hl hi,
      reset_loop_duration _ pair.2 _ done _ _ hne hd hv hi]
    have hstep : reset_step.mk (letter_key pair.1) (letter_asserted pair.1)
        (decimal_value pair.2 : Int) = step_of pair := rfl
    have := ih fuel tail (done ++ [step_of pair]) (fun q hq => hw q (by simp [hq]))
      (by simp only [List.length_append, List.length_singleton]; omega)
    simp only [List.length_append, List.length_singleton] at this
    simp only [hstep]
    rw [steps_array, this]
    have e1 : done.length + 1 + ps.length = done.length + (ps.length + 1) := by omega
    have e2 : MAX_RESET_SEQUENCE - (done.length + 1) - ps.length
        = MAX_RESET_SEQUENCE - done.length - (ps.length + 1) := by omega
    simp only [List.map_cons, List.length_cons, List.append_assoc, List.singleton_append, e1, e2]

theorem render_steps_length (pairs : List (Nat × List Nat))
    (hw : ∀ pair ∈ pairs, well_formed_step pair) :
    2 * pairs.length + 1 ≤ (render_steps pairs).length + 1 := by
  induction pairs with
  | nil => simp
  | cons pair ps ih =>
    have := ih (fun q hq => hw q (by simp [hq]))
    simp only [render_steps, render_step, List.length_append, List.length_cons]
    omega

theorem reset_loop_end (fuel i : Nat) (steps : List reset_step) :
    reset_loop (fuel + 1) [] i steps = .left i steps := by
  rw [reset_loop_succ]
  split_ifs <;> simp [strchr_split]

/-- C8, as stated, fails at its own witness: for `B;200;b;` on a fresh descriptor the array
holds `{POWER, asserted, 200}` and `{POWER, not asserted, 0}` in its first two slots, but
`reset_sequence_count` is 1, not 2: the index moves on only at a duration token. -/
theorem reset_sequence_trailing_letter :
    parse_reset_sequence reset_config.zero (cstr "B;200;b;") =
      .done { custom_reset_sequence := true
              reset_sequence :=
                { key := DEVICE_KEY_POWER, asserted := true, sleep_ms := 200 } ::
                { key := DEVICE_KEY_POWER, asserted := false, sleep_ms := 0 } ::
                List.replicate 14 reset_step.zero
              reset_sequence_count := 1 } := by
  decide

/-- C8, amended. Reset-sequence DSL result: for every sequence of at most 15 steps
`<letter>;<duration>;`, each a letter among b, B, r, R followed by a non-empty decimal
duration that fits an `int`, optionally followed by one last letter token without duration,
`parse_reset_sequence` on a fresh (zeroed) descriptor returns normally with one step per
`<letter>;<duration>;` pair, in order, with key POWER for b/B and FASTBOOT for r/R,
asserted exactly for the upper-case letters and `sleep_ms` equal to the duration, and with
`reset_sequence_count` equal to the number of duration tokens; a last letter without
duration is written into the next slot (with `sleep_ms` 0) but not counted. -/
theorem reset_sequence_result (pairs : List (Nat × List Nat)) (trailing : Option Nat)
    (hw : ∀ pair ∈ pairs, well_formed_step pair)
    (ht : ∀ c, trailing = some c → is_key_letter c = true)
    (hlen : pairs.length < MAX_RESET_SEQUENCE) :
    parse_reset_sequence reset_config.zero (render_steps pairs ++ render_trailing trailing) =
      .done { custom_reset_sequence := true
              reset_sequence := expected_steps pairs trailing
              reset_sequence_count := pairs.length } := by
  have hl := render_steps_length pairs hw
  have hne : pairs.length ≠ MAX_RESET_SEQUENCE := by omega
  have hloop := fun fuel => reset_loop_steps pairs fuel (render_trailing trailing) [] hw
    (by simpa using hlen.le)
  simp only [List.length_nil, Nat.zero_add, List.nil_append, Nat.sub_zero] at hloop
  unfold parse_reset_sequence
  cases trailing with
  | none =>
    obtain ⟨f, hf⟩ : ∃ f, (render_steps pairs ++ render_trailing none).length + 1
        = (f + 1) + 2 * pairs.length := by
      refine ⟨(render_steps pairs).length - 2 * pairs.length, ?_⟩
      simp only [render_trailing, List.append_nil]
      omega
    rw [show reset_config.zero.reset_sequence
        = List.replicate MAX_RESET_SEQUENCE reset_step.zero from rfl, hf, hloop (f + 1)]
    simp only [render_trailing, reset_loop_end, hne, if_false, expected_steps]
  | some c =>
    have hc := ht c rfl
    obtain ⟨f, hf⟩ : ∃ f, (render_steps pairs ++ render_trailing (some c)).length + 1
        = (f + 1 + 1) + 2 * pairs.length := by
      refine ⟨(render_steps pairs).length + 1 - 2 * pairs.length, ?_⟩
      simp only [render_trailing, List.length_append, List.length_cons, List.length_nil]
      omega
    have hrep : List.replicate (MAX_RESET_SEQUENCE - pairs.length) reset_step.zero
        = reset_step.zero ::
          List.replicate (MAX_RESET_SEQUENCE - 1 - pairs.length) reset_step.zero := by
      rw [← List.replicate_succ]
      congr 1
      omega
    have hidx : pairs.length = (pairs.map step_of).length := by simp
    rw [show reset_config.zero.reset_sequence
        = List.replicate MAX_RESET_SEQUENCE reset_step.zero from rfl, hf, hloop (f + 1 + 1),
      hrep]
    simp only [render_trailing]
    conv_lhs => rw [hidx]
    rw [reset_loop_letter (f + 1) c [] (pairs.map step_of) _ hc (by simpa using hlen),
      reset_loop_end]
    simp only [List.length_map, hne, if_false, expected_steps]

/-- C8 at `b;500;B;200;b;`: two counted steps, the last letter in the third slot. -/
theorem reset_sequence_result_witness :
    parse_reset_sequence reset_config.zero (cstr "b;500;B;200;b;") =
      .done { custom_reset_sequence := true
              reset_sequence :=
                { key := DEVICE_KEY_POWER, asserted := false, sleep_ms := 500 } ::
                { key := DEVICE_KEY_POWER, asserted := true, sleep_ms := 200 } ::
                { key := DEVICE_KEY_POWER, asserted := false, sleep_ms := 0 } ::
                List.replicate 13 reset_step.zero
              reset_sequence_count := 2 } :=
  reset_sequence_result [(98, cstr "500"), (66, cstr "200")] (some 98) (by decide) (by decide)
    (by decide)

theorem render_steps_append (a b : List (Nat × List Nat)) :
    render_steps (a ++ b) = render_steps a ++ render_steps b := by
  induction a with
  | nil => rfl
  | cons x xs ih => simp [render_steps, ih]

/-- Sixteen or more well-formed steps: the loop is left with `i = MAX_RESET_SEQUENCE` and the
process exits with status 1. -/
theorem reset_sequence_too_many (pairs : List (Nat × List Nat))
    (hw : ∀ pair ∈ pairs, well_formed_step pair) (hlen : MAX_RESET_SEQUENCE ≤ pairs.length) :
    parse_reset_sequence reset_config.zero (render_steps pairs) = .exit 1 := by
  have hsplit : pairs = pairs.take 16 ++ pairs.drop 16 := (List.take_append_drop 16 pairs).symm
  have htake : (pairs.take 16).length = 16 := by
    rw [List.length_take]
    unfold MAX_RESET_SEQUENCE at hlen
    omega
  have hw1 : ∀ pair ∈ pairs.take 16, well_formed_step pair :=
    fun q hq => hw q (List.mem_of_mem_take hq)
  have hl := render_steps_length (pairs.take 16) hw1
  have hloop := fun fuel => reset_loop_steps (pairs.take 16) fuel
    (render_steps (pairs.drop 16)) [] hw1 (by simp [htake, MAX_RESET_SEQUENCE])
  simp only [List.length_nil, Nat.zero_add, List.nil_append, Nat.sub_zero, htake] at hloop
  obtain ⟨f, hf⟩ : ∃ f, (render_steps pairs).length + 1 = (f + 1) + 2 * 16 := by
    refine ⟨(render_steps pairs).length - 2 * 16, ?_⟩
    have : (render_steps (pairs.take 16)).length ≤ (render_steps pairs).length := by
      conv_rhs => rw [hsplit, render_steps_append]
      simp
    rw [htake] at hl
    omega
  unfold parse_reset_sequence
  rw [show reset_config.zero.reset_sequence
      = List.replicate MAX_RESET_SEQUENCE reset_step.zero from rfl, hf]
  conv_lhs => rw [hsplit, render_steps_append]
  rw [hloop (f + 1), reset_loop_succ]
  simp [MAX_RESET_SEQUENCE]

set_option maxRecDepth 100000 in
/-- C9: `parse_reset_sequence` at a sequence of exactly 16 steps `b;1;`: the process exits
with status 1 ("too many reset sequence steps") although the array has room for 16 steps; 15
steps are accepted with `reset_sequence_count = 15`, and 17 steps exit as well. -/
theorem reset_sequence_sixteen_steps :
    parse_reset_sequence reset_config.zero (render_steps (List.replicate 16 (98, cstr "1")))
      = .exit 1 ∧
    parse_reset_sequence reset_config.zero (render_steps (List.replicate 15 (98, cstr "1")))
      = .done { custom_reset_sequence := true
                reset_sequence := expected_steps (List.replicate 15 (98, cstr "1")) none
                reset_sequence_count := 15 } ∧
    parse_reset_sequence reset_config.zero (render_steps (List.replicate 17 (98, cstr "1")))
      = .exit 1 := by
  decide

/-! ### Stray tokens -/

theorem strtol_digits_no_digit (p : List Nat) (h : isdigit (peek p) = false) :
    strtol_digits 0 0 p = (0, 0, p) := by
  cases p with
  | nil => rfl
  | cons c cs =>
    simp only [peek, List.headD_cons] at h
    simp [strtol_digits, h]

theorem strtol_no_number (t : List Nat) (h : starts_with_number t = false) :
    strtol t = (0, t) := by
  simp only [starts_with_number] at h
  simp only [strtol, strtol_digits_no_digit _ h]

theorem semicolon_tokens_split (pp : List Nat) (hz : ∀ c ∈ pp, c ≠ 0) :
    match strchr_split 59 pp with
    | none => semicolon_tokens pp = []
    | some (t, rest) =>
      semicolon_tokens pp = t :: semicolon_tokens rest ∧ rest.length < pp.length ∧
        ∀ c ∈ rest, c ∈ pp := by
  induction pp with
  | nil => simp [strchr_split, semicolon_tokens]
  | cons c cs ih =>
    have hc : c ≠ 0 := hz c (by simp)
    have ih1 := ih (fun x hx => hz x (by simp [hx]))
    by_cases h59 : c = 59
    · subst h59
      simp only [strchr_split, semicolon_tokens, if_true, hc, if_false]
      exact ⟨trivial, by simp, fun x hx => by simp [hx]⟩
    · cases hs : strchr_split 59 cs with
      | none =>
        rw [hs] at ih1
        simp only at ih1
        simp [strchr_split, semicolon_tokens, hc, h59, hs, ih1]
      | some r =>
        rw [hs] at ih1
        obtain ⟨h1, h2, h3⟩ := ih1
        simp only [strchr_split, hc, h59, if_false, hs, semicolon_tokens, h1]
        refine ⟨trivial, by simp; omega, fun x hx => by simp [h3 x hx]⟩

theorem reset_loop_stray (fuel : Nat) : ∀ (pp : List Nat) (i : Nat) (steps : List reset_step),
    pp.length < fuel → i ≤ MAX_RESET_SEQUENCE → (∀ c ∈ pp, c ≠ 0) →
    (∃ t ∈ semicolon_tokens pp, stray_token t = true) →
    reset_loop fuel pp i steps = .exit 1 ∨
      ∃ st, reset_loop fuel pp i steps = .left MAX_RESET_SEQUENCE st := by
  induction fuel with
  | zero => intro pp i steps h; exact absurd h (Nat.not_lt_zero _)
  | succ f ih =>
    intro pp i steps hfuel hi hz hbad
    rw [reset_loop_succ]
    by_cases hlt : i < MAX_RESET_SEQUENCE
    · rw [if_pos hlt]
      have hsplit := semicolon_tokens_split pp hz
      cases hs : strchr_split 59 pp with
      | none =>
        rw [hs] at hsplit
        simp only at hsplit
        obtain ⟨t, ht, _⟩ := hbad
        rw [hsplit] at ht
        simp at ht
      | some r =>
        obtain ⟨tok, rest⟩ := r
        rw [hs] at hsplit
        obtain ⟨h1, h2, h3⟩ := hsplit
        have hrest : ∀ steps1 i1, i1 ≤ MAX_RESET_SEQUENCE →
            (∃ t ∈ semicolon_tokens rest, stray_token t = true) →
            reset_loop f rest i1 steps1 = .exit 1 ∨
              ∃ st, reset_loop f rest i1 steps1 = .left MAX_RESET_SEQUENCE st :=
          fun steps1 i1 hi1 hb =>
            ih rest i1 steps1 (by omega) hi1 (fun c hc => hz c (h3 c hc)) hb
        have hnext : stray_token tok = false →
            ∃ t ∈ semicolon_tokens rest, stray_token t = true := by
          intro hn
          obtain ⟨t, ht, hst⟩ := hbad
          rw [h1] at ht
          rcases List.mem_cons.mp ht with rfl | ht
          · rw [hn] at hst
            exact absurd hst (by simp)
          · exact ⟨t, ht, hst⟩
        have hletter : is_key_letter (peek tok) = true → stray_token tok = false := by
          intro h
          simp [stray_token, h]
        simp only
        split_ifs with c1 c2 c3 c4 c5
        · exact hrest _ _ hi (hnext (hletter (by simp [is_key_letter, c1])))
        · exact hrest _ _ hi (hnext (hletter (by simp [is_key_letter, c2])))
        · exact hrest _ _ hi (hnext (hletter (by simp [is_key_letter, c3])))
        · exact hrest _ _ hi (hnext (hletter (by simp [is_key_letter, c4])))
        · exact Or.inl rfl
        · apply hrest _ _ hlt
          apply hnext
          by_contra hst
          have hst1 : stray_token tok = true := by simpa using hst
          simp only [stray_token, Bool.and_eq_true, Bool.not_eq_true'] at hst1
          rw [strtol_no_number tok hst1.2] at c5
          exact c5 rfl
    · rw [if_neg hlt]
      right
      exact ⟨steps, by rw [show i = MAX_RESET_SEQUENCE from by omega]⟩

/-- C10, as stated, fails for a duration followed by a non-digit: the token `12x` is
neither a key letter nor made up entirely of decimal digits, and `12x;` is accepted, as one
step with `sleep_ms = 12` (`strtol` stops at the `x`, and the check that follows compares
the byte it stopped at with the first byte of the token). -/
theorem reset_sequence_trailing_garbage :
    semicolon_tokens (cstr "12x;") = [cstr "12x"] ∧
    (cstr "12x").all isdigit = false ∧ cstr "12x" ∉ [cstr "b", cstr "B", cstr "r", cstr "R"] ∧
    parse_reset_sequence reset_config.zero (cstr "12x;") =
      .done { custom_reset_sequence := true
              reset_sequence :=
                { key := 0, asserted := false, sleep_ms := 12 } ::
                List.replicate 15 reset_step.zero
              reset_sequence_count := 1 } := by
  decide

/-- C10, amended. Reset-sequence token validation: for every input (a C string, so without
NUL) and every descriptor, if some semicolon-terminated token neither starts with one of the
letters b, B, r, R nor starts with a decimal number (optional white space, optional sign, a
digit), such as a stray word or an empty token, then `parse_reset_sequence` exits with
status 1 and no sequence is accepted. -/
theorem stray_token_rejected (dev : reset_config) (seq : List Nat) (hz : ∀ c ∈ seq, c ≠ 0)
    (hbad : ∃ t ∈ semicolon_tokens seq, stray_token t = true) :
    parse_reset_sequence dev seq = .exit 1 := by
  unfold parse_reset_sequence
  rcases reset_loop_stray (seq.length + 1) seq 0 dev.reset_sequence (Nat.lt_succ_self _)
    (Nat.zero_le _) hz hbad with h | ⟨st, h⟩
  · rw [h]
  · rw [h]
    simp

/-- C10 at a sequence with the stray word `foo`. -/
theorem stray_token_rejected_witness :
    stray_token (cstr "foo") = true ∧
    parse_reset_sequence reset_config.zero (cstr "B;200;foo;b;") = .exit 1 :=
  ⟨by decide, stray_token_rejected reset_config.zero (cstr "B;200;foo;b;") (by decide)
    ⟨cstr "foo", by decide, by decide⟩⟩

/-! ## Conmux power control and session open -/

/-- C16. Conmux power-on: for every descriptor bound to the conmux control driver (open and
power, neither usb nor key), whatever `has_power_key` and `fastboot_key_timeout` are,
`device_power(true)` at time 0 followed by the timer expiries (any number `n ≥ 4` of reactor
steps) reaches RUNNING with no timer pending, its only driver call is `power(true)`, and the
bytes written to the session socket are the 13 bytes `~$hardreset\n\0`, once and nothing
else; `conmux_power(false)` writes the 7 bytes `~$off\n\0`. -/
theorem conmux_power_on_once (dev : device) (n : Nat)
    (hops : dev.control_ops = some conmux_ops) (hn : 4 ≤ n) :
    (∃ s, power_up dev n = some s ∧ s.dev.state = DEVICE_STATE_RUNNING ∧ s.pending = [] ∧
      s.trace = [(10, Call.power true)] ∧
      conmux_socket_writes s.trace = [cstr "~$hardreset\n" ++ [0]]) ∧
    (cstr "~$hardreset\n" ++ [0]).length = 13 ∧
    conmux_power false = cstr "~$off\n" ++ [0] ∧ (conmux_power false).length = 7 := by
  refine ⟨?_, by decide, by decide, by decide⟩
  suffices h : ∃ s, power_up dev n = some s ∧ s.dev.state = DEVICE_STATE_RUNNING ∧
      s.pending = [] ∧ s.trace = [(10, Call.power true)] by
    obtain ⟨s, h1, h2, h3, h4⟩ := h
    exact ⟨s, h1, h2, h3, h4, by rw [h4]; decide⟩
  obtain ⟨m, rfl⟩ : ∃ m, n = m + 4 := ⟨n - 4, by omega⟩
  have hp : device_has_control dev .power = true := by
    rw [device_has_control_of_ops hops]; rfl
  have hrun : ∀ s : Sim, s.run (m + 4) = (s.run 4).bind (fun s1 => s1.run m) := by
    intro s
    rw [Nat.add_comm, Sim.run_add]
  simp only [power_up, Sim.device_power, device_power, device_power_on, hp, if_true,
    Bool.not_true, Bool.false_eq_true, if_false, hrun]
  cases hpk : dev.has_power_key <;> by_cases h0 : dev.fastboot_key_timeout = 0
  · refine ⟨{ now := 10, dev := { dev with state := 5 }, pending := [],
              trace := [(10, Call.power true)] }, ?_, rfl, rfl, rfl⟩
    simp [device_tick, Sim.init, Sim.record, h0, hpk, device_key, device_has_control, hops,
      conmux_ops, control_ops.has, timers_of, driver_calls, Sim.run, Sim.fire, earliest,
      device_impl_power, device_usb, DEVICE_STATE_START, DEVICE_STATE_CONNECT,
      DEVICE_STATE_RUNNING]
    exact Sim.run_idle _ rfl m
  · refine ⟨{ now := 10 + fastboot_key_delay dev, dev := { dev with state := 5 }, pending := [],
              trace := [(10, Call.power true)] }, ?_, rfl, rfl, rfl⟩
    simp [device_tick, Sim.init, Sim.record, h0, hpk, device_key, device_has_control, hops,
      conmux_ops, control_ops.has, timers_of, driver_calls, Sim.run, Sim.fire, earliest,
      device_impl_power, device_usb, DEVICE_STATE_START, DEVICE_STATE_CONNECT,
      DEVICE_STATE_RELEASE_FASTBOOT, DEVICE_STATE_RUNNING, fastboot_key_delay]
    exact Sim.run_idle _ rfl m
  · refine ⟨{ now := 360, dev := { dev with state := 5 }, pending := [],
              trace := [(10, Call.power true)] }, ?_, rfl, rfl, rfl⟩
    simp [device_tick, Sim.init, Sim.record, h0, hpk, device_key, device_has_control, hops,
      conmux_ops, control_ops.has, timers_of, driver_calls, Sim.run, Sim.fire, earliest,
      device_impl_power, device_usb, DEVICE_STATE_START, DEVICE_STATE_CONNECT,
      DEVICE_STATE_PRESS, DEVICE_STATE_RELEASE_PWR, DEVICE_STATE_RUNNING]
    exact Sim.run_idle _ rfl m
  · refine ⟨{ now := 360 + fastboot_key_delay dev, dev := { dev with state := 5 },
              pending := [], trace := [(10, Call.power true)] }, ?_, rfl, rfl, rfl⟩
    simp [device_tick, Sim.init, Sim.record, h0, hpk, device_key, device_has_control, hops,
      conmux_ops, control_ops.has, timers_of, driver_calls, Sim.run, Sim.fire, earliest,
      device_impl_power, device_usb, DEVICE_STATE_START, DEVICE_STATE_CONNECT,
      DEVICE_STATE_PRESS, DEVICE_STATE_RELEASE_PWR, DEVICE_STATE_RELEASE_FASTBOOT,
      DEVICE_STATE_RUNNING, fastboot_key_delay]
    exact Sim.run_idle _ rfl m

/-- C16 at a conmux descriptor with `has_power_key = true`, `fastboot_key_timeout = 3`. -/
theorem conmux_power_on_once_witness :
    ∃ s, power_up (conmux_device true 3) 4 = some s ∧
      s.dev.state = DEVICE_STATE_RUNNING ∧ s.pending = [] ∧
      s.trace = [(10, Call.power true)] ∧
      conmux_socket_writes s.trace = [cstr "~$hardreset\n" ++ [0]] :=
  (conmux_power_on_once (conmux_device true 3) 4 rfl (by decide)).1

/-- C20: `conmux_open` at a reply whose first line is `status=OK` and which carries console
data after the LF in the same read: the whole buffer goes to `parse_response`, which takes
the LF for white space and goes on with `hello world`, finds no `=` after `hello`, and
`conmux_open` exits with status 1; the first line alone, with or without its LF, connects.
A second pair after the LF changes the outcome as well. -/
theorem conmux_open_reads_past_line :
    conmux_open_session (cstr "status=OK\nhello world") = .exit 1 ∧
    conmux_open_session (cstr "status=OK\nstatus=ERROR") = .exit 1 ∧
    conmux_open_session (cstr "status=OK\n") = .connected ∧
    conmux_open_session (cstr "status=OK") = .connected := by
  decide

/-! ## Unknown response keys -/

theorem decode_text_cons (c : Nat) (cs : List Nat) :
    decode_text (c :: cs) =
      if c = 37 then
        match cs with
        | p0 :: p1 :: rest => percent_byte p0 p1 :: decode_text rest
        | _ => []
      else c :: decode_text cs := by
  rcases cs with _ | ⟨p0, _ | ⟨p1, rest⟩⟩ <;> simp [decode_text]

theorem bad_percent_cons (c : Nat) (cs : List Nat) :
    bad_percent (c :: cs) =
      ((c == 37 && !(isxdigit (peek cs) && isxdigit (peek cs.tail))) || bad_percent cs) := rfl

/-- The value loop on a well-formed value text: it stops at the end of the token and has
written the decoded bytes. -/
theorem scan_value_good : ∀ (n : Nat) (v post : List Nat) (d : Nat), v.length ≤ n →
    (∀ c ∈ v, isprint c = true ∧ isspace c = false) → bad_percent v = false →
    at_boundary post → d + v.length < TOKEN_SIZE →
    scan_value d (v ++ post) = .done (decode_text v) post := by
  intro n
  induction n with
  | zero =>
    intro v post d hn _ _ hpost hd
    have hv : v = [] := List.length_eq_zero.mp (Nat.le_zero.mp hn)
    subst hv
    simp at hd
    simpa [decode_text] using scan_value_boundary d post hd hpost
  | succ n ih =>
    intro v post d hn hpr hbad hpost hd
    cases v with
    | nil =>
      simp at hd
      simpa [decode_text] using scan_value_boundary d post hd hpost
    | cons c cs =>
      have hc := hpr c (by simp)
      simp only [List.length_cons] at hn hd
      have hd0 : d < TOKEN_SIZE := by omega
      rw [bad_percent_cons] at hbad
      simp only [Bool.or_eq_false_iff] at hbad
      by_cases h37 : c = 37
      · subst h37
        have hx : isxdigit (peek cs) = true ∧ isxdigit (peek cs.tail) = true := by
          have := hbad.1
          simpa using this
        rcases cs with _ | ⟨p0, _ | ⟨p1, rest⟩⟩
        · simp [peek, isxdigit, isdigit] at hx
        · simp [peek, isxdigit, isdigit] at hx
        · simp only [peek, List.headD_cons, List.tail_cons] at hx
          have hrest : bad_percent rest = false := by
            have h1 := hbad.2
            rw [bad_percent_cons, bad_percent_cons] at h1
            simp only [Bool.or_eq_false_iff] at h1
            exact h1.2.2
          have ih1 := ih rest post (d + 1) (by simp at hn; omega)
            (fun x hx => hpr x (by simp [hx])) hrest hpost (by simp at hd; omega)
          simp [scan_value_cons, decode_text_cons, isprint, isspace, hx.1, hx.2, hd0, ih1,
            ValueScan.push]
      · have ih1 := ih cs post (d + 1) (by omega) (fun x hx => hpr x (by simp [hx]))
          hbad.2 hpost (by omega)
        simp [scan_value_cons, decode_text_cons, hc.1, hc.2, h37, hd0, ih1, ValueScan.push]

/-- The responses stored for the pairs of a line, in order. -/
theorem parse_pairs_tokens : ∀ (n : Nat) (p : List Nat), p.length ≤ n →
    ∀ (fuel : Nat) (resp : conmux_response), p.length < fuel → (∀ c ∈ p, c ≠ 0) →
    (∀ t ∈ ws_tokens p, well_formed_token t = true) →
    parse_pairs fuel p resp =
      .ret0 ((ws_tokens p).foldl
        (fun r t => r.store (token_key t) (decode_text (token_value t))) resp) := by
  intro n
  induction n with
  | zero =>
    intro p hn fuel resp hfuel _ _
    have hp : p = [] := List.length_eq_zero.mp (Nat.le_zero.mp hn)
    subst hp
    obtain ⟨f, rfl⟩ : ∃ f, fuel = f + 1 := ⟨fuel - 1, by simp at hfuel; omega⟩
    simp [parse_pairs_succ, peek, ws_tokens, split_ws]
  | succ n ih =>
    intro p hn fuel resp hfuel hz hwf
    set sp := p.takeWhile isspace with hsp_def
    set q := p.dropWhile isspace with hq_def
    set t := q.takeWhile (fun c => !isspace c) with ht_def
    set post := q.dropWhile (fun c => !isspace c) with hpost_def
    have hp : p = sp ++ (t ++ post) := line_split p
    have hpost : at_boundary post := at_boundary_dropWhile q
    have hsp : ∀ c ∈ sp, isspace c = true := fun c hc => (List.mem_takeWhile_imp hc)
    have hns : ∀ c ∈ t, isspace c = false := fun c hc => by
      simpa using (List.mem_takeWhile_imp hc)
    have hsub_sp : ∀ c ∈ sp, c ∈ p := fun c hc => (List.takeWhile_sublist _).subset hc
    have hsub_q : ∀ c ∈ q, c ∈ p := fun c hc => (List.dropWhile_sublist _).subset hc
    have hsub_t : ∀ c ∈ t, c ∈ p := fun c hc => hsub_q c ((List.takeWhile_sublist _).subset hc)
    have hsub_post : ∀ c ∈ post, c ∈ p :=
      fun c hc => hsub_q c ((List.dropWhile_sublist _).subset hc)
    have htok_q : ws_tokens p = ws_tokens q := (ws_tokens_dropWhile p).symm
    obtain ⟨f, rfl⟩ : ∃ f, fuel = f + 1 := ⟨fuel - 1, by omega⟩
    by_cases hq : q = []
    · have hsk : skip_space p = [] := by rw [skip_space_eq]; exact hq
      rw [htok_q, hq]
      simp [parse_pairs_succ, hsk, peek, ws_tokens, split_ws]
    · have hne : t ≠ [] := by
        cases hq1 : q with
        | nil => exact absurd hq1 hq
        | cons c cs =>
          have hc := dropWhile_isspace_head p c cs hq1
          simp [ht_def, hq1, hc]
      have htok : ws_tokens p = t :: ws_tokens post := by
        rw [htok_q, ← ws_tokens_token t post hns hne hpost, ht_def, hpost_def,
          List.takeWhile_append_dropWhile]
      have hlen : p.length = sp.length + (t.length + post.length) := by
        conv_lhs => rw [hp]
        simp
      have htlen : 0 < t.length := List.length_pos.mpr hne
      have hwt : well_formed_token t = true := hwf t (by simp [htok])
      simp only [well_formed_token, malformed_token, short_token, missing_equals,
        Bool.and_eq_true, Bool.not_eq_true', Bool.or_eq_false_iff, decide_eq_true_eq,
        bne_eq_false_iff_eq, List.all_eq_true] at hwt
      obtain ⟨⟨⟨h61, hbad⟩, hk, hv⟩, hprint⟩ := hwt
      have hvsub : ∀ c ∈ token_value t, c ∈ t := fun c hc =>
        (List.dropWhile_sublist _).subset ((List.tail_sublist _).subset hc)
      rw [htok, List.foldl_cons]
      conv_lhs => rw [hp]
      rw [parse_pairs_frame f sp t post resp hsp (fun c hc => hz c (hsub_sp c hc)) hne
        hns (fun c hc => hz c (hsub_t c hc)) hpost hk h61,
        scan_value_good (token_value t).length (token_value t) post 0 (le_refl _)
          (fun c hc => ⟨hprint c hc, hns c (hvsub c hc)⟩) hbad hpost (by omega)]
      exact ih post (by omega) f _ (by omega) (fun c hc => hz c (hsub_post c hc))
        (fun t1 ht1 => hwf t1 (by simp [htok, ht1]))

theorem split_ws_mem (p : List Nat) :
    ∀ t ∈ split_ws p, ∀ c ∈ t, isspace c = false ∧ c ∈ p := by
  induction p with
  | nil => simp [split_ws]
  | cons x xs ih =>
    intro t ht c hc
    by_cases hx : isspace x = true
    · simp only [split_ws, hx, if_true, List.mem_cons] at ht
      rcases ht with rfl | ht
      · simp at hc
      · exact ⟨(ih t ht c hc).1, by simp [(ih t ht c hc).2]⟩
    · have hx1 : isspace x = false := by simpa using hx
      rw [split_ws_cons_nonspace x xs hx1] at ht
      cases hs : split_ws xs with
      | nil => exact absurd hs (split_ws_ne_nil xs)
      | cons h tl =>
        rw [hs] at ht ih
        simp only [List.headI_cons, List.tail_cons, List.mem_cons] at ht
        rcases ht with rfl | ht
        · rcases List.mem_cons.mp hc with rfl | hc
          · exact ⟨hx1, by simp⟩
          · have := ih h (by simp) c hc
            exact ⟨this.1, by simp [this.2]⟩
        · have := ih t (by simp [ht]) c hc
          exact ⟨this.1, by simp [this.2]⟩

theorem ws_tokens_mem (p : List Nat) :
    ∀ t ∈ ws_tokens p, t ≠ [] ∧ ∀ c ∈ t, isspace c = false ∧ c ∈ p := by
  intro t ht
  simp only [ws_tokens, List.mem_filter, Bool.not_eq_true', List.isEmpty_eq_false] at ht
  exact ⟨ht.2, split_ws_mem p t ht.1⟩

theorem join_tokens_cons (t : List Nat) (ts : List (List Nat)) :
    join_tokens (t :: ts) = t ++ (if ts = [] then [] else 32 :: join_tokens ts) := by
  cases ts with
  | nil => simp [join_tokens]
  | cons u us => simp [join_tokens]

theorem ws_tokens_join (ts : List (List Nat))
    (h : ∀ t ∈ ts, t ≠ [] ∧ ∀ c ∈ t, isspace c = false) :
    ws_tokens (join_tokens ts) = ts := by
  induction ts with
  | nil => simp [join_tokens, ws_tokens, split_ws]
  | cons t ts ih =>
    have ht := h t (by simp)
    have ih1 := ih (fun u hu => h u (by simp [hu]))
    rw [join_tokens_cons]
    by_cases hts : ts = []
    · subst hts
      simp only [if_true]
      rw [ws_tokens_token t [] ht.2 ht.1 (Or.inl rfl)]
      simp [ws_tokens, split_ws]
    · simp only [hts, if_false]
      rw [ws_tokens_token t _ ht.2 ht.1 (Or.inr ⟨32, join_tokens ts, rfl, by decide⟩),
        ws_tokens_cons_space 32 _ (by decide), ih1]

theorem join_tokens_mem (ts : List (List Nat)) :
    ∀ c ∈ join_tokens ts, c = 32 ∨ ∃ t ∈ ts, c ∈ t := by
  induction ts with
  | nil => simp [join_tokens]
  | cons t ts ih =>
    intro c hc
    rw [join_tokens_cons] at hc
    rcases List.mem_append.mp hc with hc | hc
    · exact Or.inr ⟨t, by simp, hc⟩
    · by_cases hts : ts = []
      · simp [hts] at hc
      · simp only [hts, if_false, List.mem_cons] at hc
        rcases hc with rfl | hc
        · exact Or.inl rfl
        · rcases ih c hc with h | ⟨u, hu, hcu⟩
          · exact Or.inl h
          · exact Or.inr ⟨u, by simp [hu], hcu⟩

theorem store_unknown_key (r : conmux_response) (t value : List Nat)
    (h : known_key t = false) : r.store (token_key t) value = r := by
  simp only [known_key, Bool.or_eq_false_iff, beq_eq_false_iff_ne, ne_eq] at h
  obtain ⟨⟨⟨h1, h2⟩, h3⟩, h4⟩ := h
  simp [conmux_response.store, h1, h2, h3, h4]

theorem fold_known_keys (ts : List (List Nat)) :
    ∀ r : conmux_response,
      (ts.filter known_key).foldl
          (fun r t => r.store (token_key t) (decode_text (token_value t))) r =
        ts.foldl (fun r t => r.store (token_key t) (decode_text (token_value t))) r := by
  induction ts with
  | nil => intro r; rfl
  | cons t ts ih =>
    intro r
    by_cases hk : known_key t = true
    · simp only [List.filter_cons, hk, if_true, List.foldl_cons]
      exact ih _
    · have hk1 : known_key t = false := by simpa using hk
      simp only [List.filter_cons, hk1, List.foldl_cons, store_unknown_key r t _ hk1]
      exact ih r

theorem no_nul_some {v : List Nat} (h : no_nul (some v) = true) : ∀ c ∈ v, c ≠ 0 := by
  intro c hc
  simp only [no_nul, List.all_eq_true, bne_iff_ne, ne_eq] at h
  exact h c hc

theorem registered_board {dev : device} (h : registered dev = true) :
    ∃ b, dev.board = some b ∧ ∀ c ∈ b, c ≠ 0 := by
  simp only [registered, Bool.and_eq_true] at h
  cases hb : dev.board with
  | none => simp [hb] at h
  | some b => exact ⟨b, rfl, no_nul_some (hb ▸ h.1.1.2)⟩

theorem registered_name {dev : device} (h : registered dev = true) (n : List Nat)
    (hn : dev.name = some n) : ∀ c ∈ n, c ≠ 0 := by
  simp only [registered, Bool.and_eq_true] at h
  exact no_nul_some (hn ▸ h.1.2)

theorem registered_description {dev : device} (h : registered dev = true) (v : List Nat)
    (hv : dev.description = some v) : ∀ c ∈ v, c ≠ 0 := by
  simp only [registered, Bool.and_eq_true] at h
  exact no_nul_some (hv ▸ h.2)

theorem list_device_frame_eq (dev : device) (hr : registered dev = true)
    (hl : (listing_payload dev).length < 80) :
    list_device_frame dev = some (listing_frame dev) := by
  obtain ⟨b, hb, hbz⟩ := registered_board hr
  cases hn : dev.name with
  | none =>
    have htext : listing_payload dev = b := by simp [listing_payload, hn, hb]
    rw [htext] at hl
    simp [list_device_frame, hb, hn, fmt_s, c_string_of_no_nul b hbz, write_snprintf, hl,
      listing_frame, htext]
  | some n =>
    have hnz := registered_name hr n hn
    have htext : listing_payload dev = b ++ List.replicate (20 - b.length) 32 ++ [32] ++ n := by
      simp [listing_payload, hn, hb]
    rw [htext] at hl
    have hl2 : (b ++ (List.replicate (20 - b.length) 32 ++ 32 :: n)).length < 80 := by
      simpa using hl
    simp only [list_device_frame, hb, hn, fmt_s, fmt_s_left, c_string_of_no_nul b hbz,
      c_string_of_no_nul n hnz, write_snprintf, List.append_assoc, hl2, if_true, listing_frame,
      htext, List.singleton_append]

/-- C13, as stated, fails for a long name: for board `b` and a name of 59 letters `x` the
formatted line is 80 bytes long; the frame announces 80 bytes and carries the first 79 bytes
of the line followed by a NUL, not the line. With a name of 100 letters the line is 121
bytes long and the write of 121 bytes reads past the 80-byte buffer. -/
theorem device_listing_long_name :
    (listing_payload (catalog_device (cstr "b") (some (List.replicate 59 120)) none)).length
      = 80 ∧
    device_list_devices [catalog_device (cstr "b") (some (List.replicate 59 120)) none] =
      some [{ type := .MSG_LIST_DEVICES, len := 80,
              data := cstr "b" ++ List.replicate 19 32 ++ [32] ++ List.replicate 58 120 ++ [0] },
            { type := .MSG_LIST_DEVICES, len := 0, data := [] }] ∧
    device_list_devices [catalog_device (cstr "b") (some (List.replicate 100 120)) none] =
      none := by
  decide

/-- C13, amended. Device listing: for every registry contents in which each line (the board
left-justified and space-padded to 20 columns, one space, then the name; or the board alone
when no name is set) is shorter than 80 bytes, `device_list_devices` emits, for the
descriptors in registry order, exactly one LIST_DEVICES frame each, whose payload is that
line and whose length field is the number of payload bytes, followed by exactly one
LIST_DEVICES frame of length 0. -/
theorem device_listing (devices : List device)
    (h : ∀ d ∈ devices, registered d = true ∧ (listing_payload d).length < 80) :
    device_list_devices devices =
      some (devices.map listing_frame ++
        [{ type := .MSG_LIST_DEVICES, len := 0, data := [] }]) := by
  have hframes : list_device_frames devices = some (devices.map listing_frame) := by
    induction devices with
    | nil => rfl
    | cons d ds ih =>
      have hd := h d (by simp)
      simp [list_device_frames, list_device_frame_eq d hd.1 hd.2,
        ih (fun x hx => h x (by simp [hx]))]
  simp [device_list_devices, hframes]

/-- C13 at a registry of a named and an unnamed board. -/
theorem device_listing_witness :
    device_list_devices [catalog_device (cstr "apq8016") (some (cstr "DragonBoard")) none,
        catalog_device (cstr "apq8096") none none] =
      some [{ type := .MSG_LIST_DEVICES, len := 32,
              data := cstr "apq8016              DragonBoard" },
            { type := .MSG_LIST_DEVICES, len := 7, data := cstr "apq8096" },
            { type := .MSG_LIST_DEVICES, len := 0, data := [] }] :=
  device_listing _ (by decide)

theorem strncmp_eq_prefix (data : List Nat) (hd : ∀ c ∈ data, c ≠ 0) :
    ∀ b : List Nat, strncmp_eq b data data.length = data.isPrefixOf b := by
  induction data with
  | nil => intro b; simp [strncmp_eq]
  | cons x xs ih =>
    intro b
    have hx : x ≠ 0 := hd x (by simp)
    have ih1 := ih (fun c hc => hd c (by simp [hc]))
    cases b with
    | nil =>
      have : ¬ (0 = x) := fun h => hx h.symm
      simp [strncmp_eq, peek, this, List.isPrefixOf]
    | cons y ys =>
      by_cases hyx : y = x
      · subst hyx
        simp [strncmp_eq, peek, hx, ih1 ys, List.isPrefixOf]
      · have : ¬ (x = y) := fun h => hyx h.symm
        simp [strncmp_eq, peek, hyx, List.isPrefixOf, this]

theorem device_info_find_eq (data : List Nat) (hd : ∀ c ∈ data, c ≠ 0) (devices : List device)
    (hreg : ∀ d ∈ devices, registered d = true) :
    device_info_find data devices =
      some ((devices.find? (fun d =>
        data.isPrefixOf (d.board.getD []) && d.description.isSome)).bind
          (fun d => d.description)) := by
  induction devices with
  | nil => rfl
  | cons d ds ih =>
    obtain ⟨b, hb, _⟩ := registered_board (hreg d (by simp))
    have ih1 := ih (fun x hx => hreg x (by simp [hx]))
    simp only [device_info_find, hb, strncmp_eq_prefix data hd b, List.find?_cons,
      Option.getD_some]
    by_cases hc : (data.isPrefixOf b && d.description.isSome) = true
    · simp [hc]
    · have hc1 : (data.isPrefixOf b && d.description.isSome) = false := by simpa using hc
      simp only [hc1, Bool.false_eq_true, if_false, ih1]

/-- C14, as stated, fails when a matching descriptor has an empty description: with
`[{board:"apq8016", description:""}, {board:"apq8096", description:"D"}]`, `info("apq80")`
stops at the first descriptor, whose description is set, and emits an empty payload,
although the second descriptor matches and has the non-empty description `D`. -/
theorem board_info_empty_description :
    device_info [catalog_device (cstr "apq8016") none (some []),
        catalog_device (cstr "apq8096") none (some (cstr "D"))] (cstr "apq80") =
      some [{ type := .MSG_BOARD_INFO, len := 0, data := [] }] := by
  decide

/-- C14, amended. Board info: for every registry contents and every prefix byte string
without NUL, `device_info` emits exactly one BOARD_INFO frame whose payload is the
description of the first descriptor, in registry order, whose board starts with the prefix
bytes and whose description is set; the payload is empty when there is no such descriptor
(or when that description is the empty string), and the length field is the number of
payload bytes. -/
theorem board_info (devices : List device) (data : List Nat)
    (hreg : ∀ d ∈ devices, registered d = true) (hd : ∀ c ∈ data, c ≠ 0) :
    device_info devices data =
      some [{ type := .MSG_BOARD_INFO, len := (info_payload devices data).length,
              data := info_payload devices data }] := by
  unfold device_info info_payload
  rw [device_info_find_eq data hd devices hreg]
  cases hf : devices.find? (fun d =>
      data.isPrefixOf (d.board.getD []) && d.description.isSome) with
  | none => simp
  | some d =>
    have hmem : d ∈ devices := List.mem_of_find?_eq_some hf
    cases hdesc : d.description with
    | none => simp [hdesc]
    | some v =>
      have hv := registered_description (hreg d hmem) v hdesc
      simp [hdesc, c_string_of_no_nul v hv]

/-- C14 at the registry `[{board:"apq8016"}, {board:"apq8096", description:"D"}]` and the
prefix `apq80`: the payload is `D`. -/
theorem board_info_witness :
    device_info [catalog_device (cstr "apq8016") none none,
        catalog_device (cstr "apq8096") none (some (cstr "D"))] (cstr "apq80") =
      some [{ type := .MSG_BOARD_INFO, len := 1, data := cstr "D" }] :=
  board_info _ _ (by decide) (by decide)

theorem strcmp_eq_iff (a b : List Nat) (ha : ∀ c ∈ a, c ≠ 0) (hb : ∀ c ∈ b, c ≠ 0) :
    strcmp_eq a b = true ↔ a = b := by
  simp [strcmp_eq, c_string_of_no_nul a ha, c_string_of_no_nul b hb]

/-- The search loop of `device_open`: it finds the first descriptor whose board equals the
name, and nothing when there is none. -/
theorem device_find_spec (board : List Nat) (hb : ∀ c ∈ board, c ≠ 0) (devices : List device)
    (hreg : ∀ d ∈ devices, registered d = true) :
    ∀ k : Nat,
      (device_find board devices k = .not_found ∧ ∀ d ∈ devices, d.board ≠ some board) ∨
      (∃ pre d post, device_find board devices k = .found (k + pre.length) d ∧
        devices = pre ++ d :: post ∧ d.board = some board ∧
        ∀ x ∈ pre, x.board ≠ some board) := by
  induction devices with
  | nil => intro k; left; simp [device_find]
  | cons d ds ih =>
    intro k
    obtain ⟨b, hdb, hbz⟩ := registered_board (hreg d (by simp))
    by_cases heq : b = board
    · right
      refine ⟨[], d, ds, ?_, rfl, by rw [hdb, heq], by simp⟩
      simp [device_find, hdb, (strcmp_eq_iff b board hbz hb).mpr heq]
    · have hne : strcmp_eq b board = false := by
        cases h : strcmp_eq b board with
        | false => rfl
        | true => exact absurd ((strcmp_eq_iff b board hbz hb).mp h) heq
      have hdne : d.board ≠ some board := by
        rw [hdb]
        intro h
        exact heq (Option.some.inj h)
      rcases ih (fun x hx => hreg x (by simp [hx])) (k + 1) with ⟨h1, h2⟩ | ⟨pre, e, post, h1, h2, h3, h4⟩
      · left
        refine ⟨by simp [device_find, hdb, hne, h1], ?_⟩
        intro x hx
        rcases List.mem_cons.mp hx with rfl | hx
        · exact hdne
        · exact h2 x hx
      · right
        refine ⟨d :: pre, e, post, ?_, by rw [h2]; rfl, h3, ?_⟩
        · simp only [device_find, hdb, hne, Bool.false_eq_true, if_false, h1,
            List.length_cons]
          congr 1
          omega
        · intro x hx
          rcases List.mem_cons.mp hx with rfl | hx
          · exact hdne
          · exact h4 x hx

/-- C15. Board lookup: for every registry of registered descriptors (board set, a C string)
and every requested name, `device_open` returns NULL, which it does before it locks or opens
anything, if and only if no descriptor in the registry has a board equal to the name; and
whenever it opens a descriptor, that descriptor is the first one in registry order whose
board equals the name. -/
theorem board_lookup (env : open_env) (devices : List device) (board : List Nat)
    (hreg : ∀ d ∈ devices, registered d = true) (hb : ∀ c ∈ board, c ≠ 0) :
    (device_open env devices board = .null ↔ ∀ d ∈ devices, d.board ≠ some board) ∧
    (∀ index effects, device_open env devices board = .opened index effects →
      ∃ pre d post, devices = pre ++ d :: post ∧ pre.length = index ∧
        d.board = some board ∧ ∀ x ∈ pre, x.board ≠ some board) := by
  rcases device_find_spec board hb devices hreg 0 with ⟨h1, h2⟩ | ⟨pre, d, post, h1, h2, h3, h4⟩
  · refine ⟨⟨fun _ => h2, fun _ => by simp [device_open, h1]⟩, ?_⟩
    intro index effects h
    simp [device_open, h1] at h
  · have hmem : d ∈ devices := by rw [h2]; simp
    constructor
    · constructor
      · intro h
        exfalso
        simp only [device_open, h1] at h
        cases hc : d.console_ops with
        | none => simp [hc] at h
        | some cops =>
          simp only [hc] at h
          cases hl : device_lock env d with
          | none => simp [hl] at h
          | some r =>
            cases r with
            | error st => simp [hl] at h
            | ok locked =>
              simp only [hl] at h
              split_ifs at h
      · intro h
        exact absurd h3 (h d hmem)
    · intro index effects h
      refine ⟨pre, d, post, h2, ?_, h3, h4⟩
      simp only [device_open, h1, Nat.zero_add] at h
      cases hc : d.console_ops with
      | none => simp [hc] at h
      | some cops =>
        simp only [hc] at h
        cases hl : device_lock env d with
        | none => simp [hl] at h
        | some r =>
          cases r with
          | error st => simp [hl] at h
          | ok locked =>
            simp only [hl] at h
            split_ifs at h
            all_goals
              simp only [DeviceOpen.opened.injEq] at h
              exact h.1

/-- C15 at a registry with the boards `apq8016`, `apq8096`, `apq8096`: the name `apq8096`
opens the descriptor at index 1, the proper prefix `apq80` opens nothing. -/
theorem board_lookup_witness :
    device_open { lock_ok := true, control_open_ok := true }
        [catalog_device (cstr "apq8016") none none, catalog_device (cstr "apq8096") none none,
         catalog_device (cstr "apq8096") (some (cstr "second")) none] (cstr "apq80") = .null ∧
    device_open { lock_ok := true, control_open_ok := true }
        [catalog_device (cstr "apq8016") none none, catalog_device (cstr "apq8096") none none,
         catalog_device (cstr "apq8096") (some (cstr "second")) none] (cstr "apq8096") =
      .opened 1 [OpenEffect.lock (cstr "/tmp/cdba-apq8096.lock"),
                 OpenEffect.fastboot_open none] :=
  ⟨(board_lookup { lock_ok := true, control_open_ok := true }
      [catalog_device (cstr "apq8016") none none, catalog_device (cstr "apq8096") none none,
       catalog_device (cstr "apq8096") (some (cstr "second")) none] (cstr "apq80")
      (by decide) (by decide)).1.mpr (by decide), by decide⟩

/-! ## Catalog parser -/

theorem copy_scalar_clean (v : List Nat) : ∀ c ∈ copy_scalar v, c ≠ 0 := by
  intro c hc
  exact c_string_clean v c (List.mem_of_mem_take hc)

theorem c_string_copy_scalar (v : List Nat) : c_string (copy_scalar v) = copy_scalar v :=
  c_string_of_no_nul _ (copy_scalar_clean v)

theorem copy_scalar_eq (v : List Nat) (hz : ∀ c ∈ v, c ≠ 0) (hl : v.length < TOKEN_LENGTH) :
    copy_scalar v = v := by
  unfold copy_scalar
  rw [c_string_of_no_nul v hz]
  exact List.take_of_length_le (by unfold TOKEN_LENGTH at *; omega)

theorem nextsym_load (x : yaml_event) (l : List yaml_event) (f : Bool) (hl : l ≠ []) :
    nextsym (load (x :: l) f) = .ok (load l f) := by
  cases l with
  | nil => exact absurd rfl hl
  | cons y ys => rfl

theorem nextsym_first (x : yaml_event) (l : List yaml_event) (f : Bool) (ev : yaml_event) :
    nextsym (device_parser_t.mk (x :: l) f ev) = .ok (load (x :: l) f) := rfl

theorem accept_load_hit (x : yaml_event) (l : List yaml_event) (f : Bool)
    (t : yaml_event_type) (hl : l ≠ []) (ht : x.type = t) :
    accept (load (x :: l) f) t = .ok (true, copy_scalar x.value, load l f) := by
  have hn := nextsym_load x l f hl
  unfold accept
  rw [hn]
  simp [load, ht]

theorem accept_load_miss (x : yaml_event) (l : List yaml_event) (f : Bool)
    (t : yaml_event_type) (ht : x.type ≠ t) :
    accept (load (x :: l) f) t = .ok (false, [], load (x :: l) f) := by
  unfold accept
  simp [load, ht]

theorem expect_load_hit (x : yaml_event) (l : List yaml_event) (f : Bool)
    (t : yaml_event_type) (hl : l ≠ []) (ht : x.type = t) :
    expect (load (x :: l) f) t = .ok (copy_scalar x.value, load l f) := by
  unfold expect
  rw [accept_load_hit x l f t hl ht]

theorem render_entries_length (entries : List (List Nat × List Nat)) :
    (render_entries entries).length = 2 * entries.length := by
  induction entries with
  | nil => rfl
  | cons entry entries ih => simp [render_entries, ih]; omega

/-- On the events of a mapping's entries, followed by an event that is no scalar, the loop of
`parse_board` applies its body to the entries in order and stops at that event. -/
theorem parse_board_loop_render (e : yaml_event) (rest : List yaml_event) (f : Bool)
    (he : e.type ≠ .YAML_SCALAR_EVENT) :
    ∀ (entries : List (List Nat × List Nat)) (dev : descriptor) (fuel : Nat),
      entries.length < fuel →
      parse_board_loop fuel (load (render_entries entries ++ e :: rest) f) dev =
        match apply_entries dev entries with
        | .ok dev1 => .ok (load (e :: rest) f, dev1)
        | .exit status => .exit status
        | .out_of_fuel => .out_of_fuel := by
  intro entries
  induction entries with
  | nil =>
    intro dev fuel hf
    obtain ⟨n, rfl⟩ : ∃ n, fuel = n + 1 := ⟨fuel - 1, by omega⟩
    simp only [render_entries, List.nil_append, parse_board_loop, apply_entries]
    rw [accept_load_miss e rest f _ he]
  | cons entry entries ih =>
    intro dev fuel hf
    obtain ⟨n, rfl⟩ : ∃ n, fuel = n + 1 := ⟨fuel - 1, by omega⟩
    simp only [List.length_cons] at hf
    simp only [render_entries, List.cons_append, parse_board_loop, apply_entries]
    rw [accept_load_hit (scalar entry.1) _ f .YAML_SCALAR_EVENT (by simp) rfl]
    simp only
    rw [expect_load_hit (scalar entry.2) _ f .YAML_SCALAR_EVENT
      (by cases entries <;> simp [render_entries]) rfl]
    simp only [scalar]
    cases hk : parse_board_key dev (copy_scalar entry.1) (copy_scalar entry.2) with
    | ok dev1 => simp only; exact ih dev1 n (by omega)
    | exit status => rfl
    | out_of_fuel => rfl

/-- On the events of a mapping's entries, followed by an event that is no scalar,
`parse_board` exits, or adds the descriptor that the entries describe when it is
sufficiently defined. -/
theorem parse_board_render (entries : List (List Nat × List Nat)) (e : yaml_event)
    (rest : List yaml_event) (f : Bool) (devices : List descriptor)
    (he : e.type ≠ .YAML_SCALAR_EVENT) :
    parse_board (load (render_entries entries ++ e :: rest) f) devices =
      match apply_entries descriptor.calloc entries with
      | .ok dev =>
        if insufficiently_defined dev then .exit 1
        else .ok (load (e :: rest) f, device_add devices dev)
      | .exit status => .exit status
      | .out_of_fuel => .out_of_fuel := by
  unfold parse_board
  rw [parse_board_loop_render e rest f he entries descriptor.calloc _ (by
    have h := render_entries_length entries
    cases entries with
    | nil => simp
    | cons entry entries =>
      simp only [render_entries, List.cons_append, load, List.length_cons, List.length_append,
        render_entries_length]
      omega)]
  cases apply_entries descriptor.calloc entries <;> rfl

theorem render_boards_length (boards : List (List (List Nat × List Nat))) :
    boards.length ≤ (render_boards boards).length := by
  induction boards with
  | nil => simp
  | cons entries boards ih =>
    simp only [render_boards, render_board, List.length_cons, List.length_append]
    omega

/-- On the events of a sequence of mappings, followed by an event that starts no mapping,
the loop of `device_parser` reads the mappings in order and stops at that event. -/
theorem device_parser_boards_render (e : yaml_event) (rest : List yaml_event) (f : Bool)
    (he : e.type ≠ .YAML_MAPPING_START_EVENT) :
    ∀ (boards : List (List (List Nat × List Nat))) (devices : List descriptor) (fuel : Nat),
      boards.length < fuel →
      device_parser_boards fuel (load (render_boards boards ++ e :: rest) f) devices =
        match add_boards devices boards with
        | .ok devices1 => .ok (load (e :: rest) f, devices1)
        | .exit status => .exit status
        | .out_of_fuel => .out_of_fuel := by
  intro boards
  induction boards with
  | nil =>
    intro devices fuel hf
    obtain ⟨n, rfl⟩ : ∃ n, fuel = n + 1 := ⟨fuel - 1, by omega⟩
    simp only [render_boards, List.nil_append, device_parser_boards, add_boards]
    rw [accept_load_miss e rest f _ he]
  | cons entries boards ih =>
    intro devices fuel hf
    obtain ⟨n, rfl⟩ : ∃ n, fuel = n + 1 := ⟨fuel - 1, by omega⟩
    simp only [List.length_cons] at hf
    have hshape : render_boards (entries :: boards) ++ e :: rest =
        event .YAML_MAPPING_START_EVENT ::
          (render_entries entries ++
            event .YAML_MAPPING_END_EVENT :: (render_boards boards ++ e :: rest)) := by
      simp [render_boards, render_board]
    rw [hshape]
    simp only [device_parser_boards, add_boards]
    rw [accept_load_hit (event .YAML_MAPPING_START_EVENT) _ f .YAML_MAPPING_START_EVENT
      (by simp) rfl]
    simp only
    rw [parse_board_render entries _ _ f devices (by simp [event])]
    cases hk : apply_entries descriptor.calloc entries with
    | ok dev =>
      simp only
      by_cases hi : insufficiently_defined dev = true
      · simp [hi]
      · simp only [hi, Bool.false_eq_true, if_false]
        rw [expect_load_hit (event .YAML_MAPPING_END_EVENT) _ f .YAML_MAPPING_END_EVENT
          (by simp) rfl]
        simp only
        exact ih (device_add devices dev) n (by omega)
    | exit status => rfl
    | out_of_fuel => rfl

/-- On the events of a configuration document, `device_parser` reads the inner mappings in
order. -/
theorem device_parser_render (root : List Nat) (boards : List (List (List Nat × List Nat)))
    (devices : List descriptor) :
    device_parser_events (render_document root boards) false devices = add_boards devices boards := by
  unfold device_parser_events render_document
  simp only [List.cons_append, List.nil_append]
  rw [nextsym_first]
  simp only
  unfold device_parser_document
  rw [expect_load_hit _ _ false .YAML_STREAM_START_EVENT (by simp) rfl]
  simp only
  rw [expect_load_hit _ _ false .YAML_DOCUMENT_START_EVENT (by simp) rfl]
  simp only
  rw [expect_load_hit _ _ false .YAML_MAPPING_START_EVENT (by simp) rfl]
  simp only
  rw [accept_load_hit (scalar root) _ false .YAML_SCALAR_EVENT (by simp) rfl]
  simp only [if_true]
  rw [expect_load_hit _ _ false .YAML_SEQUENCE_START_EVENT (by simp) rfl]
  simp only
  rw [device_parser_boards_render _ _ false (by simp [event]) boards devices _ (by
    have h := render_boards_length boards
    cases boards with
    | nil => simp
    | cons entries boards =>
      simp only [render_boards, render_board, List.cons_append, load, List.length_cons,
        List.length_append] at h ⊢
      omega)]
  cases add_boards devices boards with
  | ok devices1 =>
    simp only
    rw [expect_load_hit _ _ false .YAML_SEQUENCE_END_EVENT (by simp) rfl]
    simp only
    rw [expect_load_hit _ _ false .YAML_MAPPING_END_EVENT (by simp) rfl]
    simp only
    rfl
  | exit status => rfl
  | out_of_fuel => rfl

theorem strchr_split_shorter (c : Nat) : ∀ (l tok rest : List Nat),
    strchr_split c l = some (tok, rest) → rest.length < l.length := by
  intro l
  induction l with
  | nil => intro tok rest h; simp [strchr_split] at h
  | cons x xs ih =>
    intro tok rest h
    simp only [strchr_split] at h
    split_ifs at h with h0 hc
    · simp only [Option.some.injEq, Prod.mk.injEq] at h
      rw [← h.2]
      simp
    · cases hs : strchr_split c xs with
      | none => simp [hs] at h
      | some r =>
        simp only [hs, Option.some.injEq, Prod.mk.injEq] at h
        have := ih r.1 r.2 (by rw [hs])
        rw [← h.2]
        simp only [List.length_cons]
        omega

/-- The loop of `parse_reset_sequence` ends within `pp.length + 1` iterations, and when it
exits the status is 1. -/
theorem reset_loop_ends : ∀ (fuel : Nat) (pp : List Nat) (i : Nat) (steps : List reset_step),
    pp.length < fuel →
      reset_loop fuel pp i steps = .exit 1 ∨ ∃ j out, reset_loop fuel pp i steps = .left j out := by
  intro fuel
  induction fuel with
  | zero => intro pp i steps h; omega
  | succ n ih =>
    intro pp i steps h
    rw [reset_loop_succ]
    split_ifs with hi
    · cases hs : strchr_split 59 pp with
      | none => exact Or.inr ⟨i, steps, rfl⟩
      | some r =>
        obtain ⟨tok, rest⟩ := r
        have hlen := strchr_split_shorter 59 pp tok rest hs
        have hr : rest.length < n := by omega
        simp only
        split_ifs
        · exact ih rest _ _ hr
        · exact ih rest _ _ hr
        · exact ih rest _ _ hr
        · exact ih rest _ _ hr
        · exact Or.inl rfl
        · exact ih rest _ _ hr
    · exact Or.inr ⟨i, steps, rfl⟩

/-- The function `parse_reset_sequence` returns or exits with status 1. -/
theorem parse_reset_sequence_ends (dev : reset_config) (seq : List Nat) :
    parse_reset_sequence dev seq = .exit 1 ∨ ∃ out, parse_reset_sequence dev seq = .done out := by
  unfold parse_reset_sequence
  rcases reset_loop_ends (seq.length + 1) seq 0 dev.reset_sequence (by omega) with h | ⟨j, out, h⟩
  · rw [h]
    exact Or.inl rfl
  · rw [h]
    simp only
    split_ifs
    · exact Or.inl rfl
    · exact Or.inr ⟨_, rfl⟩

/-- The body of the loop of `parse_board` returns or exits with status 1. -/
theorem parse_board_key_ends (dev : descriptor) (key value : List Nat) :
    parse_board_key dev key value = .exit 1 ∨ ∃ dev1, parse_board_key dev key value = .ok dev1 := by
  unfold parse_board_key
  by_cases h0 : key = cstr "board"
  · rw [if_pos h0]; exact Or.inr ⟨_, rfl⟩
  rw [if_neg h0]
  by_cases h1 : key = cstr "name"
  · rw [if_pos h1]; exact Or.inr ⟨_, rfl⟩
  rw [if_neg h1]
  by_cases h2 : key = cstr "cdba"
  · rw [if_pos h2]; exact Or.inr ⟨_, rfl⟩
  rw [if_neg h2]
  by_cases h3 : key = cstr "conmux"
  · rw [if_pos h3]; exact Or.inr ⟨_, rfl⟩
  rw [if_neg h3]
  by_cases h4 : key = cstr "alpaca"
  · rw [if_pos h4]; exact Or.inr ⟨_, rfl⟩
  rw [if_neg h4]
  by_cases h5 : key = cstr "ftdi_gpio"
  · rw [if_pos h5]; exact Or.inr ⟨_, rfl⟩
  rw [if_neg h5]
  by_cases h6 : key = cstr "qcomlt_debug_board"
  · rw [if_pos h6]; exact Or.inr ⟨_, rfl⟩
  rw [if_neg h6]
  by_cases h7 : key = cstr "console"
  · rw [if_pos h7]; exact Or.inr ⟨_, rfl⟩
  rw [if_neg h7]
  by_cases h8 : key = cstr "voltage"
  · rw [if_pos h8]; exact Or.inr ⟨_, rfl⟩
  rw [if_neg h8]
  by_cases h9 : key = cstr "fastboot"
  · rw [if_pos h9]; exact Or.inr ⟨_, rfl⟩
  rw [if_neg h9]
  by_cases h10 : key = cstr "fastboot_set_active"
  · rw [if_pos h10]; exact Or.inr ⟨_, rfl⟩
  rw [if_neg h10]
  by_cases h11 : key = cstr "broken_fastboot_boot"
  · rw [if_pos h11]; exact Or.inr ⟨_, rfl⟩
  rw [if_neg h11]
  by_cases h12 : key = cstr "description"
  · rw [if_pos h12]; exact Or.inr ⟨_, rfl⟩
  rw [if_neg h12]
  by_cases h13 : key = cstr "fastboot_key_timeout"
  · rw [if_pos h13]; exact Or.inr ⟨_, rfl⟩
  rw [if_neg h13]
  by_cases h14 : key = cstr "usb_always_on"
  · rw [if_pos h14]; exact Or.inr ⟨_, rfl⟩
  rw [if_neg h14]
  by_cases h15 : key = cstr "reset_sequence"
  · rw [if_pos h15]
    rcases parse_reset_sequence_ends dev.reset value with h | ⟨out, h⟩
    · rw [h]; exact Or.inl rfl
    · rw [h]; exact Or.inr ⟨_, rfl⟩
  rw [if_neg h15]
  exact Or.inl rfl

theorem apply_entries_ends : ∀ (entries : List (List Nat × List Nat)) (dev : descriptor),
    apply_entries dev entries = .exit 1 ∨ ∃ dev1, apply_entries dev entries = .ok dev1 := by
  intro entries
  induction entries with
  | nil => intro dev; exact Or.inr ⟨dev, rfl⟩
  | cons entry entries ih =>
    intro dev
    simp only [apply_entries]
    rcases parse_board_key_ends dev (copy_scalar entry.1) (copy_scalar entry.2) with
      h | ⟨dev1, h⟩
    · rw [h]; exact Or.inl rfl
    · rw [h]; exact ih dev1

/-- What the body of the loop of `parse_board` leaves in the fields `board`, `name`,
`description`, `serial`, `console_dev` and `open`. -/
theorem parse_board_key_fields (dev dev1 : descriptor) (key value : List Nat)
    (h : parse_board_key dev key value = .ok dev1) :
    dev1.board = (if key = cstr "board" then some (c_string value) else dev.board) ∧
    dev1.name = (if key = cstr "name" then some (c_string value) else dev.name) ∧
    dev1.description =
      (if key = cstr "description" then some (c_string value) else dev.description) ∧
    dev1.serial = (if key = cstr "fastboot" then some (c_string value) else dev.serial) ∧
    dev1.console_dev =
      (if key = cstr "console" then some (c_string value) else dev.console_dev) ∧
    dev1.open_.isSome = (control_keys.contains key || dev.open_.isSome) := by
  unfold parse_board_key at h
  by_cases h0 : key = cstr "board"
  · rw [if_pos h0] at h
    subst h0
    simp only [Run.ok.injEq] at h
    subst h
    exact ⟨(if_pos rfl).symm, (if_neg (by decide)).symm,
      (if_neg (by decide)).symm, (if_neg (by decide)).symm,
      (if_neg (by decide)).symm, rfl⟩
  rw [if_neg h0] at h
  by_cases h1 : key = cstr "name"
  · rw [if_pos h1] at h
    subst h1
    simp only [Run.ok.injEq] at h
    subst h
    exact ⟨(if_neg (by decide)).symm, (if_pos rfl).symm,
      (if_neg (by decide)).symm, (if_neg (by decide)).symm,
      (if_neg (by decide)).symm, rfl⟩
  rw [if_neg h1] at h
  by_cases h2 : key = cstr "cdba"
  · rw [if_pos h2] at h
    subst h2
    simp only [Run.ok.injEq] at h
    subst h
    exact ⟨(if_neg (by decide)).symm, (if_neg (by decide)).symm,
      (if_neg (by decide)).symm, (if_neg (by decide)).symm,
      (if_neg (by decide)).symm, rfl⟩
  rw [if_neg h2] at h
  by_cases h3 : key = cstr "conmux"
  · rw [if_pos h3] at h
    subst h3
    simp only [Run.ok.injEq] at h
    subst h
    exact ⟨(if_neg (by decide)).symm, (if_neg (by decide)).symm,
      (if_neg (by decide)).symm, (if_neg (by decide)).symm,
      (if_neg (by decide)).symm, rfl⟩
  rw [if_neg h3] at h
  by_cases h4 : key = cstr "alpaca"
  · rw [if_pos h4] at h
    subst h4
    simp only [Run.ok.injEq] at h
    subst h
    exact ⟨(if_neg (by decide)).symm, (if_neg (by decide)).symm,
      (if_neg (by decide)).symm, (if_neg (by decide)).symm,
      (if_neg (by decide)).symm, rfl⟩
  rw [if_neg h4] at h
  by_cases h5 : key = cstr "ftdi_gpio"
  · rw [if_pos h5] at h
    subst h5
    simp only [Run.ok.injEq] at h
    subst h
    exact ⟨(if_neg (by decide)).symm, (if_neg (by decide)).symm,
      (if_neg (by decide)).symm, (if_neg (by decide)).symm,
      (if_neg (by decide)).symm, rfl⟩
  rw [if_neg h5] at h
  by_cases h6 : key = cstr "qcomlt_debug_board"
  · rw [if_pos h6] at h
    subst h6
    simp only [Run.ok.injEq] at h
    subst h
    exact ⟨(if_neg (by decide)).symm, (if_neg (by decide)).symm,
      (if_neg (by decide)).symm, (if_neg (by decide)).symm,
      (if_neg (by decide)).symm, rfl⟩
  rw [if_neg h6] at h
  by_cases h7 : key = cstr "console"
  · rw [if_pos h7] at h
    subst h7
    simp only [Run.ok.injEq] at h
    subst h
    exact ⟨(if_neg (by decide)).symm, (if_neg (by decide)).symm,
      (if_neg (by decide)).symm, (if_neg (by decide)).symm,
      (if_pos rfl).symm, rfl⟩
  rw [if_neg h7] at h
  by_cases h8 : key = cstr "voltage"
  · rw [if_pos h8] at h
    subst h8
    simp only [Run.ok.injEq] at h
    subst h
    exact ⟨(if_neg (by decide)).symm, (if_neg (by decide)).symm,
      (if_neg (by decide)).symm, (if_neg (by decide)).symm,
      (if_neg (by decide)).symm, rfl⟩
  rw [if_neg h8] at h
  by_cases h9 : key = cstr "fastboot"
  · rw [if_pos h9] at h
    subst h9
    simp only [Run.ok.injEq] at h
    subst h
    exact ⟨(if_neg (by decide)).symm, (if_neg (by decide)).symm,
      (if_neg (by decide)).symm, (if_pos rfl).symm,
      (if_neg (by decide)).symm, rfl⟩
  rw [if_neg h9] at h
  by_cases h10 : key = cstr "fastboot_set_active"
  · rw [if_pos h10] at h
    subst h10
    simp only [Run.ok.injEq] at h
    subst h
    exact ⟨(if_neg (by decide)).symm, (if_neg (by decide)).symm,
      (if_neg (by decide)).symm, (if_neg (by decide)).symm,
      (if_neg (by decide)).symm, rfl⟩
  rw [if_neg h10] at h
  by_cases h11 : key = cstr "broken_fastboot_boot"
  · rw [if_pos h11] at h
    subst h11
    simp only [Run.ok.injEq] at h
    subst h
    by_cases hv : strcmp_eq value (cstr "true") = true
    · rw [if_pos hv]
      exact ⟨(if_neg (by decide)).symm, (if_neg (by decide)).symm,
        (if_neg (by decide)).symm, (if_neg (by decide)).symm,
        (if_neg (by decide)).symm, rfl⟩
    · rw [if_neg hv]
      exact ⟨(if_neg (by decide)).symm, (if_neg (by decide)).symm,
        (if_neg (by decide)).symm, (if_neg (by decide)).symm,
        (if_neg (by decide)).symm, rfl⟩
  rw [if_neg h11] at h
  by_cases h12 : key = cstr "description"
  · rw [if_pos h12] at h
    subst h12
    simp only [Run.ok.injEq] at h
    subst h
    exact ⟨(if_neg (by decide)).symm, (if_neg (by decide)).symm,
      (if_pos rfl).symm, (if_neg (by decide)).symm,
      (if_neg (by decide)).symm, rfl⟩
  rw [if_neg h12] at h
  by_cases h13 : key = cstr "fastboot_key_timeout"
  · rw [if_pos h13] at h
    subst h13
    simp only [Run.ok.injEq] at h
    subst h
    exact ⟨(if_neg (by decide)).symm, (if_neg (by decide)).symm,
      (if_neg (by decide)).symm, (if_neg (by decide)).symm,
      (if_neg (by decide)).symm, rfl⟩
  rw [if_neg h13] at h
  by_cases h14 : key = cstr "usb_always_on"
  · rw [if_pos h14] at h
    subst h14
    simp only [Run.ok.injEq] at h
    subst h
    exact ⟨(if_neg (by decide)).symm, (if_neg (by decide)).symm,
      (if_neg (by decide)).symm, (if_neg (by decide)).symm,
      (if_neg (by decide)).symm, rfl⟩
  rw [if_neg h14] at h
  by_cases h15 : key = cstr "reset_sequence"
  · rw [if_pos h15] at h
    subst h15
    cases hr : parse_reset_sequence dev.reset value with
    | done reset =>
      rw [hr] at h
      simp only [Run.ok.injEq] at h
      subst h
      exact ⟨(if_neg (by decide)).symm, (if_neg (by decide)).symm,
        (if_neg (by decide)).symm, (if_neg (by decide)).symm,
        (if_neg (by decide)).symm, rfl⟩
    | exit status => rw [hr] at h; cases h
    | out_of_fuel => rw [hr] at h; cases h
  rw [if_neg h15] at h
  cases h

theorem last_value_step (a : Option (List Nat)) (c : Prop) [Decidable c] (x : List Nat)
    (d : Option (List Nat)) :
    a.or (if c then some x else d) = (a.or (if c then some x else none)).or d := by
  cases a <;> by_cases hc : c <;> simp [hc]

/-- The fields `board`, `name`, `description`, `serial`, `console_dev` and `open` after the
entries of a mapping have been applied: the copy of the value of the last entry with the
key, or the field as it was. -/
theorem apply_entries_fields : ∀ (entries : List (List Nat × List Nat)) (dev dev1 : descriptor),
    apply_entries dev entries = .ok dev1 →
      dev1.board = (last_value (cstr "board") entries).or dev.board ∧
      dev1.name = (last_value (cstr "name") entries).or dev.name ∧
      dev1.description = (last_value (cstr "description") entries).or dev.description ∧
      dev1.serial = (last_value (cstr "fastboot") entries).or dev.serial ∧
      dev1.console_dev = (last_value (cstr "console") entries).or dev.console_dev ∧
      dev1.open_.isSome = (has_control_key entries || dev.open_.isSome) := by
  intro entries
  induction entries with
  | nil =>
    intro dev dev1 h
    simp only [apply_entries, Run.ok.injEq] at h
    subst h
    simp [last_value, has_control_key]
  | cons entry entries ih =>
    intro dev dev1 h
    simp only [apply_entries] at h
    cases hk : parse_board_key dev (copy_scalar entry.1) (copy_scalar entry.2) with
    | exit status => rw [hk] at h; cases h
    | out_of_fuel => rw [hk] at h; cases h
    | ok dev2 =>
      rw [hk] at h
      obtain ⟨i1, i2, i3, i4, i5, i6⟩ := ih dev2 dev1 h
      obtain ⟨k1, k2, k3, k4, k5, k6⟩ :=
        parse_board_key_fields dev dev2 (copy_scalar entry.1) (copy_scalar entry.2) hk
      rw [c_string_copy_scalar] at k1 k2 k3 k4 k5
      refine ⟨?_, ?_, ?_, ?_, ?_, ?_⟩
      · rw [i1, k1]; exact last_value_step _ _ _ _
      · rw [i2, k2]; exact last_value_step _ _ _ _
      · rw [i3, k3]; exact last_value_step _ _ _ _
      · rw [i4, k4]; exact last_value_step _ _ _ _
      · rw [i5, k5]; exact last_value_step _ _ _ _
      · rw [i6, k6]
        simp only [has_control_key, List.any_cons]
        cases control_keys.contains (copy_scalar entry.1) <;>
          cases entries.any (fun entry => control_keys.contains (copy_scalar entry.1)) <;> rfl

/-- The descriptor that the entries of a mapping describe is insufficiently defined exactly
when a `board` entry, a `fastboot` entry, or both a control-driver entry and a `console`
entry are missing. -/
theorem insufficient_iff_missing (entries : List (List Nat × List Nat)) (dev : descriptor)
    (h : apply_entries descriptor.calloc entries = .ok dev) :
    insufficiently_defined dev = missing_entries entries := by
  obtain ⟨hb, _, _, hs, hc, ho⟩ := apply_entries_fields entries descriptor.calloc dev h
  have e1 : descriptor.calloc.board = none := rfl
  have e2 : descriptor.calloc.serial = none := rfl
  have e3 : descriptor.calloc.console_dev = none := rfl
  have e4 : descriptor.calloc.open_.isSome = false := rfl
  rw [e1, Option.or_none] at hb
  rw [e2, Option.or_none] at hs
  rw [e3, Option.or_none] at hc
  rw [e4, Bool.or_false] at ho
  unfold insufficiently_defined missing_entries
  rw [hb, hs, hc, ho]
  cases has_control_key entries <;> cases last_value (cstr "console") entries <;> simp

/-- The boards of the registry after the mappings have been read: one per mapping, in
order. -/
theorem add_boards_boards : ∀ (boards : List (List (List Nat × List Nat)))
    (devices devices1 : List descriptor), add_boards devices boards = .ok devices1 →
      devices1.map (fun dev => dev.board) =
        devices.map (fun dev => dev.board) ++ boards.map (last_value (cstr "board")) := by
  intro boards
  induction boards with
  | nil =>
    intro devices devices1 h
    simp only [add_boards, Run.ok.injEq] at h
    subst h
    simp
  | cons entries boards ih =>
    intro devices devices1 h
    simp only [add_boards] at h
    cases hk : apply_entries descriptor.calloc entries with
    | exit status => rw [hk] at h; cases h
    | out_of_fuel => rw [hk] at h; cases h
    | ok dev =>
      rw [hk] at h
      simp only at h
      by_cases hi : insufficiently_defined dev = true
      · rw [if_pos hi] at h; cases h
      · rw [if_neg hi] at h
        have hb := (apply_entries_fields entries descriptor.calloc dev hk).1
        have e1 : descriptor.calloc.board = none := rfl
        rw [e1, Option.or_none] at hb
        rw [ih _ _ h]
        simp [device_add, list_add, hb]

/-! ### Catalog string keys -/

/-- C11, counterexample: the mapping `board: foo`, `serial: SN123`, `conmux: boardlab.foo` is
not accepted. `parse_board` has no key `serial`: the entry is an unknown key and the process
exits with status 1, for the mapping alone and for a document that holds it. -/
theorem catalog_serial_key_rejected :
    parse_board
        (load (render_entries [(cstr "board", cstr "foo"), (cstr "serial", cstr "SN123"),
            (cstr "conmux", cstr "boardlab.foo")] ++
          [event .YAML_MAPPING_END_EVENT, event .YAML_SEQUENCE_END_EVENT]) false) [] = .exit 1 ∧
    device_parser_events
        (render_document (cstr "devices")
          [[(cstr "board", cstr "foo"), (cstr "serial", cstr "SN123"),
            (cstr "conmux", cstr "boardlab.foo")]]) false [] = .exit 1 ∧
    parse_board_key descriptor.calloc (cstr "serial") (cstr "SN123") = .exit 1 := by
  decide

/-- C11 (amended): when `parse_board` adds a descriptor for the entries of an inner mapping,
its fields `board`, `name` and `description` hold the copy of the value of the last entry
with that key (none when there is no such entry), and its field `serial` holds the copy of
the value of the last entry with the key `fastboot`. An entry with one of these four keys is
accepted for every value and stores the C string of the value; an entry with the key `serial`
makes the process exit with status 1. The copy of a value is the value itself when it is a C
string shorter than `TOKEN_LENGTH` bytes. -/
theorem catalog_string_keys (entries : List (List Nat × List Nat)) (e : yaml_event)
    (rest : List yaml_event) (f : Bool) (devices : List descriptor)
    (dp1 : device_parser_t) (devices1 : List descriptor)
    (he : e.type ≠ .YAML_SCALAR_EVENT)
    (h : parse_board (load (render_entries entries ++ e :: rest) f) devices =
      .ok (dp1, devices1)) :
    (∃ dev, devices1 = device_add devices dev ∧
      dev.board = last_value (cstr "board") entries ∧
      dev.name = last_value (cstr "name") entries ∧
      dev.description = last_value (cstr "description") entries ∧
      dev.serial = last_value (cstr "fastboot") entries) ∧
    (∀ (d : descriptor) (value : List Nat),
      parse_board_key d (cstr "board") value = .ok { d with board := some (c_string value) } ∧
      parse_board_key d (cstr "name") value = .ok { d with name := some (c_string value) } ∧
      parse_board_key d (cstr "description") value =
        .ok { d with description := some (c_string value) } ∧
      (∃ d1, parse_board_key d (cstr "fastboot") value = .ok d1 ∧
        d1.serial = some (c_string value)) ∧
      parse_board_key d (cstr "serial") value = .exit 1) ∧
    (∀ v : List Nat, (∀ c ∈ v, c ≠ 0) → v.length < TOKEN_LENGTH → copy_scalar v = v) := by
  refine ⟨?_, fun d value => ⟨rfl, rfl, rfl, ⟨_, rfl, rfl⟩, rfl⟩, copy_scalar_eq⟩
  rw [parse_board_render entries e rest f devices he] at h
  cases hk : apply_entries descriptor.calloc entries with
  | exit status => rw [hk] at h; cases h
  | out_of_fuel => rw [hk] at h; cases h
  | ok dev =>
    rw [hk] at h
    simp only at h
    by_cases hi : insufficiently_defined dev = true
    · rw [if_pos hi] at h; cases h
    · rw [if_neg hi] at h
      simp only [Run.ok.injEq, Prod.mk.injEq] at h
      obtain ⟨hb, hn, hd, hs, _, _⟩ := apply_entries_fields entries descriptor.calloc dev hk
      have e1 : descriptor.calloc.board = none := rfl
      have e2 : descriptor.calloc.name = none := rfl
      have e3 : descriptor.calloc.description = none := rfl
      have e4 : descriptor.calloc.serial = none := rfl
      rw [e1, Option.or_none] at hb
      rw [e2, Option.or_none] at hn
      rw [e3, Option.or_none] at hd
      rw [e4, Option.or_none] at hs
      exact ⟨dev, h.2.symm, hb, hn, hd, hs⟩

theorem catalog_string_keys_witness :
    parse_board
        (load (render_entries [(cstr "board", cstr "foo"), (cstr "fastboot", cstr "SN123"),
            (cstr "conmux", cstr "boardlab.foo")] ++
          event .YAML_MAPPING_END_EVENT :: [event .YAML_SEQUENCE_END_EVENT]) false) [] =
      .ok (load [event .YAML_MAPPING_END_EVENT, event .YAML_SEQUENCE_END_EVENT] false,
        [{ descriptor.calloc with
            board := some (cstr "foo"), serial := some (cstr "SN123"),
            control_dev := some (cstr "boardlab.foo"), boot := some .device_fastboot_boot,
            open_ := some .conmux, power := some .conmux, write := some .conmux }]) ∧
    ∃ dev, [{ descriptor.calloc with
            board := some (cstr "foo"), serial := some (cstr "SN123"),
            control_dev := some (cstr "boardlab.foo"), boot := some .device_fastboot_boot,
            open_ := some .conmux, power := some .conmux, write := some .conmux }] =
        device_add [] dev ∧
      dev.board = some (cstr "foo") ∧ dev.name = none ∧ dev.description = none ∧
      dev.serial = some (cstr "SN123") := by
  have hrun : parse_board
        (load (render_entries [(cstr "board", cstr "foo"), (cstr "fastboot", cstr "SN123"),
            (cstr "conmux", cstr "boardlab.foo")] ++
          event .YAML_MAPPING_END_EVENT :: [event .YAML_SEQUENCE_END_EVENT]) false) [] =
      .ok (load [event .YAML_MAPPING_END_EVENT, event .YAML_SEQUENCE_END_EVENT] false,
        [{ descriptor.calloc with
            board := some (cstr "foo"), serial := some (cstr "SN123"),
            control_dev := some (cstr "boardlab.foo"), boot := some .device_fastboot_boot,
            open_ := some .conmux, power := some .conmux, write := some .conmux }]) := by
    decide
  obtain ⟨dev, h1, h2, h3, h4, h5⟩ :=
    (catalog_string_keys _ _ _ _ _ _ _ (by decide) hrun).1
  refine ⟨hrun, dev, h1, ?_, ?_, ?_, ?_⟩
  · rw [h2]; decide
  · rw [h3]; decide
  · rw [h4]; decide
  · rw [h5]; decide

/-! ### Descriptor completeness -/

/-- C12, counterexample: the mapping `board: ""`, `fastboot: ""`, `console: /dev/ttyUSB0` is
accepted, and the descriptor added to the registry has an empty board and an empty serial:
`parse_board` tests the two pointers against NULL only. -/
theorem empty_board_accepted :
    device_parser_events
        (render_document (cstr "devices")
          [[(cstr "board", []), (cstr "fastboot", []),
            (cstr "console", cstr "/dev/ttyUSB0")]]) false [] =
      .ok [{ descriptor.calloc with
              board := some [], serial := some [], console_dev := some (cstr "/dev/ttyUSB0"),
              boot := some .device_fastboot_boot, write := some .console,
              send_break := some .console }] := by
  decide

/-- C12 (amended): on the entries of an inner mapping, `parse_board` either exits with status
1 or adds one descriptor, whose `board` and `serial` are set (possibly to the empty string)
and which has `open` or `console_dev` set; it adds one only when the mapping has a `board`
entry, a `fastboot` entry, and a control-driver entry or a `console` entry. A mapping that
lacks one of these makes it exit with status 1. -/
theorem descriptor_completeness (entries : List (List Nat × List Nat)) (e : yaml_event)
    (rest : List yaml_event) (f : Bool) (devices : List descriptor)
    (he : e.type ≠ .YAML_SCALAR_EVENT) :
    (parse_board (load (render_entries entries ++ e :: rest) f) devices = .exit 1 ∨
      ∃ dev, parse_board (load (render_entries entries ++ e :: rest) f) devices =
          .ok (load (e :: rest) f, device_add devices dev) ∧
        dev.board.isSome = true ∧ dev.serial.isSome = true ∧
        (dev.open_.isSome = true ∨ dev.console_dev.isSome = true) ∧
        missing_entries entries = false) ∧
    (missing_entries entries = true →
      parse_board (load (render_entries entries ++ e :: rest) f) devices = .exit 1) := by
  rw [parse_board_render entries e rest f devices he]
  rcases apply_entries_ends entries descriptor.calloc with hk | ⟨dev, hk⟩
  · rw [hk]
    exact ⟨Or.inl rfl, fun _ => rfl⟩
  · rw [hk]
    simp only
    have hm := insufficient_iff_missing entries dev hk
    by_cases hi : insufficiently_defined dev = true
    · rw [if_pos hi]
      exact ⟨Or.inl rfl, fun _ => rfl⟩
    · rw [if_neg hi]
      have hi2 : insufficiently_defined dev = false := by simpa using hi
      refine ⟨Or.inr ⟨dev, rfl, ?_, ?_, ?_, ?_⟩, ?_⟩
      · unfold insufficiently_defined at hi2
        cases hb : dev.board <;> simp [hb] at hi2 ⊢
      · unfold insufficiently_defined at hi2
        cases hb : dev.serial <;> simp [hb] at hi2 ⊢
      · unfold insufficiently_defined at hi2
        cases ho : dev.open_ <;> cases hc : dev.console_dev <;> simp [ho, hc] at hi2 ⊢
      · rw [← hm]; exact hi2
      · intro hmiss
        rw [← hm, hi2] at hmiss
        cases hmiss

theorem descriptor_completeness_witness :
    (parse_board
        (load (render_entries [(cstr "board", cstr "foo"), (cstr "conmux", cstr "boardlab.foo")] ++
          event .YAML_MAPPING_END_EVENT :: [event .YAML_SEQUENCE_END_EVENT]) false) [] =
      .exit 1) ∧
    (parse_board
        (load (render_entries [(cstr "fastboot", cstr "SN123"),
            (cstr "console", cstr "/dev/ttyUSB0")] ++
          event .YAML_MAPPING_END_EVENT :: [event .YAML_SEQUENCE_END_EVENT]) false) [] =
      .exit 1) ∧
    (parse_board
        (load (render_entries [(cstr "board", cstr "foo"), (cstr "fastboot", cstr "SN123")] ++
          event .YAML_MAPPING_END_EVENT :: [event .YAML_SEQUENCE_END_EVENT]) false) [] =
      .exit 1) :=
  ⟨(descriptor_completeness _ _ _ _ _ (by decide)).2 (by decide),
   (descriptor_completeness _ _ _ _ _ (by decide)).2 (by decide),
   (descriptor_completeness _ _ _ _ _ (by decide)).2 (by decide)⟩

/-! ### Board names of the registry -/

/-- C18, counterexample: a document with two inner mappings that both say `board: foo` is
accepted, and the registry then holds two descriptors with the board `foo`: neither
`parse_board` nor `device_add` compares a board with those already registered. -/
theorem duplicate_boards_accepted :
    ∃ devices1,
      device_parser_events
        (render_document (cstr "devices")
          [[(cstr "board", cstr "foo"), (cstr "fastboot", cstr "SN1"),
            (cstr "console", cstr "/dev/ttyUSB0")],
           [(cstr "board", cstr "foo"), (cstr "fastboot", cstr "SN2"),
            (cstr "console", cstr "/dev/ttyUSB1")]]) false [] = .ok devices1 ∧
      devices1.map (fun dev => dev.board) = [some (cstr "foo"), some (cstr "foo")] ∧
      ¬ (devices1.map (fun dev => dev.board)).Nodup := by
  refine ⟨[{ descriptor.calloc with
              board := some (cstr "foo"), serial := some (cstr "SN1"),
              console_dev := some (cstr "/dev/ttyUSB0"), boot := some .device_fastboot_boot,
              write := some .console, send_break := some .console },
           { descriptor.calloc with
              board := some (cstr "foo"), serial := some (cstr "SN2"),
              console_dev := some (cstr "/dev/ttyUSB1"), boot := some .device_fastboot_boot,
              write := some .console, send_break := some .console }], ?_, ?_, ?_⟩ <;> decide

/-- C18 (amended): after `device_parser` has accepted a configuration document, read into an
empty registry, the registry holds one descriptor for each inner mapping, in document order,
and its board is the copy of the value of the last `board` entry of that mapping. The board
names of the registry are pairwise distinct exactly when those of the mappings are; the
parser does not reject a document in which they are not. -/
theorem registry_boards (root : List Nat) (boards : List (List (List Nat × List Nat)))
    (devices1 : List descriptor)
    (h : device_parser_events (render_document root boards) false [] = .ok devices1) :
    devices1.length = boards.length ∧
    devices1.map (fun dev => dev.board) = boards.map (last_value (cstr "board")) ∧
    ((devices1.map (fun dev => dev.board)).Nodup ↔
      (boards.map (last_value (cstr "board"))).Nodup) := by
  rw [device_parser_render] at h
  have hb := add_boards_boards boards [] devices1 h
  simp only [List.map_nil, List.nil_append] at hb
  refine ⟨?_, hb, by rw [hb]⟩
  have hl := congrArg List.length hb
  simpa using hl

theorem registry_boards_witness :
    device_parser_events
        (render_document (cstr "devices")
          [[(cstr "board", cstr "foo"), (cstr "fastboot", cstr "SN1"),
            (cstr "console", cstr "/dev/ttyUSB0")],
           [(cstr "board", cstr "bar"), (cstr "fastboot", cstr "SN2"),
            (cstr "console", cstr "/dev/ttyUSB1")]]) false [] =
      .ok [{ descriptor.calloc with
              board := some (cstr "foo"), serial := some (cstr "SN1"),
              console_dev := some (cstr "/dev/ttyUSB0"), boot := some .device_fastboot_boot,
              write := some .console, send_break := some .console },
           { descriptor.calloc with
              board := some (cstr "bar"), serial := some (cstr "SN2"),
              console_dev := some (cstr "/dev/ttyUSB1"), boot := some .device_fastboot_boot,
              write := some .console, send_break := some .console }] ∧
    ([{ descriptor.calloc with
              board := some (cstr "foo"), serial := some (cstr "SN1"),
              console_dev := some (cstr "/dev/ttyUSB0"), boot := some .device_fastboot_boot,
              write := some .console, send_break := some .console },
           { descriptor.calloc with
              board := some (cstr "bar"), serial := some (cstr "SN2"),
              console_dev := some (cstr "/dev/ttyUSB1"), boot := some .device_fastboot_boot,
              write := some .console, send_break := some .console }].map
        (fun dev => dev.board)).Nodup :=
  ⟨by decide,
   (registry_boards (cstr "devices")
      [[(cstr "board", cstr "foo"), (cstr "fastboot", cstr "SN1"),
        (cstr "console", cstr "/dev/ttyUSB0")],
       [(cstr "board", cstr "bar"), (cstr "fastboot", cstr "SN2"),
        (cstr "console", cstr "/dev/ttyUSB1")]] _ (by decide)).2.2.mpr (by decide)⟩

/-! ### Lock paths -/

/-- The lock paths of two boards are the same exactly when the boards are the same C
string. -/
theorem lock_path_injective (a b : List Nat) :
    lock_path a = lock_path b ↔ c_string a = c_string b := by
  unfold lock_path fmt_s
  constructor
  · intro h
    exact List.append_cancel_left (List.append_cancel_right h)
  · intro h
    rw [h]

/-! ## Power-off during the start sequence -/

/-- After `device_power(true)` and `device_power(false)` at time 0, for every descriptor whose
driver has `power`: the timer of the start sequence is still pending, and its expiry at 10 ms
calls `power(true)` and then `usb(true)` (when the driver has `usb`). -/
theorem power_off_keeps_timer (dev : device) (hp : device_has_control dev .power = true) :
    ∃ s, power_on_then_off dev 1 = some s ∧
      s.trace =
        ((if dev.fastboot_key_timeout ≠ 0 then device_key dev DEVICE_KEY_FASTBOOT true else []) ++
          (if dev.has_power_key then device_key dev DEVICE_KEY_POWER false else [])).map
            (fun c => (0, c)) ++
        (0, Call.power false) :: (10, Call.power true) ::
          (device_usb dev true).map (fun c => (10, c)) := by
  obtain ⟨ops, hops, hpw⟩ : ∃ ops, dev.control_ops = some ops ∧ ops.power = true := by
    cases h : dev.control_ops with
    | none => simp [device_has_control, h] at hp
    | some ops => exact ⟨ops, rfl, by simpa [device_has_control, h, control_ops.has] using hp⟩
  have hu : ∀ (d : device) (a : Bool), driver_calls (device_usb d a) = device_usb d a ∧
      timers_of (device_usb d a) = [] := by
    intro d a
    unfold device_usb
    split_ifs <;> exact ⟨rfl, rfl⟩
  cases hpk : dev.has_power_key <;> by_cases h0 : dev.fastboot_key_timeout = 0 <;>
    cases hk : ops.key <;> cases hus : ops.usb <;>
    simp [power_on_then_off, Sim.device_power, device_power, device_power_on, device_power_off,
      hp, device_tick, Sim.init, Sim.record, h0, hpk, hk, hus, device_key, device_has_control,
      hops, hpw, control_ops.has, timers_of, driver_calls, Sim.run, Sim.fire, earliest,
      device_impl_power, device_usb, DEVICE_STATE_START, DEVICE_STATE_CONNECT]

/-- C21, counterexample: `device_power(true)` followed at once by `device_power(false)`,
while the 10 ms timer of the start sequence is pending. `device_power_off` calls
`power(false)` and leaves both the timer and `device->state` as they are, so the expiry of
the timer runs the CONNECT dispatch: `power(true)` and `usb(true)` are called at 10 ms, and
with a power key and a fastboot key the sequence goes on to press and release the keys and
ends in RUNNING. -/
theorem power_off_not_final :
    (power_on_then_off (sample_device false 0) 1).map (fun s => (s.trace, s.dev.state)) =
      some ([(0, Call.power false), (10, Call.power true), (10, Call.usb true)],
        DEVICE_STATE_RUNNING) ∧
    (power_on_then_off (sample_device true 3) 0).map (fun s => (s.trace, s.pending)) =
      some ([(0, Call.key DEVICE_KEY_FASTBOOT true), (0, Call.key DEVICE_KEY_POWER false),
             (0, Call.power false)], [10]) ∧
    (power_on_then_off (sample_device true 3) 5).map (fun s => (s.trace, s.dev.state)) =
      some ([(0, Call.key DEVICE_KEY_FASTBOOT true), (0, Call.key DEVICE_KEY_POWER false),
             (0, Call.power false), (10, Call.power true), (10, Call.usb true),
             (260, Call.key DEVICE_KEY_POWER true), (360, Call.key DEVICE_KEY_POWER false),
             (3360, Call.key DEVICE_KEY_FASTBOOT false)], DEVICE_STATE_RUNNING) := by
  decide

/-- C21 (amended): `device_power(false)` calls `power(false)` on the driver and does nothing
else: the descriptor and the pending timers are as before. When no timer of a start sequence
is pending (the sequence has reached RUNNING, or none was started), the device stays off: no
number of reactor steps makes another driver call. When the timer of a start sequence is
pending, power-off does not end the sequence: after `device_power(true)` and
`device_power(false)` at time 0 the expiry of the timer at 10 ms calls `power(true)` and
then `usb(true)`. -/
theorem power_off_when_idle (s : Sim) (n : Nat)
    (hp : device_has_control s.dev .power = true) (hpend : s.pending = []) :
    (∃ s1, s.device_power false = some s1 ∧ s1.dev = s.dev ∧ s1.pending = [] ∧
      s1.now = s.now ∧ s1.trace = s.trace ++ [(s.now, Call.power false)] ∧
      s1.run n = some s1) ∧
    (∀ s0 : Sim, s0.dev = s.dev →
      ∃ s1, s0.device_power false = some s1 ∧ s1.dev = s0.dev ∧ s1.pending = s0.pending ∧
        s1.trace = s0.trace ++ [(s0.now, Call.power false)]) ∧
    (∃ s2, power_on_then_off s.dev 1 = some s2 ∧
      s2.trace =
        ((if s.dev.fastboot_key_timeout ≠ 0 then device_key s.dev DEVICE_KEY_FASTBOOT true
            else []) ++
          (if s.dev.has_power_key then device_key s.dev DEVICE_KEY_POWER false else [])).map
            (fun c => (0, c)) ++
        (0, Call.power false) :: (10, Call.power true) ::
          (device_usb s.dev true).map (fun c => (10, c))) := by
  have hoff : ∀ s0 : Sim, s0.dev = s.dev →
      s0.device_power false =
        some (Sim.mk s0.now s0.dev s0.pending (s0.trace ++ [(s0.now, Call.power false)])) := by
    intro s0 hd
    have hp0 : device_has_control s0.dev .power = true := by rw [hd]; exact hp
    simp [Sim.device_power, device_power, device_power_off, hp0, Sim.record, timers_of,
      driver_calls]
  refine ⟨?_, ?_, power_off_keeps_timer s.dev hp⟩
  · refine ⟨_, hoff s rfl, rfl, hpend, rfl, rfl, ?_⟩
    exact Sim.run_idle (Sim.mk s.now s.dev s.pending (s.trace ++ [(s.now, Call.power false)]))
      hpend n
  · intro s0 hd
    exact ⟨_, hoff s0 hd, rfl, rfl, rfl⟩

/-- C21 at a descriptor that has reached RUNNING at 3360 ms: `power(false)` is the last
driver call, whatever the reactor does afterwards. -/
theorem power_off_when_idle_witness :
    ∃ s1,
      Sim.device_power
          (Sim.mk 3360 { sample_device true 3 with state := DEVICE_STATE_RUNNING } [] [])
          false = some s1 ∧
      s1.dev = { sample_device true 3 with state := DEVICE_STATE_RUNNING } ∧
      s1.pending = [] ∧ s1.now = 3360 ∧ s1.trace = [] ++ [(3360, Call.power false)] ∧
      s1.run 5 = some s1 :=
  (power_off_when_idle
    (Sim.mk 3360 { sample_device true 3 with state := DEVICE_STATE_RUNNING } [] []) 5
    (by decide) rfl).1

/-! ## Fastboot-key hold time -/

/-- C22, counterexample: with `fastboot_key_timeout = 4294968` the product
`4294968 * 1000 = 4294968000` does not fit an `unsigned int`; the delay scheduled before
RELEASE_FASTBOOT is `4294968000 - 2^32 = 704` ms, from CONNECT and from RELEASE_PWR. With
`fastboot_key_timeout = 2147484` the product `2147484000` fits an `unsigned int` but not an
`int`: as the `int` argument of the timer it is `-2147483296`. -/
theorem fastboot_key_delay_wraps :
    (4294968 : Nat) < 2 ^ 32 ∧
    (device_tick { sample_device false 4294968 with state := DEVICE_STATE_CONNECT }).map
        (fun r => (r.1.state, timers_of r.2)) = some (DEVICE_STATE_RELEASE_FASTBOOT, [704]) ∧
    (device_tick { sample_device true 4294968 with state := DEVICE_STATE_RELEASE_PWR }).map
        (fun r => (r.1.state, timers_of r.2)) = some (DEVICE_STATE_RELEASE_FASTBOOT, [704]) ∧
    (704 : Nat) ≠ 4294968 * 1000 ∧
    (device_tick { sample_device false 2147484 with state := DEVICE_STATE_CONNECT }).map
        (fun r => (r.1.state, (timers_of r.2).map timer_argument)) =
      some (DEVICE_STATE_RELEASE_FASTBOOT, [-2147483296]) ∧
    (device_tick { sample_device true 2147484 with state := DEVICE_STATE_RELEASE_PWR }).map
        (fun r => (r.1.state, (timers_of r.2).map timer_argument)) =
      some (DEVICE_STATE_RELEASE_FASTBOOT, [-2147483296]) := by
  decide

/-- C22 (amended): for every `fastboot_key_timeout` `t` with `0 < t ≤ 2147483`, the one timer
that `device_tick` schedules when it enters RELEASE_FASTBOOT, from CONNECT (no power key) and
from RELEASE_PWR, has the delay `t * 1000` ms: the product is at most `INT_MAX`, so it
neither wraps in `unsigned int` nor changes sign as the `int` argument of the timer. The
bounds are exact for a 32-bit `t`: the `unsigned int` product is `t * 1000` exactly when
`t ≤ 4294967`, and the `int` argument is `t * 1000` exactly when `t ≤ 2147483`. -/
theorem fastboot_key_hold_time (dev : device)
    (hp : device_has_control dev .power = true)
    (h0 : 0 < dev.fastboot_key_timeout) (hmax : dev.fastboot_key_timeout ≤ 2147483) :
    (dev.has_power_key = false →
      ∃ calls, device_tick { dev with state := DEVICE_STATE_CONNECT } =
          some ({ dev with state := DEVICE_STATE_RELEASE_FASTBOOT }, calls) ∧
        timers_of calls = [dev.fastboot_key_timeout * 1000] ∧
        (timers_of calls).map timer_argument = [((dev.fastboot_key_timeout * 1000 : Nat) : Int)]) ∧
    (∃ calls, device_tick { dev with state := DEVICE_STATE_RELEASE_PWR } =
        some ({ dev with state := DEVICE_STATE_RELEASE_FASTBOOT }, calls) ∧
      timers_of calls = [dev.fastboot_key_timeout * 1000] ∧
      (timers_of calls).map timer_argument = [((dev.fastboot_key_timeout * 1000 : Nat) : Int)]) ∧
    dev.fastboot_key_timeout * 1000 < 2 ^ 32 ∧
    dev.fastboot_key_timeout * 1000 ≤ INT_MAX ∧
    (∀ d : device, d.fastboot_key_timeout < 2 ^ 32 →
      (fastboot_key_delay d = d.fastboot_key_timeout * 1000 ↔
        d.fastboot_key_timeout ≤ 4294967)) ∧
    (∀ d : device, d.fastboot_key_timeout < 2 ^ 32 →
      (timer_argument (fastboot_key_delay d) = ((d.fastboot_key_timeout * 1000 : Nat) : Int) ↔
        d.fastboot_key_timeout ≤ 2147483)) := by
  obtain ⟨ops, hops, hpw⟩ : ∃ ops, dev.control_ops = some ops ∧ ops.power = true := by
    cases h : dev.control_ops with
    | none => simp [device_has_control, h] at hp
    | some ops => exact ⟨ops, rfl, by simpa [device_has_control, h, control_ops.has] using hp⟩
  have hne : dev.fastboot_key_timeout ≠ 0 := by omega
  have hmod : (dev.fastboot_key_timeout * 1000) % 4294967296
      = dev.fastboot_key_timeout * 1000 := Nat.mod_eq_of_lt (by omega)
  have hk : ∀ (d : device) (k : Nat) (a : Bool), timers_of (device_key d k a) = [] := by
    intro d k a
    unfold device_key
    split_ifs <;> rfl
  have hu : ∀ (d : device) (a : Bool), timers_of (device_usb d a) = [] := by
    intro d a
    unfold device_usb
    split_ifs <;> rfl
  have harg : timer_argument (dev.fastboot_key_timeout * 1000) =
      ((dev.fastboot_key_timeout * 1000 : Nat) : Int) := by
    unfold timer_argument long_to_int
    omega
  refine ⟨?_, ?_, by omega, ?_, ?_, ?_⟩
  · intro hpk
    refine ⟨[Call.power true] ++ device_usb dev true ++
      [Call.timer (dev.fastboot_key_timeout * 1000)], ?_, ?_, ?_⟩
    · simp [device_tick, DEVICE_STATE_CONNECT, device_impl_power, hops, hpw, hpk, hne,
        DEVICE_STATE_RELEASE_FASTBOOT, fastboot_key_delay, hmod, device_usb,
        device_has_control]
    · simp [timers_of_append, timers_of, hu]
    · have ht : timers_of ([Call.power true] ++ device_usb dev true ++
          [Call.timer (dev.fastboot_key_timeout * 1000)]) =
          [dev.fastboot_key_timeout * 1000] := by
        simp [timers_of_append, timers_of, hu]
      rw [ht, List.map_cons, List.map_nil, harg]
  · refine ⟨device_key dev DEVICE_KEY_POWER false ++
      [Call.timer (dev.fastboot_key_timeout * 1000)], ?_, ?_, ?_⟩
    · simp [device_tick, DEVICE_STATE_RELEASE_PWR, hne, DEVICE_STATE_RELEASE_FASTBOOT,
        fastboot_key_delay, hmod, device_key, device_has_control]
    · simp [timers_of_append, timers_of, hk]
    · have ht : timers_of (device_key dev DEVICE_KEY_POWER false ++
          [Call.timer (dev.fastboot_key_timeout * 1000)]) =
          [dev.fastboot_key_timeout * 1000] := by
        simp [timers_of_append, timers_of, hk]
      rw [ht, List.map_cons, List.map_nil, harg]
  · unfold INT_MAX
    omega
  · intro d hd
    unfold fastboot_key_delay
    constructor
    · intro h
      by_contra hc
      have h1 : 2 ^ 32 ≤ d.fastboot_key_timeout * 1000 := by omega
      have h2 := Nat.mod_lt (d.fastboot_key_timeout * 1000) (by norm_num : 0 < 2 ^ 32)
      omega
    · intro h
      exact Nat.mod_eq_of_lt (by omega)
  · intro d hd
    unfold timer_argument long_to_int fastboot_key_delay
    constructor
    · intro h
      omega
    · intro h
      omega

/-- C22 at `fastboot_key_timeout = 3`: the delay is 3000 ms. -/
theorem fastboot_key_hold_time_witness :
    ∃ calls, device_tick { sample_device true 3 with state := DEVICE_STATE_RELEASE_PWR } =
        some ({ sample_device true 3 with state := DEVICE_STATE_RELEASE_FASTBOOT }, calls) ∧
      timers_of calls = [(sample_device true 3).fastboot_key_timeout * 1000] ∧
      (timers_of calls).map timer_argument =
        [(((sample_device true 3).fastboot_key_timeout * 1000 : Nat) : Int)] :=
  (fastboot_key_hold_time (sample_device true 3) (by decide) (by decide) (by decide)).2.1

/-! ## Bounds of the reset sequence -/

theorem reset_loop_writes_succ (fuel : Nat) (pp : List Nat) (i : Nat) :
    reset_loop_writes (fuel + 1) pp i =
      if i < MAX_RESET_SEQUENCE then
        match strchr_split 59 pp with
        | none => []
        | some (tok, rest) =>
          if peek tok = 66 then (i, false) :: reset_loop_writes fuel rest i
          else if peek tok = 98 then (i, false) :: reset_loop_writes fuel rest i
          else if peek tok = 82 then (i, false) :: reset_loop_writes fuel rest i
          else if peek tok = 114 then (i, false) :: reset_loop_writes fuel rest i
          else if peek (strtol tok).2 = peek tok then [(i, true)]
          else (i, true) :: reset_loop_writes fuel rest (i + 1)
      else [] := by
  simp only [reset_loop_writes]

theorem modify_step_length (f : reset_step → reset_step) :
    ∀ (i : Nat) (l : List reset_step), (modify_step f i l).length = l.length := by
  intro i l
  induction l generalizing i with
  | nil => cases i <;> rfl
  | cons s ss ih =>
    cases i with
    | zero => rfl
    | succ i => simp [modify_step, ih]

theorem modify_step_get_ne (f : reset_step → reset_step) :
    ∀ (i k : Nat) (l : List reset_step), k ≠ i → (modify_step f i l)[k]? = l[k]? := by
  intro i k l
  induction l generalizing i k with
  | nil => intro _; cases i <;> rfl
  | cons s ss ih =>
    intro hk
    cases i with
    | zero =>
      cases k with
      | zero => exact absurd rfl hk
      | succ k => simp [modify_step]
    | succ i =>
      cases k with
      | zero => simp [modify_step]
      | succ k =>
        simp only [modify_step, List.getElem?_cons_succ]
        exact ih i k (fun e => hk (by rw [e]))

/-- Every store of the loop of `parse_reset_sequence` is at an index from the one it starts
with, and below `MAX_RESET_SEQUENCE`. -/
theorem reset_loop_writes_bounds : ∀ (fuel : Nat) (pp : List Nat) (i : Nat),
    ∀ w ∈ reset_loop_writes fuel pp i, i ≤ w.1 ∧ w.1 < MAX_RESET_SEQUENCE := by
  intro fuel
  induction fuel with
  | zero => intro pp i w hw; simp [reset_loop_writes] at hw
  | succ n ih =>
    intro pp i w hw
    rw [reset_loop_writes_succ] at hw
    by_cases hi : i < MAX_RESET_SEQUENCE
    · rw [if_pos hi] at hw
      cases hs : strchr_split 59 pp with
      | none => rw [hs] at hw; simp at hw
      | some r =>
        obtain ⟨tok, rest⟩ := r
        rw [hs] at hw
        simp only at hw
        have same : w ∈ (i, false) :: reset_loop_writes n rest i →
            i ≤ w.1 ∧ w.1 < MAX_RESET_SEQUENCE := by
          intro h
          rcases List.mem_cons.mp h with rfl | h
          · exact ⟨Nat.le_refl _, hi⟩
          · exact ih rest i w h
        split_ifs at hw
        · exact same hw
        · exact same hw
        · exact same hw
        · exact same hw
        · rcases List.mem_singleton.mp hw with rfl
          exact ⟨Nat.le_refl _, hi⟩
        · rcases List.mem_cons.mp hw with rfl | h
          · exact ⟨Nat.le_refl _, hi⟩
          · have := ih rest (i + 1) w h
            exact ⟨by omega, this.2⟩
    · rw [if_neg hi] at hw
      simp at hw

theorem stores_account_letter (writes : List (Nat × Bool)) (i j : Nat)
    (f : reset_step → reset_step) (steps out : List reset_step)
    (h : stores_account writes i j (modify_step f i steps) out) :
    stores_account ((i, false) :: writes) i j steps out := by
  obtain ⟨h1, h2, h3, h4, h5⟩ := h
  refine ⟨by simpa using h1, ?_, ?_, ?_, ?_⟩
  · intro w hw
    rcases List.mem_cons.mp hw with rfl | hw
    · simp only; omega
    · exact h2 w hw
  · intro k hk1 hk2
    exact List.mem_cons_of_mem _ (h3 k hk1 hk2)
  · rw [h4, modify_step_length]
  · intro k hk
    rw [h5 k (fun w hw => hk w (List.mem_cons_of_mem _ hw))]
    exact modify_step_get_ne f i k steps
      (fun e => hk (i, false) (List.mem_cons_self _ _) e.symm)

theorem stores_account_duration (writes : List (Nat × Bool)) (i j : Nat)
    (f : reset_step → reset_step) (steps out : List reset_step)
    (h : stores_account writes (i + 1) j (modify_step f i steps) out) :
    stores_account ((i, true) :: writes) i j steps out := by
  obtain ⟨h1, h2, h3, h4, h5⟩ := h
  refine ⟨by simp only [List.filter_cons_of_pos, List.length_cons]; omega, ?_, ?_, ?_, ?_⟩
  · intro w hw
    rcases List.mem_cons.mp hw with rfl | hw
    · simp only; omega
    · exact h2 w hw
  · intro k hk1 hk2
    by_cases hk : k = i
    · rw [hk]; exact List.mem_cons_self _ _
    · exact List.mem_cons_of_mem _ (h3 k (by omega) hk2)
  · rw [h4, modify_step_length]
  · intro k hk
    rw [h5 k (fun w hw => hk w (List.mem_cons_of_mem _ hw))]
    exact modify_step_get_ne f i k steps
      (fun e => hk (i, true) (List.mem_cons_self _ _) e.symm)

/-- When the loop of `parse_reset_sequence` is left, its stores account for the index and the
array it is left with. -/
theorem reset_loop_writes_left : ∀ (fuel : Nat) (pp : List Nat) (i : Nat)
    (steps : List reset_step) (j : Nat) (out : List reset_step),
    reset_loop fuel pp i steps = .left j out →
      stores_account (reset_loop_writes fuel pp i) i j steps out := by
  intro fuel
  induction fuel with
  | zero => intro pp i steps j out h; simp [reset_loop] at h
  | succ n ih =>
    intro pp i steps j out h
    rw [reset_loop_succ] at h
    rw [reset_loop_writes_succ]
    by_cases hi : i < MAX_RESET_SEQUENCE
    · rw [if_pos hi] at h
      rw [if_pos hi]
      cases hs : strchr_split 59 pp with
      | none =>
        rw [hs] at h
        simp only [ResetLoop.left.injEq] at h
        obtain ⟨rfl, rfl⟩ := h
        refine ⟨by simp, by simp, ?_, rfl, fun _ _ => rfl⟩
        intro k h1 h2
        omega
      | some r =>
        obtain ⟨tok, rest⟩ := r
        rw [hs] at h
        simp only at h ⊢
        split_ifs at h ⊢
        · exact stores_account_letter _ i j _ steps out (ih rest i _ j out h)
        · exact stores_account_letter _ i j _ steps out (ih rest i _ j out h)
        · exact stores_account_letter _ i j _ steps out (ih rest i _ j out h)
        · exact stores_account_letter _ i j _ steps out (ih rest i _ j out h)
        · exact stores_account_duration _ i j _ steps out (ih rest (i + 1) _ j out h)
    · rw [if_neg hi] at h
      rw [if_neg hi]
      simp only [ResetLoop.left.injEq] at h
      obtain ⟨rfl, rfl⟩ := h
      refine ⟨by simp, by simp, ?_, rfl, fun _ _ => rfl⟩
      intro k h1 h2
      omega

/-- C23, counterexample: for `B;200;R;` on a fresh descriptor `parse_reset_sequence` returns
with `reset_sequence_count = 1`, yet it has stored into two slots of the array: slot 0 holds
`{POWER, asserted, 200}` and slot 1 holds `{FASTBOOT, asserted, 0}`, written for the last
letter, after which the index did not move on. -/
theorem reset_sequence_uncounted_slot :
    (match parse_reset_sequence reset_config.zero (cstr "B;200;R;") with
      | .done out => some (out.reset_sequence_count, out.reset_sequence.take 2)
      | _ => none) =
      some (1, [{ key := DEVICE_KEY_POWER, asserted := true, sleep_ms := 200 },
                { key := DEVICE_KEY_FASTBOOT, asserted := true, sleep_ms := 0 }]) ∧
    parse_reset_sequence_writes (cstr "B;200;R;") = [(0, false), (0, true), (1, false)] ∧
    written_slots (cstr "B;200;R;") = [0, 1] ∧
    (written_slots (cstr "B;200;R;")).length = 2 ∧
    stored_durations (cstr "B;200;R;") = 1 := by
  decide

/-- C23 (amended): for every input string and every descriptor, every index at which
`parse_reset_sequence` stores into the `reset_sequence` array is below
`MAX_RESET_SEQUENCE = 16`; the function exits with status 1 or returns, and when it returns
`reset_sequence_count` is below 16 and is the number of durations it stored: every slot below
`reset_sequence_count` was written, no slot beyond `reset_sequence_count` was, the slot
`reset_sequence_count` itself may have been (by letters that no duration follows), and the
array has kept its length and the slots that were not written. -/
theorem reset_sequence_bounds (dev : reset_config) (seq : List Nat) :
    (∀ w ∈ parse_reset_sequence_writes seq, w.1 < MAX_RESET_SEQUENCE) ∧
    (parse_reset_sequence dev seq = .exit 1 ∨
      ∃ out, parse_reset_sequence dev seq = .done out ∧
        out.reset_sequence_count < MAX_RESET_SEQUENCE ∧
        out.reset_sequence_count = stored_durations seq ∧
        (∀ k ∈ written_slots seq, k ≤ out.reset_sequence_count) ∧
        (∀ k, k < out.reset_sequence_count → k ∈ written_slots seq) ∧
        out.reset_sequence.length = dev.reset_sequence.length ∧
        (∀ k, k ∉ written_slots seq → out.reset_sequence[k]? = dev.reset_sequence[k]?)) := by
  have hb := reset_loop_writes_bounds (seq.length + 1) seq 0
  refine ⟨fun w hw => (hb w hw).2, ?_⟩
  unfold parse_reset_sequence
  rcases reset_loop_ends (seq.length + 1) seq 0 dev.reset_sequence (by omega) with
    h | ⟨j, out, h⟩
  · rw [h]
    exact Or.inl rfl
  · rw [h]
    simp only
    obtain ⟨h1, h2, h3, h4, h5⟩ := reset_loop_writes_left _ _ _ _ _ _ h
    have hmem : ∀ k, k ∈ written_slots seq ↔
        ∃ w ∈ parse_reset_sequence_writes seq, w.1 = k := by
      intro k
      simp [written_slots]
    have hj : j ≤ MAX_RESET_SEQUENCE := by
      by_cases h0 : j = 0
      · omega
      · have := (hb _ (h3 (j - 1) (by omega) (by omega))).2
        simp only at this
        omega
    by_cases hj16 : j = MAX_RESET_SEQUENCE
    · rw [if_pos hj16]
      exact Or.inl rfl
    · rw [if_neg hj16]
      refine Or.inr ⟨_, rfl, by simp only; omega, ?_, ?_, ?_, h4, ?_⟩
      · simpa [stored_durations, parse_reset_sequence_writes] using h1
      · intro k hk
        obtain ⟨w, hw, rfl⟩ := (hmem k).mp hk
        exact h2 w hw
      · intro k hk
        exact (hmem k).mpr ⟨(k, true), h3 k (by omega) hk, rfl⟩
      · intro k hk
        exact h5 k (fun w hw e => hk ((hmem k).mpr ⟨w, hw, e⟩))

/-- C23 at `B;200;R;`: the stores are at the indices 0, 0 and 1. -/
theorem reset_sequence_bounds_witness :
    ∀ w ∈ parse_reset_sequence_writes (cstr "B;200;R;"), w.1 < MAX_RESET_SEQUENCE :=
  (reset_sequence_bounds reset_config.zero (cstr "B;200;R;")).1

/-! ## The boot function of a parsed descriptor -/

/-- What the body of the loop of `parse_board` leaves in the field `boot`. -/
theorem parse_board_key_boot (dev dev1 : descriptor) (key value : List Nat)
    (h : parse_board_key dev key value = .ok dev1) :
    dev1.boot =
      (if key = cstr "fastboot" then
        (if dev.boot.isNone then some .device_fastboot_boot else dev.boot)
      else if key = cstr "broken_fastboot_boot" ∧ strcmp_eq value (cstr "true") = true then
        some .device_fastboot_flash_reboot
      else dev.boot) := by
  unfold parse_board_key at h
  by_cases h0 : key = cstr "board"
  · rw [if_pos h0] at h
    subst h0
    simp only [Run.ok.injEq] at h
    subst h
    exact ((if_neg (by decide)).trans (if_neg (fun hc => absurd hc.1 (by decide)))).symm
  rw [if_neg h0] at h
  by_cases h1 : key = cstr "name"
  · rw [if_pos h1] at h
    subst h1
    simp only [Run.ok.injEq] at h
    subst h
    exact ((if_neg (by decide)).trans (if_neg (fun hc => absurd hc.1 (by decide)))).symm
  rw [if_neg h1] at h
  by_cases h2 : key = cstr "cdba"
  · rw [if_pos h2] at h
    subst h2
    simp only [Run.ok.injEq] at h
    subst h
    exact ((if_neg (by decide)).trans (if_neg (fun hc => absurd hc.1 (by decide)))).symm
  rw [if_neg h2] at h
  by_cases h3 : key = cstr "conmux"
  · rw [if_pos h3] at h
    subst h3
    simp only [Run.ok.injEq] at h
    subst h
    exact ((if_neg (by decide)).trans (if_neg (fun hc => absurd hc.1 (by decide)))).symm
  rw [if_neg h3] at h
  by_cases h4 : key = cstr "alpaca"
  · rw [if_pos h4] at h
    subst h4
    simp only [Run.ok.injEq] at h
    subst h
    exact ((if_neg (by decide)).trans (if_neg (fun hc => absurd hc.1 (by decide)))).symm
  rw [if_neg h4] at h
  by_cases h5 : key = cstr "ftdi_gpio"
  · rw [if_pos h5] at h
    subst h5
    simp only [Run.ok.injEq] at h
    subst h
    exact ((if_neg (by decide)).trans (if_neg (fun hc => absurd hc.1 (by decide)))).symm
  rw [if_neg h5] at h
  by_cases h6 : key = cstr "qcomlt_debug_board"
  · rw [if_pos h6] at h
    subst h6
    simp only [Run.ok.injEq] at h
    subst h
    exact ((if_neg (by decide)).trans (if_neg (fun hc => absurd hc.1 (by decide)))).symm
  rw [if_neg h6] at h
  by_cases h7 : key = cstr "console"
  · rw [if_pos h7] at h
    subst h7
    simp only [Run.ok.injEq] at h
    subst h
    exact ((if_neg (by decide)).trans (if_neg (fun hc => absurd hc.1 (by decide)))).symm
  rw [if_neg h7] at h
  by_cases h8 : key = cstr "voltage"
  · rw [if_pos h8] at h
    subst h8
    simp only [Run.ok.injEq] at h
    subst h
    exact ((if_neg (by decide)).trans (if_neg (fun hc => absurd hc.1 (by decide)))).symm
  rw [if_neg h8] at h
  by_cases h9 : key = cstr "fastboot"
  · rw [if_pos h9] at h
    subst h9
    simp only [Run.ok.injEq] at h
    subst h
    exact (if_pos rfl).symm
  rw [if_neg h9] at h
  by_cases h10 : key = cstr "fastboot_set_active"
  · rw [if_pos h10] at h
    subst h10
    simp only [Run.ok.injEq] at h
    subst h
    exact ((if_neg (by decide)).trans (if_neg (fun hc => absurd hc.1 (by decide)))).symm
  rw [if_neg h10] at h
  by_cases h11 : key = cstr "broken_fastboot_boot"
  · rw [if_pos h11] at h
    subst h11
    simp only [Run.ok.injEq] at h
    subst h
    by_cases hv : strcmp_eq value (cstr "true") = true
    · rw [if_pos hv]
      exact ((if_neg (by decide)).trans (if_pos ⟨rfl, hv⟩)).symm
    · rw [if_neg hv]
      exact ((if_neg (by decide)).trans (if_neg (fun hc => hv hc.2))).symm
  rw [if_neg h11] at h
  by_cases h12 : key = cstr "description"
  · rw [if_pos h12] at h
    subst h12
    simp only [Run.ok.injEq] at h
    subst h
    exact ((if_neg (by decide)).trans (if_neg (fun hc => absurd hc.1 (by decide)))).symm
  rw [if_neg h12] at h
  by_cases h13 : key = cstr "fastboot_key_timeout"
  · rw [if_pos h13] at h
    subst h13
    simp only [Run.ok.injEq] at h
    subst h
    exact ((if_neg (by decide)).trans (if_neg (fun hc => absurd hc.1 (by decide)))).symm
  rw [if_neg h13] at h
  by_cases h14 : key = cstr "usb_always_on"
  · rw [if_pos h14] at h
    subst h14
    simp only [Run.ok.injEq] at h
    subst h
    exact ((if_neg (by decide)).trans (if_neg (fun hc => absurd hc.1 (by decide)))).symm
  rw [if_neg h14] at h
  by_cases h15 : key = cstr "reset_sequence"
  · rw [if_pos h15] at h
    subst h15
    cases hr : parse_reset_sequence dev.reset value with
    | done reset =>
      rw [hr] at h
      simp only [Run.ok.injEq] at h
      subst h
      exact ((if_neg (by decide)).trans (if_neg (fun hc => absurd hc.1 (by decide)))).symm
    | exit status => rw [hr] at h; cases h
    | out_of_fuel => rw [hr] at h; cases h
  rw [if_neg h15] at h
  cases h

theorem strcmp_eq_copy_true (v : List Nat) :
    strcmp_eq (copy_scalar v) (cstr "true") = (copy_scalar v == cstr "true") := by
  unfold strcmp_eq
  rw [c_string_copy_scalar, c_string_of_no_nul (cstr "true") (by decide)]

/-- The field `boot` after the entries of a mapping have been applied. -/
theorem apply_entries_boot : ∀ (entries : List (List Nat × List Nat)) (dev dev1 : descriptor),
    apply_entries dev entries = .ok dev1 →
      dev1.boot =
        (if broken_boot entries = true then some .device_fastboot_flash_reboot
        else if (last_value (cstr "fastboot") entries).isSome = true then
          dev.boot.or (some .device_fastboot_boot)
        else dev.boot) := by
  intro entries
  induction entries with
  | nil =>
    intro dev dev1 h
    simp only [apply_entries, Run.ok.injEq] at h
    subst h
    simp [broken_boot, last_value]
  | cons entry entries ih =>
    intro dev dev1 h
    simp only [apply_entries] at h
    cases hk : parse_board_key dev (copy_scalar entry.1) (copy_scalar entry.2) with
    | exit status => rw [hk] at h; cases h
    | out_of_fuel => rw [hk] at h; cases h
    | ok dev2 =>
      rw [hk] at h
      have hi := ih dev2 dev1 h
      have hb := parse_board_key_boot dev dev2 _ _ hk
      rw [strcmp_eq_copy_true] at hb
      have hne : cstr "fastboot" ≠ cstr "broken_fastboot_boot" := by decide
      have hbr : broken_boot (entry :: entries) =
          ((copy_scalar entry.1 == cstr "broken_fastboot_boot" &&
            copy_scalar entry.2 == cstr "true") || broken_boot entries) := rfl
      have hlv : last_value (cstr "fastboot") (entry :: entries) =
          (last_value (cstr "fastboot") entries).or
            (if copy_scalar entry.1 = cstr "fastboot" then some (copy_scalar entry.2)
              else none) := rfl
      rw [hi, hb, hbr, hlv]
      rcases Bool.eq_false_or_eq_true (broken_boot entries) with hA | hA <;>
        rcases Option.eq_none_or_eq_some (last_value (cstr "fastboot") entries) with
          hL | ⟨x, hL⟩ <;>
        rcases Option.eq_none_or_eq_some dev.boot with hB | ⟨b, hB⟩ <;>
        by_cases hkf : copy_scalar entry.1 = cstr "fastboot" <;>
        by_cases hkb : copy_scalar entry.1 = cstr "broken_fastboot_boot" <;>
        by_cases hv : copy_scalar entry.2 = cstr "true" <;>
        first
          | (exfalso; exact hne (hkf.symm.trans hkb))
          | simp [hA, hL, hB, hkf, hkb, hv, hne, hne.symm]

/-- The body of the loop of `parse_board` keeps the field `boot` set once `serial` is. -/
theorem parse_board_key_boot_set (dev dev1 : descriptor) (key value : List Nat)
    (h : parse_board_key dev key value = .ok dev1)
    (hinv : dev.serial.isSome = true → dev.boot.isSome = true) :
    dev1.serial.isSome = true → dev1.boot.isSome = true := by
  have hb := parse_board_key_boot dev dev1 key value h
  have hs := (parse_board_key_fields dev dev1 key value h).2.2.2.1
  intro h1
  rw [hb]
  by_cases hkf : key = cstr "fastboot"
  · rw [if_pos hkf]
    cases dev.boot <;> simp
  · rw [if_neg hkf] at hs ⊢
    rw [hs] at h1
    split_ifs
    · rfl
    · exact hinv h1

/-- The loop of `parse_board` keeps the field `boot` set once `serial` is, whatever the
events. -/
theorem parse_board_loop_boot_set : ∀ (fuel : Nat) (dp : device_parser_t) (dev : descriptor)
    (dp1 : device_parser_t) (dev1 : descriptor),
    parse_board_loop fuel dp dev = .ok (dp1, dev1) →
      (dev.serial.isSome = true → dev.boot.isSome = true) →
      dev1.serial.isSome = true → dev1.boot.isSome = true := by
  intro fuel
  induction fuel with
  | zero => intro dp dev dp1 dev1 h; simp [parse_board_loop] at h
  | succ n ih =>
    intro dp dev dp1 dev1 h hinv
    simp only [parse_board_loop] at h
    cases ha : accept dp .YAML_SCALAR_EVENT with
    | exit status => rw [ha] at h; cases h
    | out_of_fuel => rw [ha] at h; cases h
    | ok r =>
      obtain ⟨hit, key, dp2⟩ := r
      rw [ha] at h
      cases hit with
      | false =>
        simp only [Run.ok.injEq, Prod.mk.injEq] at h
        rw [← h.2]
        exact hinv
      | true =>
        simp only at h
        cases he : expect dp2 .YAML_SCALAR_EVENT with
        | exit status => rw [he] at h; cases h
        | out_of_fuel => rw [he] at h; cases h
        | ok r2 =>
          obtain ⟨value, dp3⟩ := r2
          rw [he] at h
          simp only at h
          cases hk : parse_board_key dev key value with
          | exit status => rw [hk] at h; cases h
          | out_of_fuel => rw [hk] at h; cases h
          | ok dev2 =>
            rw [hk] at h
            exact ih dp3 dev2 dp1 dev1 h (parse_board_key_boot_set dev dev2 key value hk hinv)

/-- Every descriptor that `parse_board` adds, whatever the events, has `boot` set. -/
theorem parse_board_boot_set (dp : device_parser_t) (devices : List descriptor)
    (dp1 : device_parser_t) (devices1 : List descriptor)
    (h : parse_board dp devices = .ok (dp1, devices1)) :
    ∃ dev, devices1 = device_add devices dev ∧ dev.boot.isSome = true := by
  unfold parse_board at h
  cases hl : parse_board_loop (dp.pending.length + 2) dp descriptor.calloc with
  | exit status => rw [hl] at h; cases h
  | out_of_fuel => rw [hl] at h; cases h
  | ok r =>
    obtain ⟨dp2, dev⟩ := r
    rw [hl] at h
    simp only at h
    by_cases hi : insufficiently_defined dev = true
    · rw [if_pos hi] at h; cases h
    · rw [if_neg hi] at h
      simp only [Run.ok.injEq, Prod.mk.injEq] at h
      refine ⟨dev, h.2.symm, ?_⟩
      apply parse_board_loop_boot_set _ _ _ _ _ hl (fun hc => by cases hc)
      unfold insufficiently_defined at hi
      cases hs : dev.serial with
      | none => simp [hs] at hi
      | some v => rfl

/-- C24: every descriptor that `parse_board` adds to the registry has a boot function set.
For the entries of an inner mapping, in whatever order, it is the flash-and-reboot function
when the mapping has an entry `broken_fastboot_boot: true` (before or after the `fastboot`
entry; reordering the entries does not change this) and the straight fastboot boot
otherwise, so `device_boot` on the descriptor calls a function that is set; and for any
events at all the descriptor that `parse_board` adds has `boot` set. -/
theorem boot_always_bound (entries : List (List Nat × List Nat)) (e : yaml_event)
    (rest : List yaml_event) (f : Bool) (devices : List descriptor)
    (dp1 : device_parser_t) (devices1 : List descriptor)
    (he : e.type ≠ .YAML_SCALAR_EVENT)
    (h : parse_board (load (render_entries entries ++ e :: rest) f) devices =
      .ok (dp1, devices1)) :
    (∃ dev, devices1 = device_add devices dev ∧
      dev.boot = some (if broken_boot entries = true then boot_fn.device_fastboot_flash_reboot
        else boot_fn.device_fastboot_boot) ∧
      device_boot dev =
        some ((if dev.set_active then [FastbootCall.fastboot_set_active (cstr "a")] else []) ++
          [FastbootCall.fastboot_download] ++
          (if broken_boot entries = true then device_fastboot_flash_reboot
            else device_fastboot_boot))) ∧
    (∀ entries2 : List (List Nat × List Nat), entries.Perm entries2 →
      broken_boot entries2 = broken_boot entries) ∧
    (∀ (dp : device_parser_t) (devices2 : List descriptor) (dp2 : device_parser_t)
      (devices3 : List descriptor), parse_board dp devices2 = .ok (dp2, devices3) →
        ∃ dev, devices3 = device_add devices2 dev ∧ dev.boot.isSome = true ∧
          (device_boot dev).isSome = true) := by
  refine ⟨?_, ?_, ?_⟩
  · rw [parse_board_render entries e rest f devices he] at h
    cases hk : apply_entries descriptor.calloc entries with
    | exit status => rw [hk] at h; cases h
    | out_of_fuel => rw [hk] at h; cases h
    | ok dev =>
      rw [hk] at h
      simp only at h
      by_cases hi : insufficiently_defined dev = true
      · rw [if_pos hi] at h; cases h
      · rw [if_neg hi] at h
        simp only [Run.ok.injEq, Prod.mk.injEq] at h
        have hb := apply_entries_boot entries descriptor.calloc dev hk
        have hs := (apply_entries_fields entries descriptor.calloc dev hk).2.2.2.1
        have e1 : descriptor.calloc.boot = none := rfl
        have e2 : descriptor.calloc.serial = none := rfl
        rw [e2, Option.or_none] at hs
        have hser : (last_value (cstr "fastboot") entries).isSome = true := by
          rw [← hs]
          unfold insufficiently_defined at hi
          cases hs2 : dev.serial with
          | none => simp [hs2] at hi
          | some v => rfl
        rw [e1, if_pos hser] at hb
        have hboot : dev.boot = some (if broken_boot entries = true then
            boot_fn.device_fastboot_flash_reboot else boot_fn.device_fastboot_boot) := by
          rw [hb]
          by_cases hbr : broken_boot entries = true <;> simp [hbr]
        refine ⟨dev, h.2.symm, hboot, ?_⟩
        unfold device_boot
        rw [hboot]
        by_cases hbr : broken_boot entries = true <;> simp [hbr, boot_fn.call]
  · intro entries2 hp
    rw [Bool.eq_iff_iff]
    simp only [broken_boot, List.any_eq_true]
    constructor
    · rintro ⟨x, hx, hc⟩
      exact ⟨x, hp.mem_iff.mpr hx, hc⟩
    · rintro ⟨x, hx, hc⟩
      exact ⟨x, hp.mem_iff.mp hx, hc⟩
  · intro dp devices2 dp2 devices3 hrun
    obtain ⟨dev, hd, hb⟩ := parse_board_boot_set dp devices2 dp2 devices3 hrun
    refine ⟨dev, hd, hb, ?_⟩
    unfold device_boot
    cases hbo : dev.boot with
    | none => rw [hbo] at hb; cases hb
    | some fn => rfl

/-- C24 at a mapping whose `broken_fastboot_boot: true` precedes `fastboot`. -/
theorem boot_always_bound_witness :
    ∃ dev, [{ descriptor.calloc with
            board := some (cstr "foo"), serial := some (cstr "SN1"),
            console_dev := some (cstr "/dev/ttyUSB0"),
            boot := some .device_fastboot_flash_reboot,
            write := some .console, send_break := some .console }] = device_add [] dev ∧
      dev.boot = some (if broken_boot [(cstr "broken_fastboot_boot", cstr "true"),
          (cstr "board", cstr "foo"), (cstr "fastboot", cstr "SN1"),
          (cstr "console", cstr "/dev/ttyUSB0")] = true
        then boot_fn.device_fastboot_flash_reboot else boot_fn.device_fastboot_boot) ∧
      device_boot dev =
        some ((if dev.set_active then [FastbootCall.fastboot_set_active (cstr "a")] else []) ++
          [FastbootCall.fastboot_download] ++
          (if broken_boot [(cstr "broken_fastboot_boot", cstr "true"),
              (cstr "board", cstr "foo"), (cstr "fastboot", cstr "SN1"),
              (cstr "console", cstr "/dev/ttyUSB0")] = true
            then device_fastboot_flash_reboot else device_fastboot_boot)) :=
  (boot_always_bound
    [(cstr "broken_fastboot_boot", cstr "true"), (cstr "board", cstr "foo"),
     (cstr "fastboot", cstr "SN1"), (cstr "console", cstr "/dev/ttyUSB0")]
    (event .YAML_MAPPING_END_EVENT) [event .YAML_SEQUENCE_END_EVENT] false []
    (load [event .YAML_MAPPING_END_EVENT, event .YAML_SEQUENCE_END_EVENT] false) _
    (by decide) (by decide)).1

end Cdba
